import Mathlib

/-
Verification of the core matching engine of src/hft-sim.cpp (single-symbol,
single-threaded limit order book).  The C++ code is shallowly embedded:
machine integers become Int/Nat (no arithmetic in the source ever nears the
64-bit bounds exercised here), the per-level ring buffer becomes the bounded
FIFO queue it implements (push at tail / pop at head / linear-scan removal,
with the ring-full check `(tail+1)%W == head`, i.e. size+1 = W), the
preallocated order pool becomes a list of order records plus a LIFO free
list, and `unordered_map<u64,u64> clientToEngine` becomes an association
list with find / erase-by-key / overwrite-insert.  C++ exceptions
(pool exhausted, ring full) and out-of-range vector indexing (undefined
behaviour) are modelled by Option: `none` means the operation did not
complete normally.  The wall-clock timestamp placed on each emitted trade is
nondeterministic in the source (a fresh clock read per trade); it is
represented by the taker's arrival timestamp, which no property below
depends on.
-/

namespace HFTSim

-- ------------------------------- ENUMS -----------------------------------

inductive Side : Type where
  | BUY : Side
  | SELL : Side
deriving DecidableEq

inductive OrderType : Type where
  | LIMIT : OrderType
  | MARKET : OrderType
deriving DecidableEq

inductive TimeInForce : Type where
  | GFD : TimeInForce
  | IOC : TimeInForce
  | FOK : TimeInForce
deriving DecidableEq

-- ------------------------------- CONFIG ----------------------------------

/-- The compile-time constants of the source (PRICE_LEVELS,
RING_CAPACITY_PER_LEVEL, ORDER_POOL_CAPACITY), made parameters so that
states stay small enough to evaluate. -/
structure Config : Type where
  nlevels : Nat
  ringCap : Nat
  poolCap : Nat
deriving DecidableEq

/-- The constants of the source file. -/
def srcConfig : Config := { nlevels := 20001, ringCap := 4096, poolCap := 3000000 }

/-- A small instance of the same engine used for concrete evaluation. -/
def testConfig : Config := { nlevels := 8, ringCap := 4, poolCap := 8 }

-- ------------------------------- ORDER -----------------------------------

structure Order : Type where
  clientId : Nat := 0
  engineId : Nat := 0
  side : Side := Side.BUY
  type : OrderType := OrderType.LIMIT
  tif : TimeInForce := TimeInForce.GFD
  priceIdx : Int := -1
  qty : Int := 0
  ts : Nat := 0
  active : Bool := false
deriving DecidableEq

-- ------------------------------- TRADE -----------------------------------

structure Trade : Type where
  takerClient : Nat
  makerClient : Nat
  qty : Int
  priceIdx : Int
  ts : Nat
deriving DecidableEq

-- ----------------------- RING LEVEL (FIFO queue view) ---------------------

/-- One price level: the FIFO queue of engine ids implemented by the ring
buffer, plus the aggregate quantity counter. -/
structure RingLevel : Type where
  data : List Nat := []
  totalQty : Int := 0
deriving DecidableEq

-- ------------------------------- STATE -----------------------------------

/-- The engine state: OrderPool (pool + freeList), OrderBook (bids, asks,
bestBid, bestAsk), client index and trade log. -/
structure EngineState : Type where
  pool : List Order
  freeList : List Nat
  bids : List RingLevel
  asks : List RingLevel
  bestBid : Int
  bestAsk : Int
  clientToEngine : List (Nat × Nat)
  trades : List Trade
deriving DecidableEq

/-- Fresh engine: empty book, all pool slots on the free list (the C++
free list is initialised so that slot 0 is handed out first). -/
def initState (cfg : Config) : EngineState :=
  { pool := List.replicate cfg.poolCap {}
  , freeList := List.range cfg.poolCap
  , bids := List.replicate cfg.nlevels {}
  , asks := List.replicate cfg.nlevels {}
  , bestBid := -1
  , bestAsk := -1
  , clientToEngine := []
  , trades := [] }

-- --------------------------- POOL OPERATIONS -----------------------------

/-- pool[idx] (reads outside the pool are undefined behaviour in C++ and
never happen in valid states; the model returns the default record). -/
def poolGet (s : EngineState) (eid : Nat) : Order :=
  s.pool.getD eid {}

def poolSet (s : EngineState) (eid : Nat) (o : Order) : EngineState :=
  { s with pool := s.pool.set eid o }

/-- OrderPool::free: clear active and qty, push the index on the free list.
All other fields of the slot are left as they were. -/
def poolFree (s : EngineState) (eid : Nat) : EngineState :=
  let o := poolGet s eid
  { s with pool := s.pool.set eid { o with active := false, qty := 0 }
         , freeList := eid :: s.freeList }

/-- OrderPool::allocate: take the top of the LIFO free list, copy the
template in, set engineId and active.  Throws (none) when exhausted. -/
def poolAllocate (s : EngineState) (o : Order) : Option (Nat × EngineState) :=
  match s.freeList with
  | [] => none
  | idx :: rest =>
      some (idx, { s with freeList := rest
                        , pool := s.pool.set idx { o with engineId := idx, active := true } })

-- --------------------------- LEVEL ACCESS --------------------------------

/-- bids[i] / asks[i].  A negative index is an out-of-range vector access in
the source (undefined behaviour, unreachable in valid states). -/
def levelAt (ls : List RingLevel) (i : Int) : RingLevel :=
  if i < 0 then {} else ls.getD i.toNat {}

def setLevelAt (ls : List RingLevel) (i : Int) (l : RingLevel) : List RingLevel :=
  if i < 0 then ls else ls.set i.toNat l

/-- The side's level array: BUY orders rest on bids, SELL on asks. -/
def sideLevels (s : EngineState) : Side → List RingLevel
  | Side.BUY => s.bids
  | Side.SELL => s.asks

def setSideLevel (s : EngineState) (sd : Side) (i : Int) (l : RingLevel) : EngineState :=
  match sd with
  | Side.BUY => { s with bids := setLevelAt s.bids i l }
  | Side.SELL => { s with asks := setLevelAt s.asks i l }

/-- The cached best index of a side (bestBid for bids, bestAsk for asks). -/
def sideBest (s : EngineState) : Side → Int
  | Side.BUY => s.bestBid
  | Side.SELL => s.bestAsk

/-- RingLevel::push: append at the tail; the ring is full when its occupancy
plus one reaches the capacity W ((tail+1)%W == head). -/
def ringPush (cfg : Config) (l : RingLevel) (eid : Nat) (qty : Int) : Option RingLevel :=
  if l.data.length + 1 = cfg.ringCap then none
  else some { data := l.data ++ [eid], totalQty := l.totalQty + qty }

-- --------------------------- BEST-OF-BOOK CACHES --------------------------

/-- The downward scan of OrderBook::updateBestAfterRemove for bids:
for i = n down to 0, the first non-empty level, else -1. -/
def scanDownNat (bids : List RingLevel) : Nat → Int
  | 0 => if (levelAt bids 0).data = [] then -1 else 0
  | n + 1 =>
      if (levelAt bids ((n + 1 : Nat) : Int)).data = [] then scanDownNat bids n
      else ((n + 1 : Nat) : Int)

def scanDown (bids : List RingLevel) (idx : Int) : Int :=
  if idx < 0 then -1 else scanDownNat bids idx.toNat

/-- The upward scan for asks: for i = start, start+1, ... (k candidates),
the first non-empty level, else -1. -/
def scanUpAux (asks : List RingLevel) : Nat → Nat → Int
  | _, 0 => -1
  | i, k + 1 =>
      if (levelAt asks (i : Int)).data = [] then scanUpAux asks (i + 1) k
      else (i : Int)

def scanUp (asks : List RingLevel) (nlevels : Nat) (idx : Int) : Int :=
  if idx < 0 then -1 else scanUpAux asks idx.toNat (nlevels - idx.toNat)

/-- OrderBook::updateBestAfterAdd. -/
def updateBestAfterAdd (s : EngineState) (sd : Side) (idx : Int) : EngineState :=
  match sd with
  | Side.BUY => if s.bestBid < idx then { s with bestBid := idx } else s
  | Side.SELL =>
      if s.bestAsk = -1 ∨ idx < s.bestAsk then { s with bestAsk := idx } else s

/-- OrderBook::updateBestAfterRemove: only rescans when the cached best is
the vacated index. -/
def updateBestAfterRemove (cfg : Config) (s : EngineState) (sd : Side) (idx : Int) :
    EngineState :=
  match sd with
  | Side.BUY =>
      if s.bestBid ≠ idx then s else { s with bestBid := scanDown s.bids idx }
  | Side.SELL =>
      if s.bestAsk ≠ idx then s else { s with bestAsk := scanUp s.asks cfg.nlevels idx }

-- --------------------------- CLIENT INDEX --------------------------------

def ctfind (m : List (Nat × Nat)) (c : Nat) : Option Nat :=
  (m.find? (fun p => p.1 == c)).map (fun p => p.2)

def cterase (m : List (Nat × Nat)) (c : Nat) : List (Nat × Nat) :=
  m.filter (fun p => p.1 != c)

/-- unordered_map operator[] assignment: the key maps to the new value and
to nothing else. -/
def ctinsert (m : List (Nat × Nat)) (c : Nat) (e : Nat) : List (Nat × Nat) :=
  (c, e) :: cterase m c

-- ------------------------------- ENGINE ----------------------------------

/-- Engine::emitTrade (the emission timestamp, a wall-clock read in the
source, is represented by the taker's arrival timestamp). -/
def emitTrade (s : EngineState) (taker maker : Order) (qty : Int) (priceIdx : Int) :
    EngineState :=
  { s with trades := s.trades ++
      [{ takerClient := taker.clientId, makerClient := maker.clientId
       , qty := qty, priceIdx := priceIdx, ts := taker.ts }] }

/-- Engine::validIdx.  NOTE: the source defines this helper but never calls
it; it is embedded for reference. -/
def validIdx (cfg : Config) (idx : Int) : Bool :=
  decide (0 ≤ idx) && decide (idx < (cfg.nlevels : Int))

/-- The body shared by all four while-loops of matchAndAdd / matchMarket:
one match against the maker at the FIFO head of the best opposite level
(`opp` is the side of the book being consumed; the level's queue is
makerEid :: restQ).  Emits the trade, decrements maker, aggregate and taker
by the fill, pops / frees / unindexes an exhausted maker, and refreshes the
best cache when the level empties. -/
def matchTop (cfg : Config) (opp : Side) (makerEid : Nat) (restQ : List Nat)
    (taker : Order) (s : EngineState) : Order × EngineState :=
  let best := sideBest s opp
  let pl := levelAt (sideLevels s opp) best
  let maker := poolGet s makerEid
  let fill := min maker.qty taker.qty
  let s1 := emitTrade s taker maker fill maker.priceIdx
  let s2 := poolSet s1 makerEid { maker with qty := maker.qty - fill }
  let taker1 := { taker with qty := taker.qty - fill }
  let s3 :=
    if maker.qty - fill = 0 then
      let s3a := setSideLevel s2 opp best { data := restQ, totalQty := pl.totalQty - fill }
      let s3b := poolFree s3a makerEid
      { s3b with clientToEngine := cterase s3b.clientToEngine maker.clientId }
    else
      setSideLevel s2 opp best { pl with totalQty := pl.totalQty - fill }
  let s4 :=
    if (levelAt (sideLevels s3 opp) best).data = [] then
      updateBestAfterRemove cfg s3 opp best
    else s3
  (taker1, s4)

/-- The while-loop of the matching sweeps, fuelled (the C++ loop runs until
its condition fails; `cross` is the price guard of the condition, constantly
true for market orders).  A defensively-empty best level makes the loop
`continue` after refreshing the cache, exactly as in the source. -/
def sweep (cfg : Config) (opp : Side) (cross : Int → Bool) :
    Nat → Order → EngineState → Order × EngineState
  | 0, taker, s => (taker, s)
  | fuel + 1, taker, s =>
      if 0 < taker.qty ∧ sideBest s opp ≠ -1 ∧ cross (sideBest s opp) = true then
        match (levelAt (sideLevels s opp) (sideBest s opp)).data with
        | [] =>
            sweep cfg opp cross fuel taker
              (updateBestAfterRemove cfg s opp (sideBest s opp))
        | makerEid :: restQ =>
            let r := matchTop cfg opp makerEid restQ taker s
            sweep cfg opp cross fuel r.1 r.2
      else (taker, s)

/-- Number of resting orders on one side of the book. -/
def oppOrderCount (s : EngineState) (opp : Side) : Nat :=
  ((sideLevels s opp).map (fun l => l.data.length)).sum

/-- Fuel that provably suffices for the sweep to reach its exit condition
(each iteration pops a maker, zeroes the taker, or advances the best cache,
which is bounded by the level count). -/
def sweepFuel (cfg : Config) (s : EngineState) (opp : Side) : Nat :=
  oppOrderCount s opp + cfg.nlevels + 1

/-- Residual admission (the passive-add tail of matchAndAdd): allocate a
pool slot, push onto the level of the taker's side, refresh best-of-side,
update the client index.  `none` models vector out-of-range access (bad
price index), pool exhaustion or a full ring. -/
def addPassive (cfg : Config) (taker : Order) (s : EngineState) : Option EngineState :=
  if taker.priceIdx < 0 ∨ (cfg.nlevels : Int) ≤ taker.priceIdx then none
  else
    match poolAllocate s taker with
    | none => none
    | some (eid, s1) =>
        match ringPush cfg (levelAt (sideLevels s1 taker.side) taker.priceIdx) eid taker.qty with
        | none => none
        | some pl =>
            let s2 := setSideLevel s1 taker.side taker.priceIdx pl
            let s3 := updateBestAfterAdd s2 taker.side taker.priceIdx
            some { s3 with clientToEngine := ctinsert s3.clientToEngine taker.clientId eid }

/-- Engine::matchAndAdd: sweep the opposite book while the taker crosses,
then add any LIMIT residual as a resting order.  The time-in-force is never
consulted. -/
def matchAndAdd (cfg : Config) (taker : Order) (s : EngineState) : Option EngineState :=
  match taker.side with
  | Side.BUY =>
      let r := sweep cfg Side.SELL (fun a => decide (a ≤ taker.priceIdx))
                 (sweepFuel cfg s Side.SELL) taker s
      if 0 < r.1.qty ∧ r.1.type = OrderType.LIMIT then addPassive cfg r.1 r.2 else some r.2
  | Side.SELL =>
      let r := sweep cfg Side.BUY (fun b => decide (taker.priceIdx ≤ b))
                 (sweepFuel cfg s Side.BUY) taker s
      if 0 < r.1.qty ∧ r.1.type = OrderType.LIMIT then addPassive cfg r.1 r.2 else some r.2

/-- Engine::matchMarket: sweep with no price guard; never adds a residual. -/
def matchMarket (cfg : Config) (taker : Order) (s : EngineState) : EngineState :=
  match taker.side with
  | Side.BUY =>
      (sweep cfg Side.SELL (fun _ => true) (sweepFuel cfg s Side.SELL) taker s).2
  | Side.SELL =>
      (sweep cfg Side.BUY (fun _ => true) (sweepFuel cfg s Side.BUY) taker s).2

/-- Engine::placeLimit. -/
def placeLimit (cfg : Config) (s : EngineState) (clientId : Nat) (sd : Side)
    (priceIdx : Int) (qty : Int) (ts : Nat) (tif : TimeInForce) : Option EngineState :=
  matchAndAdd cfg
    { clientId := clientId, side := sd, type := OrderType.LIMIT
    , tif := tif, priceIdx := priceIdx, qty := qty, ts := ts } s

/-- Engine::placeMarket (total: the market sweep allocates nothing). -/
def placeMarket (cfg : Config) (s : EngineState) (clientId : Nat) (sd : Side)
    (qty : Int) (ts : Nat) : EngineState :=
  matchMarket cfg
    { clientId := clientId, side := sd, type := OrderType.MARKET
    , tif := TimeInForce.GFD, priceIdx := -1, qty := qty, ts := ts } s

/-- Engine::cancel: look up the client id; stale-inactive entries are only
erased; otherwise scan the order's level from the head, compact the ring
around the removed slot, decrement the aggregate, free the slot, erase the
index entry, and refresh best-of-side if the level emptied.  When the scan
misses ("maybe already matched") the source frees the slot and erases the
entry, returning false. -/
def cancel (cfg : Config) (s : EngineState) (clientId : Nat) : Bool × EngineState :=
  match ctfind s.clientToEngine clientId with
  | none => (false, s)
  | some eid =>
      let o := poolGet s eid
      if o.active = false then
        (false, { s with clientToEngine := cterase s.clientToEngine clientId })
      else
        let lvl := levelAt (sideLevels s o.side) o.priceIdx
        if lvl.data.contains eid then
          let lvl1 : RingLevel := { data := lvl.data.erase eid, totalQty := lvl.totalQty - o.qty }
          let s1 := setSideLevel s o.side o.priceIdx lvl1
          let s2 := poolFree s1 eid
          let s3 := { s2 with clientToEngine := cterase s2.clientToEngine clientId }
          let s4 := if lvl1.data = [] then updateBestAfterRemove cfg s3 o.side o.priceIdx else s3
          (true, s4)
        else
          let s1 := poolFree s eid
          (false, { s1 with clientToEngine := cterase s1.clientToEngine clientId })

/-- Engine::replace: cancel then place a fresh limit with the same clientId.
The source reads old.side and old.tif through a pool reference after the
cancel has freed the slot; free leaves those fields intact, so the model
reads them from the post-cancel pool. -/
def replace (cfg : Config) (s : EngineState) (clientId : Nat) (newPriceIdx : Int)
    (newQty : Int) (ts : Nat) : Option (Bool × EngineState) :=
  match ctfind s.clientToEngine clientId with
  | none => some (false, s)
  | some oldEid =>
      let old := poolGet s oldEid
      if old.active = false then some (false, s)
      else
        let s1 := (cancel cfg s clientId).2
        let old1 := poolGet s1 oldEid
        (placeLimit cfg s1 clientId old1.side newPriceIdx newQty ts old1.tif).map
          (fun s2 => (true, s2))

-- --------------------------- INVARIANTS ----------------------------------

/-- Structural sizes: the two level arrays have the configured length. -/
@[reducible] def LenInv (cfg : Config) (s : EngineState) : Prop :=
  s.bids.length = cfg.nlevels ∧ s.asks.length = cfg.nlevels ∧ 0 < cfg.nlevels

/-- bestBid is the maximum index of a non-empty bid level, or -1: it bounds
every non-empty level from above and, when set, is in range and attained. -/
@[reducible] def BestBidInv (cfg : Config) (s : EngineState) : Prop :=
  (∀ i ∈ List.range cfg.nlevels, (levelAt s.bids (i : Int)).data ≠ [] → (i : Int) ≤ s.bestBid)
  ∧ (s.bestBid ≠ -1 →
      0 ≤ s.bestBid ∧ s.bestBid < (cfg.nlevels : Int) ∧ (levelAt s.bids s.bestBid).data ≠ [])

/-- bestAsk is the minimum index of a non-empty ask level, or -1. -/
@[reducible] def BestAskInv (cfg : Config) (s : EngineState) : Prop :=
  (∀ i ∈ List.range cfg.nlevels, (levelAt s.asks (i : Int)).data ≠ [] →
      s.bestAsk ≤ (i : Int) ∧ s.bestAsk ≠ -1)
  ∧ (s.bestAsk ≠ -1 →
      0 ≤ s.bestAsk ∧ s.bestAsk < (cfg.nlevels : Int) ∧ (levelAt s.asks s.bestAsk).data ≠ [])

/-- The book is not crossed at rest. -/
@[reducible] def UncrossedInv (s : EngineState) : Prop :=
  s.bestBid ≠ -1 → s.bestAsk ≠ -1 → s.bestBid < s.bestAsk

/-- Per level: the aggregate counter equals the sum of the remaining
quantities of the contained orders. -/
@[reducible] def levelQtyOk (s : EngineState) (l : RingLevel) : Prop :=
  l.totalQty = (l.data.map (fun e => (poolGet s e).qty)).sum

@[reducible] def QtyInv (cfg : Config) (s : EngineState) : Prop :=
  (∀ i ∈ List.range cfg.nlevels, levelQtyOk s (levelAt s.bids (i : Int)))
  ∧ (∀ i ∈ List.range cfg.nlevels, levelQtyOk s (levelAt s.asks (i : Int)))

/-- All engine ids currently resting anywhere in the book. -/
def allEids (s : EngineState) : List Nat :=
  ((s.bids ++ s.asks).map RingLevel.data).flatten

/-- Every resting id occurs exactly once in the whole book. -/
@[reducible] def UniqInv (s : EngineState) : Prop :=
  (allEids s).Nodup

/-- Every id in a level refers to an active order of that side and price
with positive remaining quantity. -/
@[reducible] def MemInvSide (cfg : Config) (s : EngineState) (sd : Side) : Prop :=
  ∀ i ∈ List.range cfg.nlevels, ∀ e ∈ (levelAt (sideLevels s sd) (i : Int)).data,
    (poolGet s e).active = true ∧ (poolGet s e).side = sd ∧
    (poolGet s e).priceIdx = (i : Int) ∧ 0 < (poolGet s e).qty

@[reducible] def MemInv (cfg : Config) (s : EngineState) : Prop :=
  MemInvSide cfg s Side.BUY ∧ MemInvSide cfg s Side.SELL

/-- The free list holds no duplicates and its slots are inactive and in
range. -/
@[reducible] def FreeInv (s : EngineState) : Prop :=
  s.freeList.Nodup ∧ ∀ e ∈ s.freeList, (poolGet s e).active = false ∧ e < s.pool.length

/-- Every client-index entry refers to an active slot that carries the same
client id and rests in the level of its side and price. -/
@[reducible] def ClientInv (s : EngineState) : Prop :=
  ∀ p ∈ s.clientToEngine,
    (poolGet s p.2).active = true ∧ (poolGet s p.2).clientId = p.1 ∧
    p.2 ∈ (levelAt (sideLevels s (poolGet s p.2).side) (poolGet s p.2).priceIdx).data

/-- The reachable-state invariant of the engine. -/
structure Inv (cfg : Config) (s : EngineState) : Prop where
  len : LenInv cfg s
  bb : BestBidInv cfg s
  ba : BestAskInv cfg s
  unx : UncrossedInv s
  qty : QtyInv cfg s
  uniq : UniqInv s
  mem : MemInv cfg s
  free : FreeInv s
  client : ClientInv s

-- --------------------- SPEC-SIDE DEFINITIONS (claims) ---------------------

/-- Modelled from the spec, for the price/time-priority claim: consuming a
FIFO queue of (maker client, remaining qty) pairs in admission order with a
taker of quantity t, producing the expected trades and the remaining queue. -/
def specConsume (takerCid : Nat) (p : Int) (ts : Nat) :
    Int → List (Nat × Int) → List Trade × List (Nat × Int)
  | _, [] => ([], [])
  | t, (c, q) :: rest =>
      if t ≤ 0 then ([], (c, q) :: rest)
      else if q ≤ t then
        let r := specConsume takerCid p ts (t - q) rest
        ({ takerClient := takerCid, makerClient := c, qty := q, priceIdx := p, ts := ts } :: r.1,
         r.2)
      else
        ([{ takerClient := takerCid, makerClient := c, qty := t, priceIdx := p, ts := ts }],
         (c, q - t) :: rest)

/-- Spec-side consumption by a whole sequence of takers. -/
def specConsumeAll (p : Int) (ts : Nat) :
    List (Nat × Int) → List (Nat × Int) → List Trade × List (Nat × Int)
  | [], q => ([], q)
  | (cid, t) :: rest, q =>
      let r1 := specConsume cid p ts t q
      let r2 := specConsumeAll p ts rest r1.2
      (r1.1 ++ r2.1, r2.2)

/-- Drive a sequence of fully-crossing BUY limit takers through placeLimit. -/
def runTakers (cfg : Config) (pidx : Int) (ts : Nat) :
    List (Nat × Int) → EngineState → Option EngineState
  | [], s => some s
  | (cid, q) :: rest, s =>
      match placeLimit cfg s cid Side.BUY pidx q ts TimeInForce.GFD with
      | none => none
      | some s1 => runTakers cfg pidx ts rest s1

/-- A book whose only resting asks form the single queue at level p. -/
@[reducible] def OnlyAskLevel (cfg : Config) (p : Int) (s : EngineState) : Prop :=
  ∀ i ∈ List.range cfg.nlevels, (i : Int) ≠ p → (levelAt s.asks (i : Int)).data = []

/-- The (maker client, remaining qty) view of the ask queue at level p. -/
def queueView (s : EngineState) (p : Int) : List (Nat × Int) :=
  (levelAt s.asks p).data.map (fun e => ((poolGet s e).clientId, (poolGet s e).qty))

/-- A book whose only resting bids form the single queue at level p. -/
@[reducible] def OnlyBidLevel (cfg : Config) (p : Int) (s : EngineState) : Prop :=
  ∀ i ∈ List.range cfg.nlevels, (i : Int) ≠ p → (levelAt s.bids (i : Int)).data = []

/-- The (maker client, remaining qty) view of the bid queue at level p. -/
def queueViewBid (s : EngineState) (p : Int) : List (Nat × Int) :=
  (levelAt s.bids p).data.map (fun e => ((poolGet s e).clientId, (poolGet s e).qty))

/-- Drive a sequence of fully-crossing SELL limit takers through placeLimit. -/
def runTakersSell (cfg : Config) (pidx : Int) (ts : Nat) :
    List (Nat × Int) → EngineState → Option EngineState
  | [], s => some s
  | (cid, q) :: rest, s =>
      match placeLimit cfg s cid Side.SELL pidx q ts TimeInForce.GFD with
      | none => none
      | some s1 => runTakersSell cfg pidx ts rest s1

/-- Erase the recorded time-in-force of every pool slot (the only trace a
taker's tif leaves in the engine). -/
def stripTif (s : EngineState) : EngineState :=
  { s with pool := s.pool.map (fun o => { o with tif := TimeInForce.GFD }) }

-- --------------------------- TEST FIXTURES -------------------------------

/-- Book preloaded with sell 3 @ index 5 by client 1 (spec scenario 4). -/
def c1s1 : EngineState :=
  (placeLimit testConfig (initState testConfig) 1 Side.SELL 5 3 0 TimeInForce.GFD).getD
    (initState testConfig)

/-- The FOK buy of spec scenario 4 applied to that book. -/
def c1res : EngineState :=
  (placeLimit testConfig c1s1 30 Side.BUY 5 10 1 TimeInForce.FOK).getD (initState testConfig)

/-- Book preloaded with sell 3 @ index 4 by client 1 (spec scenario 3). -/
def c2s1 : EngineState :=
  (placeLimit testConfig (initState testConfig) 1 Side.SELL 4 3 0 TimeInForce.GFD).getD
    (initState testConfig)

/-- The IOC buy of spec scenario 3 applied to that book. -/
def c2res : EngineState :=
  (placeLimit testConfig c2s1 20 Side.BUY 4 10 1 TimeInForce.IOC).getD (initState testConfig)

/-- Book with one resting sell (client 1, qty 3, level 5), for replace. -/
def c7state : EngineState :=
  (placeLimit testConfig (initState testConfig) 1 Side.SELL 5 3 0 TimeInForce.GFD).getD
    (initState testConfig)

/-- Book with the two-maker ask queue [(1,2),(2,3)] at level 5. -/
def c4state : EngineState :=
  ((placeLimit testConfig (initState testConfig) 1 Side.SELL 5 2 0 TimeInForce.GFD).bind
    (fun s1 => placeLimit testConfig s1 2 Side.SELL 5 3 1 TimeInForce.GFD)).getD
    (initState testConfig)

/-- The result of the single witness taker (client 10, qty 4) on c4state. -/
def c4res : EngineState :=
  (runTakers testConfig 5 2 [(10, 4)] c4state).getD (initState testConfig)

/-- Book with the two-maker bid queue [(1,2),(2,3)] at level 5. -/
def c4stateB : EngineState :=
  ((placeLimit testConfig (initState testConfig) 1 Side.BUY 5 2 0 TimeInForce.GFD).bind
    (fun s1 => placeLimit testConfig s1 2 Side.BUY 5 3 1 TimeInForce.GFD)).getD
    (initState testConfig)

/-- The result of the single witness SELL taker (client 10, qty 4) on c4stateB. -/
def c4resB : EngineState :=
  (runTakersSell testConfig 5 2 [(10, 4)] c4stateB).getD (initState testConfig)

-- ========================================================================
-- THEOREMS
-- ========================================================================

-- --------------------------- list helpers --------------------------------

theorem getD_set_self {α : Type} (l : List α) (i : Nat) (a d : α) (h : i < l.length) :
    (l.set i a).getD i d = a := by
  rw [List.getD_eq_getElem?_getD, List.getElem?_set_self h]
  rfl

theorem getD_set_ne {α : Type} (l : List α) (i j : Nat) (a d : α) (h : i ≠ j) :
    (l.set i a).getD j d = l.getD j d := by
  rw [List.getD_eq_getElem?_getD, List.getElem?_set_ne h, ← List.getD_eq_getElem?_getD]

theorem getD_set_oob {α : Type} (l : List α) (i j : Nat) (a d : α) (h : l.length ≤ i) :
    (l.set i a).getD j d = l.getD j d := by
  rw [List.set_eq_of_length_le h]

-- --------------------------- state projections ----------------------------

@[simp] theorem sideLevels_buy (s : EngineState) : sideLevels s Side.BUY = s.bids := rfl

@[simp] theorem sideLevels_sell (s : EngineState) : sideLevels s Side.SELL = s.asks := rfl

@[simp] theorem sideBest_buy (s : EngineState) : sideBest s Side.BUY = s.bestBid := rfl

@[simp] theorem sideBest_sell (s : EngineState) : sideBest s Side.SELL = s.bestAsk := rfl

@[simp] theorem poolSet_proj (s : EngineState) (eid : Nat) (o : Order) :
    (poolSet s eid o).pool = s.pool.set eid o ∧
    (poolSet s eid o).freeList = s.freeList ∧
    (poolSet s eid o).bids = s.bids ∧ (poolSet s eid o).asks = s.asks ∧
    (poolSet s eid o).bestBid = s.bestBid ∧ (poolSet s eid o).bestAsk = s.bestAsk ∧
    (poolSet s eid o).clientToEngine = s.clientToEngine ∧
    (poolSet s eid o).trades = s.trades :=
  ⟨rfl, rfl, rfl, rfl, rfl, rfl, rfl, rfl⟩

@[simp] theorem poolFree_proj (s : EngineState) (eid : Nat) :
    (poolFree s eid).pool = s.pool.set eid { poolGet s eid with active := false, qty := 0 } ∧
    (poolFree s eid).freeList = eid :: s.freeList ∧
    (poolFree s eid).bids = s.bids ∧ (poolFree s eid).asks = s.asks ∧
    (poolFree s eid).bestBid = s.bestBid ∧ (poolFree s eid).bestAsk = s.bestAsk ∧
    (poolFree s eid).clientToEngine = s.clientToEngine ∧
    (poolFree s eid).trades = s.trades :=
  ⟨rfl, rfl, rfl, rfl, rfl, rfl, rfl, rfl⟩

@[simp] theorem emitTrade_proj (s : EngineState) (t m : Order) (q p : Int) :
    (emitTrade s t m q p).pool = s.pool ∧
    (emitTrade s t m q p).freeList = s.freeList ∧
    (emitTrade s t m q p).bids = s.bids ∧ (emitTrade s t m q p).asks = s.asks ∧
    (emitTrade s t m q p).bestBid = s.bestBid ∧ (emitTrade s t m q p).bestAsk = s.bestAsk ∧
    (emitTrade s t m q p).clientToEngine = s.clientToEngine ∧
    (emitTrade s t m q p).trades = s.trades ++
      [{ takerClient := t.clientId, makerClient := m.clientId, qty := q, priceIdx := p, ts := t.ts }] :=
  ⟨rfl, rfl, rfl, rfl, rfl, rfl, rfl, rfl⟩

theorem setSideLevel_proj (s : EngineState) (sd : Side) (i : Int) (l : RingLevel) :
    (setSideLevel s sd i l).pool = s.pool ∧
    (setSideLevel s sd i l).freeList = s.freeList ∧
    (setSideLevel s sd i l).bestBid = s.bestBid ∧
    (setSideLevel s sd i l).bestAsk = s.bestAsk ∧
    (setSideLevel s sd i l).clientToEngine = s.clientToEngine ∧
    (setSideLevel s sd i l).trades = s.trades := by
  cases sd <;> exact ⟨rfl, rfl, rfl, rfl, rfl, rfl⟩

@[simp] theorem setSideLevel_buy (s : EngineState) (i : Int) (l : RingLevel) :
    (setSideLevel s Side.BUY i l).bids = setLevelAt s.bids i l ∧
    (setSideLevel s Side.BUY i l).asks = s.asks :=
  ⟨rfl, rfl⟩

@[simp] theorem setSideLevel_sell (s : EngineState) (i : Int) (l : RingLevel) :
    (setSideLevel s Side.SELL i l).asks = setLevelAt s.asks i l ∧
    (setSideLevel s Side.SELL i l).bids = s.bids :=
  ⟨rfl, rfl⟩

theorem updateBestAfterRemove_proj (cfg : Config) (s : EngineState) (sd : Side) (i : Int) :
    (updateBestAfterRemove cfg s sd i).pool = s.pool ∧
    (updateBestAfterRemove cfg s sd i).freeList = s.freeList ∧
    (updateBestAfterRemove cfg s sd i).bids = s.bids ∧
    (updateBestAfterRemove cfg s sd i).asks = s.asks ∧
    (updateBestAfterRemove cfg s sd i).clientToEngine = s.clientToEngine ∧
    (updateBestAfterRemove cfg s sd i).trades = s.trades := by
  cases sd <;> unfold updateBestAfterRemove <;> dsimp only <;> split <;>
    exact ⟨rfl, rfl, rfl, rfl, rfl, rfl⟩

theorem updateBestAfterAdd_proj (s : EngineState) (sd : Side) (i : Int) :
    (updateBestAfterAdd s sd i).pool = s.pool ∧
    (updateBestAfterAdd s sd i).freeList = s.freeList ∧
    (updateBestAfterAdd s sd i).bids = s.bids ∧
    (updateBestAfterAdd s sd i).asks = s.asks ∧
    (updateBestAfterAdd s sd i).clientToEngine = s.clientToEngine ∧
    (updateBestAfterAdd s sd i).trades = s.trades := by
  cases sd <;> unfold updateBestAfterAdd <;> dsimp only <;> split <;>
    exact ⟨rfl, rfl, rfl, rfl, rfl, rfl⟩

theorem updateBestAfterRemove_buy_bestAsk (cfg : Config) (s : EngineState) (i : Int) :
    (updateBestAfterRemove cfg s Side.BUY i).bestAsk = s.bestAsk := by
  unfold updateBestAfterRemove; dsimp only; split <;> rfl

theorem updateBestAfterRemove_sell_bestBid (cfg : Config) (s : EngineState) (i : Int) :
    (updateBestAfterRemove cfg s Side.SELL i).bestBid = s.bestBid := by
  unfold updateBestAfterRemove; dsimp only; split <;> rfl

-- --------------------------- levelAt / setLevelAt -------------------------

theorem length_setLevelAt (ls : List RingLevel) (i : Int) (l : RingLevel) :
    (setLevelAt ls i l).length = ls.length := by
  unfold setLevelAt; split
  case isTrue => rfl
  case isFalse => exact List.length_set ls i.toNat l

theorem levelAt_setLevelAt_self (ls : List RingLevel) (i : Int) (l : RingLevel)
    (h0 : 0 ≤ i) (hl : i.toNat < ls.length) :
    levelAt (setLevelAt ls i l) i = l := by
  unfold levelAt setLevelAt
  rw [if_neg (by omega), if_neg (by omega)]
  exact getD_set_self ls i.toNat l {} hl

theorem levelAt_setLevelAt_ne (ls : List RingLevel) (i j : Int) (l : RingLevel)
    (hij : i ≠ j) : levelAt (setLevelAt ls i l) j = levelAt ls j := by
  unfold levelAt setLevelAt
  by_cases hi : i < 0
  · rw [if_pos hi]
  · rw [if_neg hi]
    by_cases hj : j < 0
    · rw [if_pos hj, if_pos hj]
    · rw [if_neg hj, if_neg hj]
      exact getD_set_ne ls i.toNat j.toNat l {} (by omega)

theorem levelAt_setLevelAt_oob (ls : List RingLevel) (i : Int) (l : RingLevel) (j : Int)
    (h : ls.length ≤ i.toNat) : levelAt (setLevelAt ls i l) j = levelAt ls j := by
  unfold levelAt setLevelAt
  by_cases hi : i < 0
  · rw [if_pos hi]
  · rw [if_neg hi]
    by_cases hj : j < 0
    · rw [if_pos hj, if_pos hj]
    · rw [if_neg hj, if_neg hj, List.set_eq_of_length_le h]

-- --------------------------- pool access ----------------------------------

theorem poolGet_poolSet_self (s : EngineState) (eid : Nat) (o : Order)
    (h : eid < s.pool.length) : poolGet (poolSet s eid o) eid = o :=
  getD_set_self s.pool eid o {} h

theorem poolGet_poolSet_ne (s : EngineState) (i j : Nat) (o : Order) (h : i ≠ j) :
    poolGet (poolSet s i o) j = poolGet s j :=
  getD_set_ne s.pool i j o {} h

theorem poolGet_set_ne' (pool' : List Order) (i j : Nat) (o : Order)
    (h : i ≠ j) : (pool'.set i o).getD j ({} : Order) = pool'.getD j {} :=
  getD_set_ne pool' i j o {} h

theorem poolGet_active_lt (s : EngineState) (e : Nat)
    (h : (poolGet s e).active = true) : e < s.pool.length := by
  by_contra hn
  have : poolGet s e = {} := List.getD_eq_default s.pool {} (by omega)
  rw [this] at h
  exact absurd h (by decide)

/-- OrderPool::free touches only the freed slot's active and qty fields
(shared frame lemma). -/
theorem poolFree_frame (s : EngineState) (eid j : Nat) :
    (poolGet (poolFree s eid) j).clientId = (poolGet s j).clientId ∧
    (poolGet (poolFree s eid) j).engineId = (poolGet s j).engineId ∧
    (poolGet (poolFree s eid) j).side = (poolGet s j).side ∧
    (poolGet (poolFree s eid) j).type = (poolGet s j).type ∧
    (poolGet (poolFree s eid) j).tif = (poolGet s j).tif ∧
    (poolGet (poolFree s eid) j).priceIdx = (poolGet s j).priceIdx ∧
    (poolGet (poolFree s eid) j).ts = (poolGet s j).ts := by
  by_cases h : j = eid
  · subst h
    by_cases hl : j < s.pool.length
    · have : poolGet (poolFree s j) j = { poolGet s j with active := false, qty := 0 } := by
        unfold poolFree poolGet
        dsimp only
        exact getD_set_self s.pool j _ {} hl
      rw [this]
      exact ⟨rfl, rfl, rfl, rfl, rfl, rfl, rfl⟩
    · have : poolGet (poolFree s j) j = poolGet s j := by
        unfold poolFree poolGet
        dsimp only
        exact getD_set_oob s.pool j j _ {} (by omega)
      rw [this]
      exact ⟨rfl, rfl, rfl, rfl, rfl, rfl, rfl⟩
  · have : poolGet (poolFree s eid) j = poolGet s j := by
      unfold poolFree poolGet
      dsimp only
      exact getD_set_ne s.pool eid j _ {} (fun hh => h hh.symm)
    rw [this]
    exact ⟨rfl, rfl, rfl, rfl, rfl, rfl, rfl⟩

theorem poolGet_poolFree_ne (s : EngineState) (eid j : Nat) (h : j ≠ eid) :
    poolGet (poolFree s eid) j = poolGet s j := by
  unfold poolFree poolGet
  dsimp only
  exact getD_set_ne s.pool eid j _ {} (fun hh => h hh.symm)

theorem poolGet_poolFree_self (s : EngineState) (eid : Nat) :
    poolGet (poolFree s eid) eid = { poolGet s eid with active := false, qty := 0 } := by
  by_cases hl : eid < s.pool.length
  · unfold poolFree poolGet
    dsimp only
    exact getD_set_self s.pool eid _ {} hl
  · have h1 : poolGet s eid = {} := List.getD_eq_default s.pool {} (by omega)
    have h2 : poolGet (poolFree s eid) eid = ({} : Order) := by
      unfold poolFree poolGet
      dsimp only
      rw [getD_set_oob s.pool eid eid _ {} (by omega)]
      exact List.getD_eq_default s.pool {} (by omega)
    rw [h1, h2]

-- --------------------------- client index ---------------------------------

theorem ctfind_cterase_self (m : List (Nat × Nat)) (c : Nat) :
    ctfind (cterase m c) c = none := by
  unfold ctfind cterase
  rw [List.find?_eq_none.2]
  · rfl
  · intro x hx
    have := (List.mem_filter.1 hx).2
    simp only [bne_iff_ne, ne_eq] at this
    simp only [beq_iff_eq]
    exact this

theorem ctfind_cterase_ne (m : List (Nat × Nat)) (c c' : Nat) (h : c' ≠ c) :
    ctfind (cterase m c) c' = ctfind m c' := by
  unfold ctfind cterase
  induction m with
  | nil => rfl
  | cons p m ih =>
      by_cases hp : p.1 = c
      · rw [List.filter_cons_of_neg (by simp [hp])]
        rw [ih]
        rw [List.find?_cons_of_neg _
          (by simp only [beq_iff_eq]; rw [hp]; exact fun hh => h hh.symm)]
      · rw [List.filter_cons_of_pos (by simp [hp])]
        by_cases hc : p.1 = c'
        · rw [List.find?_cons_of_pos _ (by simp [hc]), List.find?_cons_of_pos _ (by simp [hc])]
        · rw [List.find?_cons_of_neg _ (by simp [hc]), List.find?_cons_of_neg _ (by simp [hc])]
          exact ih

theorem mem_cterase (m : List (Nat × Nat)) (c : Nat) (p : Nat × Nat) :
    p ∈ cterase m c ↔ p ∈ m ∧ p.1 ≠ c := by
  unfold cterase
  rw [List.mem_filter]
  simp [bne_iff_ne]

theorem ctfind_mem (m : List (Nat × Nat)) (c e : Nat) (h : ctfind m c = some e) :
    (c, e) ∈ m := by
  unfold ctfind at h
  cases hf : m.find? (fun p => p.1 == c) with
  | none => rw [hf] at h; exact absurd h (by simp)
  | some p =>
      rw [hf] at h
      have hm := List.mem_of_find?_eq_some hf
      have hp := List.find?_some hf
      simp only [beq_iff_eq] at hp
      have h2 : p.2 = e := by simpa using h
      have : (c, e) = p := by
        obtain ⟨a, b⟩ := p
        simp only at hp h2
        subst hp
        subst h2
        rfl
      rw [this]
      exact hm

theorem ctfind_ctinsert_self (m : List (Nat × Nat)) (c e : Nat) :
    ctfind (ctinsert m c e) c = some e := by
  unfold ctinsert ctfind
  rw [List.find?_cons_of_pos _ (by simp)]
  rfl

theorem ctfind_ctinsert_ne (m : List (Nat × Nat)) (c c' e : Nat) (h : c' ≠ c) :
    ctfind (ctinsert m c e) c' = ctfind m c' := by
  unfold ctinsert
  show ctfind ((c, e) :: cterase m c) c' = ctfind m c'
  unfold ctfind
  rw [List.find?_cons_of_neg _ (by simp only [beq_iff_eq]; exact fun hh => h hh.symm)]
  exact ctfind_cterase_ne m c c' h

-- --------------------------- cancel basics --------------------------------

theorem cancel_of_find_none (cfg : Config) (s : EngineState) (c : Nat)
    (h : ctfind s.clientToEngine c = none) : cancel cfg s c = (false, s) := by
  unfold cancel
  rw [h]

/-- After any cancel, the client id is gone from the index. -/
theorem ctfind_after_cancel (cfg : Config) (s : EngineState) (c : Nat) :
    ctfind ((cancel cfg s c).2).clientToEngine c = none := by
  unfold cancel
  cases hf : ctfind s.clientToEngine c with
  | none => exact hf
  | some eid =>
      dsimp only
      by_cases ha : (poolGet s eid).active = false
      · rw [if_pos ha]
        exact ctfind_cterase_self _ c
      · rw [if_neg ha]
        by_cases hc : (levelAt (sideLevels s (poolGet s eid).side) (poolGet s eid).priceIdx).data.contains eid
        · rw [if_pos hc]
          dsimp only
          split
          · rw [(updateBestAfterRemove_proj cfg _ _ _).2.2.2.2.1]
            exact ctfind_cterase_self _ c
          · exact ctfind_cterase_self _ c
        · rw [if_neg hc]
          exact ctfind_cterase_self _ c

/-- C8: a second cancel of the same client id returns false and changes
nothing. -/
theorem claim_C8 : ∀ (cfg : Config) (s : EngineState) (c : Nat),
    cancel cfg (cancel cfg s c).2 c = (false, (cancel cfg s c).2) := by
  intro cfg s c
  exact cancel_of_find_none cfg _ c (ctfind_after_cancel cfg s c)

-- --------------------------- C9: free frame -------------------------------

/-- C9: OrderPool.free only clears the slot's active flag and remaining
quantity and pushes the index on the free list; clientId, side, tif and
priceIdx of every slot (the freed one included) and all other engine
components are untouched. -/
theorem claim_C9 : ∀ (s : EngineState) (eid : Nat),
    (poolFree s eid).freeList = eid :: s.freeList ∧
    poolGet (poolFree s eid) eid = { poolGet s eid with active := false, qty := 0 } ∧
    (∀ j, j ≠ eid → poolGet (poolFree s eid) j = poolGet s j) ∧
    (∀ j, (poolGet (poolFree s eid) j).clientId = (poolGet s j).clientId ∧
          (poolGet (poolFree s eid) j).side = (poolGet s j).side ∧
          (poolGet (poolFree s eid) j).tif = (poolGet s j).tif ∧
          (poolGet (poolFree s eid) j).priceIdx = (poolGet s j).priceIdx) ∧
    (poolFree s eid).bids = s.bids ∧ (poolFree s eid).asks = s.asks ∧
    (poolFree s eid).bestBid = s.bestBid ∧ (poolFree s eid).bestAsk = s.bestAsk ∧
    (poolFree s eid).clientToEngine = s.clientToEngine ∧
    (poolFree s eid).trades = s.trades := by
  intro s eid
  refine ⟨rfl, poolGet_poolFree_self s eid, ?_, ?_, rfl, rfl, rfl, rfl, rfl, rfl⟩
  · intro j hj
    exact poolGet_poolFree_ne s eid j hj
  · intro j
    have h := poolFree_frame s eid j
    exact ⟨h.1, h.2.2.1, h.2.2.2.2.1, h.2.2.2.2.2.1⟩

theorem claim_C9_witness :
    (1 : Nat) ≠ 0 ∧
    poolGet (poolFree (initState testConfig) 0) 1 = poolGet (initState testConfig) 1 ∧
    (poolFree (initState testConfig) 0).freeList = 0 :: (initState testConfig).freeList :=
  ⟨by decide, (claim_C9 (initState testConfig) 0).2.2.1 1 (by decide),
    (claim_C9 (initState testConfig) 0).1⟩

-- --------------------------- cancel shapes --------------------------------

theorem poolGet_of_pool_eq (s s' : EngineState) (j : Nat) (h : s'.pool = s.pool) :
    poolGet s' j = poolGet s j := by
  unfold poolGet
  rw [h]

theorem cancel_eq_stale (cfg : Config) (s : EngineState) (c : Nat) (eid : Nat)
    (hf : ctfind s.clientToEngine c = some eid)
    (ha : (poolGet s eid).active = false) :
    cancel cfg s c = (false, { s with clientToEngine := cterase s.clientToEngine c }) := by
  unfold cancel
  rw [hf]
  dsimp only
  rw [if_pos ha]

theorem cancel_eq_found (cfg : Config) (s : EngineState) (c : Nat) (eid : Nat)
    (hf : ctfind s.clientToEngine c = some eid)
    (ha : ¬(poolGet s eid).active = false)
    (hcont : (levelAt (sideLevels s (poolGet s eid).side) (poolGet s eid).priceIdx).data.contains eid = true) :
    cancel cfg s c =
      (true,
       let o := poolGet s eid
       let lvl := levelAt (sideLevels s o.side) o.priceIdx
       let lvl1 : RingLevel := { data := lvl.data.erase eid, totalQty := lvl.totalQty - o.qty }
       let s1 := setSideLevel s o.side o.priceIdx lvl1
       let s2 := poolFree s1 eid
       let s3 := { s2 with clientToEngine := cterase s2.clientToEngine c }
       if lvl1.data = [] then updateBestAfterRemove cfg s3 o.side o.priceIdx else s3) := by
  unfold cancel
  rw [hf]
  dsimp only
  rw [if_neg ha, if_pos hcont]

theorem cancel_eq_notfound (cfg : Config) (s : EngineState) (c : Nat) (eid : Nat)
    (hf : ctfind s.clientToEngine c = some eid)
    (ha : ¬(poolGet s eid).active = false)
    (hcont : ¬(levelAt (sideLevels s (poolGet s eid).side) (poolGet s eid).priceIdx).data.contains eid = true) :
    cancel cfg s c =
      (false, { poolFree s eid with clientToEngine := cterase (poolFree s eid).clientToEngine c }) := by
  unfold cancel
  rw [hf]
  dsimp only
  rw [if_neg ha, if_neg hcont]

/-- cancel either leaves the pool alone or frees exactly one slot. -/
theorem cancel_pool_shape (cfg : Config) (s : EngineState) (c : Nat) :
    ((cancel cfg s c).2).pool = s.pool ∨
    ∃ eid, ((cancel cfg s c).2).pool = (poolFree s eid).pool := by
  cases hf : ctfind s.clientToEngine c with
  | none => left; rw [cancel_of_find_none cfg s c hf]
  | some eid =>
      by_cases ha : (poolGet s eid).active = false
      · left
        rw [cancel_eq_stale cfg s c eid hf ha]
      · by_cases hcont :
          (levelAt (sideLevels s (poolGet s eid).side) (poolGet s eid).priceIdx).data.contains eid = true
        · right
          refine ⟨eid, ?_⟩
          rw [cancel_eq_found cfg s c eid hf ha hcont]
          dsimp only
          have h1 : (setSideLevel s (poolGet s eid).side (poolGet s eid).priceIdx
              { data := (levelAt (sideLevels s (poolGet s eid).side) (poolGet s eid).priceIdx).data.erase eid
              , totalQty := (levelAt (sideLevels s (poolGet s eid).side) (poolGet s eid).priceIdx).totalQty
                  - (poolGet s eid).qty }).pool = s.pool :=
            (setSideLevel_proj s _ _ _).1
          have h2 : ∀ sx : EngineState, sx.pool = s.pool →
              (poolFree sx eid).pool = (poolFree s eid).pool := by
            intro sx hx
            unfold poolFree
            dsimp only
            rw [poolGet_of_pool_eq s sx eid hx, hx]
          split
          · rw [(updateBestAfterRemove_proj cfg _ _ _).1]
            exact h2 _ h1
          · exact h2 _ h1
        · right
          refine ⟨eid, ?_⟩
          rw [cancel_eq_notfound cfg s c eid hf ha hcont]

/-- cancel never changes the side or tif recorded in any pool slot (its only
pool write is the free of the cancelled slot). -/
theorem cancel_pool_side_tif (cfg : Config) (s : EngineState) (c : Nat) (j : Nat) :
    (poolGet (cancel cfg s c).2 j).side = (poolGet s j).side ∧
    (poolGet (cancel cfg s c).2 j).tif = (poolGet s j).tif := by
  rcases cancel_pool_shape cfg s c with h | ⟨eid, h⟩
  · rw [poolGet_of_pool_eq s _ j h]
    exact ⟨rfl, rfl⟩
  · rw [poolGet_of_pool_eq (poolFree s eid) _ j h]
    have hfr := poolFree_frame s eid j
    exact ⟨hfr.2.2.1, hfr.2.2.2.2.1⟩

-- --------------------------- C7: replace = cancel + new -------------------

/-- C7: replace on an absent or inactive client id returns false without
touching the state; on an active resting order it is exactly cancel
followed by placeLimit with the same clientId, the cancelled order's side
and tif, and the new price and quantity. -/
theorem claim_C7 : ∀ (cfg : Config) (s : EngineState) (c : Nat) (pidx qty : Int) (ts : Nat),
    (ctfind s.clientToEngine c = none → replace cfg s c pidx qty ts = some (false, s)) ∧
    (∀ eid, ctfind s.clientToEngine c = some eid → (poolGet s eid).active = false →
      replace cfg s c pidx qty ts = some (false, s)) ∧
    (∀ eid, ctfind s.clientToEngine c = some eid → (poolGet s eid).active = true →
      replace cfg s c pidx qty ts =
        (placeLimit cfg ((cancel cfg s c).2) c (poolGet s eid).side pidx qty ts
          (poolGet s eid).tif).map (fun s2 => (true, s2))) := by
  intro cfg s c pidx qty ts
  refine ⟨?_, ?_, ?_⟩
  · intro hf
    unfold replace
    rw [hf]
  · intro eid hf ha
    unfold replace
    rw [hf]
    dsimp only
    rw [if_pos ha]
  · intro eid hf ha
    unfold replace
    rw [hf]
    dsimp only
    rw [if_neg (by rw [ha]; exact fun h => absurd h (by decide))]
    have hst := cancel_pool_side_tif cfg s c eid
    rw [hst.1, hst.2]

theorem claim_C7_witness :
    ctfind c7state.clientToEngine 1 = some 0 ∧
    (poolGet c7state 0).active = true ∧
    replace testConfig c7state 1 6 4 1 =
      (placeLimit testConfig ((cancel testConfig c7state 1).2) 1 (poolGet c7state 0).side 6 4 1
        (poolGet c7state 0).tif).map (fun s2 => (true, s2)) :=
  ⟨by decide, by decide,
    (claim_C7 testConfig c7state 1 6 4 1).2.2 0 (by decide) (by decide)⟩

-- --------------------------- tif irrelevance (C1) -------------------------

theorem matchTop_tif (cfg : Config) (opp : Side) (makerEid : Nat) (restQ : List Nat)
    (taker : Order) (t : TimeInForce) (s : EngineState) :
    matchTop cfg opp makerEid restQ { taker with tif := t } s
      = ({ (matchTop cfg opp makerEid restQ taker s).1 with tif := t },
         (matchTop cfg opp makerEid restQ taker s).2) := rfl

theorem sweep_tif (cfg : Config) (opp : Side) (cross : Int → Bool) :
    ∀ (fuel : Nat) (taker : Order) (t : TimeInForce) (s : EngineState),
    sweep cfg opp cross fuel { taker with tif := t } s
      = ({ (sweep cfg opp cross fuel taker s).1 with tif := t },
         (sweep cfg opp cross fuel taker s).2) := by
  intro fuel
  induction fuel with
  | zero => intro taker t s; rfl
  | succ n ih =>
      intro taker t s
      show sweep cfg opp cross (n + 1) { taker with tif := t } s = _
      rw [sweep, sweep]
      dsimp only
      by_cases hg : 0 < taker.qty ∧ sideBest s opp ≠ -1 ∧ cross (sideBest s opp) = true
      · rw [if_pos hg, if_pos hg]
        cases hdata : (levelAt (sideLevels s opp) (sideBest s opp)).data with
        | nil => exact ih taker t (updateBestAfterRemove cfg s opp (sideBest s opp))
        | cons makerEid restQ =>
            dsimp only
            rw [matchTop_tif]
            exact ih (matchTop cfg opp makerEid restQ taker s).1 t
              (matchTop cfg opp makerEid restQ taker s).2
      · rw [if_neg hg, if_neg hg]

theorem addPassive_tif (cfg : Config) (taker : Order) (t : TimeInForce) (s : EngineState) :
    (addPassive cfg { taker with tif := t } s).map stripTif
      = (addPassive cfg taker s).map stripTif := by
  unfold addPassive poolAllocate ringPush setSideLevel sideLevels updateBestAfterAdd stripTif
  cases taker.side with
  | BUY =>
      dsimp only
      split
      · rfl
      · cases s.freeList with
        | nil => rfl
        | cons idx rest =>
            dsimp only
            split
            · rfl
            · split
              · simp [List.map_set]
              · simp [List.map_set]
  | SELL =>
      dsimp only
      split
      · rfl
      · cases s.freeList with
        | nil => rfl
        | cons idx rest =>
            dsimp only
            split
            · rfl
            · split
              · simp [List.map_set]
              · simp [List.map_set]


theorem matchAndAdd_tif (cfg : Config) (taker : Order) (t : TimeInForce) (s : EngineState) :
    (matchAndAdd cfg { taker with tif := t } s).map stripTif
      = (matchAndAdd cfg taker s).map stripTif := by
  unfold matchAndAdd
  cases hs : taker.side with
  | BUY =>
      dsimp only
      rw [← hs]
      rw [sweep_tif]
      dsimp only
      by_cases hc : 0 < (sweep cfg Side.SELL (fun a => decide (a ≤ taker.priceIdx))
          (sweepFuel cfg s Side.SELL) taker s).1.qty ∧
          (sweep cfg Side.SELL (fun a => decide (a ≤ taker.priceIdx))
            (sweepFuel cfg s Side.SELL) taker s).1.type = OrderType.LIMIT
      · rw [if_pos hc, if_pos hc]
        exact addPassive_tif cfg _ t _
      · rw [if_neg hc, if_neg hc]
  | SELL =>
      dsimp only
      rw [← hs]
      rw [sweep_tif]
      dsimp only
      by_cases hc : 0 < (sweep cfg Side.BUY (fun b => decide (taker.priceIdx ≤ b))
          (sweepFuel cfg s Side.BUY) taker s).1.qty ∧
          (sweep cfg Side.BUY (fun b => decide (taker.priceIdx ≤ b))
            (sweepFuel cfg s Side.BUY) taker s).1.type = OrderType.LIMIT
      · rw [if_pos hc, if_pos hc]
        exact addPassive_tif cfg _ t _
      · rw [if_neg hc, if_neg hc]

/-- C1 (amended): there is no FOK pre-check; the time-in-force of a limit
order has no effect on placeLimit other than being recorded on the resting
residual: modulo that recorded field, an FOK (or IOC) order is processed
exactly like a GFD order. -/
theorem claim_C1 : ∀ (cfg : Config) (s : EngineState) (cid : Nat) (sd : Side)
    (pidx qty : Int) (ts : Nat) (tif : TimeInForce),
    (placeLimit cfg s cid sd pidx qty ts tif).map stripTif
      = (placeLimit cfg s cid sd pidx qty ts TimeInForce.GFD).map stripTif := by
  intro cfg s cid sd pidx qty ts tif
  exact matchAndAdd_tif cfg
    { clientId := cid, side := sd, type := OrderType.LIMIT, tif := TimeInForce.GFD,
      priceIdx := pidx, qty := qty, ts := ts } tif s

/-- C1 counterexample: spec scenario 4 (preloaded sell 3 at level 5; FOK buy
of 10 at level 5 by client 30) is not rejected: a trade is emitted, the
residual 7 rests on the bid side, client 30 is indexed, the book changes. -/
theorem claim_C1_cex :
    (placeLimit testConfig c1s1 30 Side.BUY 5 10 1 TimeInForce.FOK).isSome = true ∧
    c1res.trades = [{ takerClient := 30, makerClient := 1, qty := 3, priceIdx := 5, ts := 1 }] ∧
    ctfind c1res.clientToEngine 30 = some 0 ∧
    (levelAt c1res.bids 5).data = [0] ∧
    (poolGet c1res 0).qty = 7 ∧
    c1res.bids ≠ c1s1.bids := by decide

/-- C2: spec scenario 3 (preloaded sell 3 at level 4; IOC buy of 10 at
level 4 by client 20).  The source never consults the IOC flag: the
residual 7 is admitted to the bid book, a pool slot holds it, and the
client index maps 20 to it — the IOC discard described by the spec does
not happen. -/
theorem claim_C2 :
    (placeLimit testConfig c2s1 20 Side.BUY 4 10 1 TimeInForce.IOC).isSome = true ∧
    c2res.trades = [{ takerClient := 20, makerClient := 1, qty := 3, priceIdx := 4, ts := 1 }] ∧
    ctfind c2res.clientToEngine 20 = some 0 ∧
    (levelAt c2res.bids 4).data = [0] ∧
    (poolGet c2res 0).active = true ∧
    (poolGet c2res 0).tif = TimeInForce.IOC ∧
    (poolGet c2res 0).qty = 7 := by decide

/-- C3: the source performs no admission validation.  validIdx exists but
placeLimit never calls it: an out-of-range price index reaches the level
vector unchecked (undefined behaviour, modelled as a fault, not an
OrderRejected), and a non-positive quantity is silently accepted as a
com­plete no-op with no caller-visible rejection. -/
theorem claim_C3 :
    validIdx testConfig 9 = false ∧
    placeLimit testConfig (initState testConfig) 1 Side.BUY 9 5 0 TimeInForce.GFD = none ∧
    placeLimit testConfig (initState testConfig) 1 Side.SELL (-2) 5 0 TimeInForce.GFD = none ∧
    validIdx testConfig 3 = true ∧
    placeLimit testConfig (initState testConfig) 1 Side.BUY 3 0 0 TimeInForce.GFD
      = some (initState testConfig) ∧
    placeLimit testConfig (initState testConfig) 2 Side.BUY 3 (-7) 0 TimeInForce.GFD
      = some (initState testConfig) := by decide

-- --------------------------- scan characterization ------------------------

theorem scanUpAux_spec (asks : List RingLevel) :
    ∀ (k i : Nat),
      (scanUpAux asks i k = -1 ∧ ∀ j : Nat, i ≤ j → j < i + k → (levelAt asks (j : Int)).data = [])
      ∨ (∃ j : Nat, scanUpAux asks i k = (j : Int) ∧ i ≤ j ∧ j < i + k ∧
          (levelAt asks (j : Int)).data ≠ [] ∧
          ∀ j' : Nat, i ≤ j' → j' < j → (levelAt asks (j' : Int)).data = []) := by
  intro k
  induction k with
  | zero =>
      intro i
      left
      exact ⟨rfl, fun j h1 h2 => absurd h2 (by omega)⟩
  | succ n ih =>
      intro i
      simp only [scanUpAux]
      by_cases he : (levelAt asks (i : Int)).data = []
      · rw [if_pos he]
        rcases ih (i + 1) with ⟨h1, hall⟩ | ⟨j, hj, hj1, hj2, hj3, hj4⟩
        · left
          refine ⟨h1, ?_⟩
          intro j hj1 hj2
          rcases Nat.eq_or_lt_of_le hj1 with h | h
          · rw [← h]; exact he
          · exact hall j (by omega) (by omega)
        · right
          refine ⟨j, hj, by omega, by omega, hj3, ?_⟩
          intro j' h1 h2
          rcases Nat.eq_or_lt_of_le h1 with h | h
          · rw [← h]; exact he
          · exact hj4 j' (by omega) h2
      · rw [if_neg he]
        right
        exact ⟨i, rfl, le_refl i, by omega, he, fun j' h1 h2 => absurd h2 (by omega)⟩

theorem scanDownNat_spec (bids : List RingLevel) :
    ∀ n : Nat,
      (scanDownNat bids n = -1 ∧ ∀ j : Nat, j ≤ n → (levelAt bids (j : Int)).data = [])
      ∨ (∃ j : Nat, scanDownNat bids n = (j : Int) ∧ j ≤ n ∧
          (levelAt bids (j : Int)).data ≠ [] ∧
          ∀ j' : Nat, j < j' → j' ≤ n → (levelAt bids (j' : Int)).data = []) := by
  intro n
  induction n with
  | zero =>
      simp only [scanDownNat]
      by_cases he : (levelAt bids (0 : Int)).data = []
      · left
        rw [if_pos ?_]
        · refine ⟨rfl, ?_⟩
          intro j hj
          have : j = 0 := by omega
          rw [this]
          exact he
        · exact he
      · right
        rw [if_neg he]
        exact ⟨0, rfl, le_refl 0, he, fun j' h1 h2 => absurd h2 (by omega)⟩
  | succ n ih =>
      simp only [scanDownNat]
      by_cases he : (levelAt bids ((n + 1 : Nat) : Int)).data = []
      · rw [if_pos he]
        rcases ih with ⟨h1, hall⟩ | ⟨j, hj, hj1, hj2, hj3⟩
        · left
          refine ⟨h1, ?_⟩
          intro j hj
          rcases Nat.lt_or_ge j (n + 1) with h | h
          · exact hall j (by omega)
          · have : j = n + 1 := by omega
            rw [this]; exact he
        · right
          refine ⟨j, hj, by omega, hj2, ?_⟩
          intro j' h1 h2
          rcases Nat.lt_or_ge j' (n + 1) with h | h
          · exact hj3 j' h1 (by omega)
          · have : j' = n + 1 := by omega
            rw [this]; exact he
      · rw [if_neg he]
        right
        exact ⟨n + 1, rfl, le_refl _, he, fun j' h1 h2 => absurd h1 (by omega)⟩

theorem nonempty_levelAt_lt (ls : List RingLevel) (j : Nat)
    (h : (levelAt ls (j : Int)).data ≠ []) : j < ls.length := by
  by_contra hn
  apply h
  unfold levelAt
  rw [if_neg (by omega)]
  rw [List.getD_eq_default ls {} (by omega : ls.length ≤ ((j : Int)).toNat)]

/-- The upward rescan restores the minimum characterization of bestAsk. -/
theorem scanUp_restores (cfg : Config) (asks : List RingLevel) (idx : Int)
    (h0 : 0 ≤ idx)
    (hub : ∀ i ∈ List.range cfg.nlevels, (levelAt asks (i : Int)).data ≠ [] → idx ≤ (i : Int))
    (hempty : (levelAt asks idx).data = []) :
    (∀ i ∈ List.range cfg.nlevels, (levelAt asks (i : Int)).data ≠ [] →
        scanUp asks cfg.nlevels idx ≤ (i : Int) ∧ scanUp asks cfg.nlevels idx ≠ -1)
    ∧ (scanUp asks cfg.nlevels idx ≠ -1 →
        0 ≤ scanUp asks cfg.nlevels idx ∧ scanUp asks cfg.nlevels idx < (cfg.nlevels : Int) ∧
        (levelAt asks (scanUp asks cfg.nlevels idx)).data ≠ [])
    ∧ (scanUp asks cfg.nlevels idx = -1 ∨ idx < scanUp asks cfg.nlevels idx) := by
  have hup : scanUp asks cfg.nlevels idx = scanUpAux asks idx.toNat (cfg.nlevels - idx.toNat) := by
    unfold scanUp
    rw [if_neg (by omega)]
  rcases scanUpAux_spec asks (cfg.nlevels - idx.toNat) idx.toNat with ⟨h1, hall⟩ |
    ⟨j, hj, hj1, hj2, hj3, hj4⟩
  · rw [hup, h1]
    refine ⟨?_, by intro h; exact absurd rfl h, Or.inl rfl⟩
    intro i hi hne
    exfalso
    have hgei : idx ≤ (i : Int) := hub i hi hne
    rw [List.mem_range] at hi
    exact hne (hall i (by omega) (by omega))
  · rw [hup, hj]
    have hjnat : idx.toNat ≤ j ∧ j < cfg.nlevels := by
      constructor
      · exact hj1
      · omega
    refine ⟨?_, ?_, ?_⟩
    · intro i hi hne
      have hgei : idx ≤ (i : Int) := hub i hi hne
      rw [List.mem_range] at hi
      constructor
      · by_contra hlt
        push_neg at hlt
        have : i < j := by omega
        exact hne (hj4 i (by omega) this)
      · intro hcon
        omega
    · intro _
      exact ⟨by omega, by omega, hj3⟩
    · right
      have hne : (j : Int) ≠ idx := by
        intro hcon
        apply hj3
        rw [hcon]
        exact hempty
      omega

/-- The downward rescan restores the maximum characterization of bestBid. -/
theorem scanDown_restores (cfg : Config) (bids : List RingLevel) (idx : Int)
    (hlen : bids.length = cfg.nlevels) (h0 : 0 ≤ idx)
    (hub : ∀ i ∈ List.range cfg.nlevels, (levelAt bids (i : Int)).data ≠ [] → (i : Int) ≤ idx)
    (hempty : (levelAt bids idx).data = []) :
    (∀ i ∈ List.range cfg.nlevels, (levelAt bids (i : Int)).data ≠ [] →
        (i : Int) ≤ scanDown bids idx)
    ∧ (scanDown bids idx ≠ -1 →
        0 ≤ scanDown bids idx ∧ scanDown bids idx < (cfg.nlevels : Int) ∧
        (levelAt bids (scanDown bids idx)).data ≠ [])
    ∧ (scanDown bids idx = -1 ∨ scanDown bids idx < idx) := by
  have hdn : scanDown bids idx = scanDownNat bids idx.toNat := by
    unfold scanDown
    rw [if_neg (by omega)]
  rcases scanDownNat_spec bids idx.toNat with ⟨h1, hall⟩ | ⟨j, hj, hj1, hj2, hj3⟩
  · rw [hdn, h1]
    refine ⟨?_, by intro h; exact absurd rfl h, Or.inl rfl⟩
    intro i hi hne
    exfalso
    have hlei : (i : Int) ≤ idx := hub i hi hne
    exact hne (hall i (by omega))
  · rw [hdn, hj]
    have hjlt : j < cfg.nlevels := by
      have := nonempty_levelAt_lt bids j hj2
      omega
    refine ⟨?_, ?_, ?_⟩
    · intro i hi hne
      have hlei : (i : Int) ≤ idx := hub i hi hne
      rw [List.mem_range] at hi
      by_contra hgt
      push_neg at hgt
      have : j < i := by omega
      exact hne (hj3 i this (by omega))
    · intro _
      exact ⟨by omega, by omega, hj2⟩
    · right
      have hne : (j : Int) ≠ idx := by
        intro hcon
        apply hj2
        rw [hcon]
        exact hempty
      omega

-- --------------------------- sum helpers ----------------------------------

theorem sum_map_erase (f : Nat → Int) (d : List Nat) (e0 : Nat) (he : e0 ∈ d) :
    ((d.erase e0).map f).sum = (d.map f).sum - f e0 := by
  induction d with
  | nil => cases he
  | cons a d ih =>
      by_cases ha : a = e0
      · rw [ha, List.erase_cons_head]
        simp only [List.map_cons, List.sum_cons]
        ring
      · rw [List.erase_cons_tail (by simp [ha])]
        simp only [List.map_cons, List.sum_cons]
        have he' : e0 ∈ d := by
          cases he with
          | head => exact absurd rfl ha
          | tail _ h => exact h
        rw [ih he']
        ring

theorem sum_map_update (f g : Nat → Int) (d : List Nat) (e0 : Nat) (hd : d.Nodup)
    (he : e0 ∈ d) (hfg : ∀ x ∈ d, x ≠ e0 → g x = f x) :
    (d.map g).sum = (d.map f).sum - f e0 + g e0 := by
  induction d with
  | nil => cases he
  | cons a d ih =>
      simp only [List.map_cons, List.sum_cons]
      rcases List.mem_cons.1 he with h | h
      · subst h
        have hnotin : e0 ∉ d := (List.nodup_cons.1 hd).1
        have hmapeq : d.map g = d.map f :=
          List.map_congr_left (fun x hx => hfg x (List.mem_cons_of_mem e0 hx)
            (fun hc => hnotin (hc ▸ hx)))
        rw [hmapeq]
        ring
      · have hane : a ≠ e0 := fun hc => (List.nodup_cons.1 hd).1 (hc ▸ h)
        rw [hfg a (List.mem_cons_self a d) hane,
          ih (List.nodup_cons.1 hd).2 h (fun x hx => hfg x (List.mem_cons_of_mem a hx))]
        ring

theorem map_congr_poolGet (s s' : EngineState) (d : List Nat)
    (h : ∀ e ∈ d, poolGet s' e = poolGet s e) :
    d.map (fun e => (poolGet s' e).qty) = d.map (fun e => (poolGet s e).qty) := by
  apply List.map_congr_left
  intro x hx
  rw [h x hx]

-- --------------------------- uniqueness machinery -------------------------

theorem levelAt_eq_getElem (ls : List RingLevel) (i : Nat) (h : i < ls.length) :
    levelAt ls (i : Int) = ls[i] := by
  unfold levelAt
  rw [if_neg (by omega)]
  rw [show ((i : Int)).toNat = i from Int.toNat_natCast i]
  exact List.getD_eq_getElem ls {} (by omega)

theorem levelAt_eq_getElem' (ls : List RingLevel) (i : Int) (h0 : 0 ≤ i)
    (h : i.toNat < ls.length) : levelAt ls i = ls[i.toNat] := by
  unfold levelAt
  rw [if_neg (by omega)]
  exact List.getD_eq_getElem ls {} h

theorem levelAt_neg (ls : List RingLevel) (i : Int) (h : i < 0) :
    levelAt ls i = {} := by
  unfold levelAt
  rw [if_pos h]

theorem levelAt_oob (ls : List RingLevel) (i : Int) (h : ls.length ≤ i.toNat) :
    (levelAt ls i).data = [] := by
  unfold levelAt
  split
  · rfl
  · rw [List.getD_eq_default ls {} h]

theorem flatten_set_sublist {α : Type} (L : List (List α)) :
    ∀ (k : Nat) (d : List α), (∀ hk : k < L.length, d.Sublist L[k]) →
    (L.set k d).flatten.Sublist L.flatten := by
  induction L with
  | nil => intro k d _; simp
  | cons a tl ih =>
      intro k d h
      cases k with
      | zero =>
          rw [List.set_cons_zero, List.flatten_cons, List.flatten_cons]
          exact List.Sublist.append (h (by simp)) (List.Sublist.refl _)
      | succ n =>
          rw [List.set_cons_succ, List.flatten_cons, List.flatten_cons]
          refine List.Sublist.append (List.Sublist.refl a) (ih n d ?_)
          intro hk
          have := h (by simp; omega)
          simpa using this

theorem flatten_set_append_perm {α : Type} (L : List (List α)) :
    ∀ (k : Nat) (e : α) (hk : k < L.length),
    (L.set k (L[k] ++ [e])).flatten.Perm (L.flatten ++ [e]) := by
  induction L with
  | nil => intro k e hk; simp at hk
  | cons a tl ih =>
      intro k e hk
      cases k with
      | zero =>
          rw [List.set_cons_zero, List.flatten_cons, List.flatten_cons]
          have p1 : ((a ++ [e]) ++ tl.flatten).Perm (a ++ ([e] ++ tl.flatten)) := by
            rw [List.append_assoc]
          have p2 : (a ++ ([e] ++ tl.flatten)).Perm (a ++ (tl.flatten ++ [e])) :=
            List.Perm.append_left a List.perm_append_comm
          have p3 : (a ++ (tl.flatten ++ [e])).Perm ((a ++ tl.flatten) ++ [e]) := by
            rw [List.append_assoc]
          exact (p1.trans p2).trans p3
      | succ n =>
          rw [List.set_cons_succ, List.flatten_cons, List.flatten_cons, List.append_assoc]
          refine List.Perm.append_left a ?_
          have h1 := ih n e (by simpa using hk)
          simpa using h1

theorem uniq_parts (s : EngineState) (h : UniqInv s) :
    (∀ l ∈ s.bids ++ s.asks, l.data.Nodup) ∧
    List.Pairwise List.Disjoint ((s.bids ++ s.asks).map RingLevel.data) := by
  have h2 := List.nodup_flatten.1 h
  exact ⟨fun l hl => h2.1 _ (List.mem_map_of_mem RingLevel.data hl), h2.2⟩

theorem levelAt_data_nodup (s : EngineState) (h : UniqInv s) (sd : Side) (i : Int) :
    (levelAt (sideLevels s sd) i).data.Nodup := by
  by_cases hneg : i < 0
  · rw [levelAt_neg _ _ hneg]
    exact List.nodup_nil
  · by_cases hrange : i.toNat < (sideLevels s sd).length
    · rw [levelAt_eq_getElem' _ i (by omega) hrange]
      apply (uniq_parts s h).1
      cases sd
      · exact List.mem_append_left _ (List.getElem_mem hrange)
      · exact List.mem_append_right _ (List.getElem_mem hrange)
    · have := levelAt_oob (sideLevels s sd) i (by omega)
      rw [this]
      exact List.nodup_nil

/-- Positions of the two sides inside the concatenated level list. -/
theorem uniq_disjoint (s : EngineState) (h : UniqInv s) (sd1 sd2 : Side) (i1 i2 : Int)
    (e : Nat) (h1 : e ∈ (levelAt (sideLevels s sd1) i1).data)
    (h2 : e ∈ (levelAt (sideLevels s sd2) i2).data) :
    sd1 = sd2 ∧ i1 = i2 := by
  have hpair := (uniq_parts s h).2
  have key : ∀ (sd : Side) (i : Int), e ∈ (levelAt (sideLevels s sd) i).data →
      0 ≤ i ∧ i.toNat < (sideLevels s sd).length := by
    intro sd i hmem
    constructor
    · by_contra hneg
      rw [levelAt_neg _ _ (by omega)] at hmem
      cases hmem
    · by_contra hoob
      rw [levelAt_oob _ _ (by omega)] at hmem  -- hmm this rewrites data to []
      cases hmem
  have hb1 := key sd1 i1 h1
  have hb2 := key sd2 i2 h2
  -- the flat position of (sd, i)
  have hpos : ∀ (sd : Side) (i : Int), 0 ≤ i → i.toNat < (sideLevels s sd).length →
      ∃ p : Nat, p < (s.bids ++ s.asks).length ∧
        (s.bids ++ s.asks)[p]? = some (levelAt (sideLevels s sd) i) ∧
        p = (match sd with | Side.BUY => i.toNat | Side.SELL => s.bids.length + i.toNat) := by
    intro sd i hge hlt
    cases sd with
    | BUY =>
        simp only [sideLevels_buy] at hlt ⊢
        refine ⟨i.toNat, by rw [List.length_append]; omega, ?_, rfl⟩
        rw [List.getElem?_append_left hlt, List.getElem?_eq_getElem hlt,
          levelAt_eq_getElem' s.bids i hge hlt]
    | SELL =>
        simp only [sideLevels_sell] at hlt ⊢
        refine ⟨s.bids.length + i.toNat, by rw [List.length_append]; omega, ?_, rfl⟩
        rw [List.getElem?_append_right (by omega), Nat.add_sub_cancel_left,
          List.getElem?_eq_getElem hlt, levelAt_eq_getElem' s.asks i hge hlt]
  obtain ⟨p1, hp1len, hp1get, hp1val⟩ := hpos sd1 i1 hb1.1 hb1.2
  obtain ⟨p2, hp2len, hp2get, hp2val⟩ := hpos sd2 i2 hb2.1 hb2.2
  by_cases hpp : p1 = p2
  · -- same position: same side (bids length separates) and same index
    cases sd1 <;> cases sd2 <;> simp only at hp1val hp2val
    · exact ⟨rfl, by omega⟩
    · exfalso; simp at hb1 hb2; omega
    · exfalso; simp at hb1 hb2; omega
    · exact ⟨rfl, by omega⟩
  · -- different positions: the pairwise disjointness forbids a shared id
    exfalso
    rw [List.pairwise_iff_getElem] at hpair
    have hl1 : p1 < ((s.bids ++ s.asks).map RingLevel.data).length := by
      simpa using hp1len
    have hl2 : p2 < ((s.bids ++ s.asks).map RingLevel.data).length := by
      simpa using hp2len
    have hget1 : ((s.bids ++ s.asks).map RingLevel.data)[p1] = (levelAt (sideLevels s sd1) i1).data := by
      rw [List.getElem_map]
      have := List.getElem?_eq_getElem (l := s.bids ++ s.asks) (by simpa using hp1len)
      rw [this] at hp1get
      simp only [Option.some.injEq] at hp1get
      rw [hp1get]
    have hget2 : ((s.bids ++ s.asks).map RingLevel.data)[p2] = (levelAt (sideLevels s sd2) i2).data := by
      rw [List.getElem_map]
      have := List.getElem?_eq_getElem (l := s.bids ++ s.asks) (by simpa using hp2len)
      rw [this] at hp2get
      simp only [Option.some.injEq] at hp2get
      rw [hp2get]
    rcases Nat.lt_or_ge p1 p2 with hlt | hge
    · have hdis := hpair p1 p2 hl1 hl2 hlt
      rw [hget1, hget2] at hdis
      exact hdis h1 h2
    · have hlt2 : p2 < p1 := by omega
      have hdis := hpair p2 p1 hl2 hl1 hlt2
      rw [hget1, hget2] at hdis
      exact hdis h2 h1

-- --------------------------- side-generic helpers -------------------------

theorem sideLevels_eq_of (s s' : EngineState) (hb : s'.bids = s.bids)
    (ha : s'.asks = s.asks) (sd : Side) : sideLevels s' sd = sideLevels s sd := by
  cases sd with
  | BUY => exact hb
  | SELL => exact ha

theorem sideBest_eq_of (s s' : EngineState) (hb : s'.bestBid = s.bestBid)
    (ha : s'.bestAsk = s.bestAsk) (sd : Side) : sideBest s' sd = sideBest s sd := by
  cases sd with
  | BUY => exact hb
  | SELL => exact ha

theorem sideLevels_setSideLevel_same (s : EngineState) (sd : Side) (i : Int) (l : RingLevel) :
    sideLevels (setSideLevel s sd i l) sd = setLevelAt (sideLevels s sd) i l := by
  cases sd <;> rfl

theorem sideLevels_setSideLevel_other (s : EngineState) (sd sd' : Side) (i : Int)
    (l : RingLevel) (h : sd' ≠ sd) :
    sideLevels (setSideLevel s sd i l) sd' = sideLevels s sd' := by
  cases sd <;> cases sd' <;> first
    | rfl
    | exact absurd rfl h

theorem sideBest_setSideLevel (s : EngineState) (sd : Side) (i : Int) (l : RingLevel)
    (sd' : Side) : sideBest (setSideLevel s sd i l) sd' = sideBest s sd' := by
  cases sd <;> cases sd' <;> rfl

theorem setSideLevel_bestBid (s : EngineState) (sd : Side) (i : Int) (l : RingLevel) :
    (setSideLevel s sd i l).bestBid = s.bestBid := by
  cases sd <;> rfl

theorem setSideLevel_bestAsk (s : EngineState) (sd : Side) (i : Int) (l : RingLevel) :
    (setSideLevel s sd i l).bestAsk = s.bestAsk := by
  cases sd <;> rfl

theorem updateBestAfterRemove_same_best (cfg : Config) (s : EngineState) (opp : Side)
    (sd : Side) (i : Int) (h : sd ≠ opp) :
    sideBest (updateBestAfterRemove cfg s opp i) sd = sideBest s sd := by
  cases opp <;> cases sd <;> first
    | exact absurd rfl h
    | (unfold updateBestAfterRemove
       dsimp only
       split <;> rfl)

theorem best_range (cfg : Config) (s : EngineState) (opp : Side) (hInv : Inv cfg s)
    (hbne : sideBest s opp ≠ -1) :
    0 ≤ sideBest s opp ∧ (sideBest s opp).toNat < (sideLevels s opp).length ∧
    sideBest s opp < (cfg.nlevels : Int) := by
  cases opp with
  | BUY =>
      have h := hInv.bb.2 hbne
      have hl : s.bids.length = cfg.nlevels := hInv.len.1
      have h1 : s.bestBid < (cfg.nlevels : Int) := h.2.1
      have h2 : (0 : Int) ≤ s.bestBid := h.1
      refine ⟨h.1, ?_, h.2.1⟩
      show (s.bestBid).toNat < s.bids.length
      omega
  | SELL =>
      have h := hInv.ba.2 hbne
      have hl : s.asks.length = cfg.nlevels := hInv.len.2.1
      have h1 : s.bestAsk < (cfg.nlevels : Int) := h.2.1
      have h2 : (0 : Int) ≤ s.bestAsk := h.1
      refine ⟨h.1, ?_, h.2.1⟩
      show (s.bestAsk).toNat < s.asks.length
      omega

theorem memInvSide_of (cfg : Config) (s : EngineState) (hInv : Inv cfg s) (sd : Side) :
    MemInvSide cfg s sd := by
  cases sd with
  | BUY => exact hInv.mem.1
  | SELL => exact hInv.mem.2

theorem mem_facts (cfg : Config) (s : EngineState) (hInv : Inv cfg s) (sd : Side) (i : Int)
    (e : Nat) (h0 : 0 ≤ i) (hL : i < (cfg.nlevels : Int))
    (he : e ∈ (levelAt (sideLevels s sd) i).data) :
    (poolGet s e).active = true ∧ (poolGet s e).side = sd ∧
    (poolGet s e).priceIdx = i ∧ 0 < (poolGet s e).qty ∧ e < s.pool.length := by
  have hms := memInvSide_of cfg s hInv sd
  have hi : i = ((i.toNat : Nat) : Int) := by omega
  rw [hi] at he
  have h := hms i.toNat (List.mem_range.2 (by omega)) e he
  rw [← hi] at h
  exact ⟨h.1, h.2.1, h.2.2.1, h.2.2.2, poolGet_active_lt s e h.1⟩

theorem sum_lengths_set (ls : List RingLevel) :
    ∀ (k : Nat) (l' : RingLevel), k < ls.length →
    ((ls.set k l').map (fun l => l.data.length)).sum + (levelAt ls (k : Int)).data.length
      = (ls.map (fun l => l.data.length)).sum + l'.data.length := by
  induction ls with
  | nil => intro k l' hk; simp at hk
  | cons a tl ih =>
      intro k l' hk
      cases k with
      | zero =>
          rw [List.set_cons_zero]
          simp only [List.map_cons, List.sum_cons]
          have ha : levelAt (a :: tl) ((0 : Nat) : Int) = a := by
            unfold levelAt
            rw [if_neg (by omega)]
            rfl
          rw [ha]
          omega
      | succ n =>
          rw [List.set_cons_succ]
          simp only [List.map_cons, List.sum_cons]
          have ha : levelAt (a :: tl) (((n + 1 : Nat)) : Int) = levelAt tl ((n : Nat) : Int) := by
            unfold levelAt
            rw [if_neg (by omega), if_neg (by omega)]
            rw [show ((((n + 1 : Nat)) : Int)).toNat = n + 1 from by omega]
            rw [show (((n : Nat) : Int)).toNat = n from by omega]
            exact List.getD_cons_succ
          rw [ha]
          have := ih n l' (by simpa using hk)
          omega

theorem levelAt_after_set (s base : EngineState) (opp : Side) (i : Int) (L : RingLevel)
    (hb : base.bids = s.bids) (ha : base.asks = s.asks)
    (h0 : 0 ≤ i) (hL : i.toNat < (sideLevels s opp).length) :
    levelAt (sideLevels (setSideLevel base opp i L) opp) i = L := by
  rw [sideLevels_setSideLevel_same]
  rw [sideLevels_eq_of s base hb ha opp]
  exact levelAt_setLevelAt_self _ _ _ h0 hL

theorem full_state_eq (opp : Side) (makerEid : Nat) (taker maker : Order)
    (s : EngineState) (L1 : RingLevel) (hmlt : makerEid < s.pool.length) :
    (let s3b := poolFree (setSideLevel (poolSet
        (emitTrade s taker maker (min maker.qty taker.qty) maker.priceIdx) makerEid
        { maker with qty := maker.qty - min maker.qty taker.qty })
        opp (sideBest s opp) L1) makerEid
     { s3b with clientToEngine := cterase s3b.clientToEngine maker.clientId })
    = setSideLevel
        { s with
          trades := s.trades ++
            [{ takerClient := taker.clientId, makerClient := maker.clientId
             , qty := min maker.qty taker.qty, priceIdx := maker.priceIdx, ts := taker.ts }]
        , pool := s.pool.set makerEid { maker with active := false, qty := 0 }
        , freeList := makerEid :: s.freeList
        , clientToEngine := cterase s.clientToEngine maker.clientId }
        opp (sideBest s opp) L1 := by
  dsimp only
  have hY : poolGet (setSideLevel (poolSet
      (emitTrade s taker maker (min maker.qty taker.qty) maker.priceIdx) makerEid
      { maker with qty := maker.qty - min maker.qty taker.qty })
      opp (sideBest s opp) L1) makerEid
      = { maker with qty := maker.qty - min maker.qty taker.qty } := by
    cases opp <;>
      exact getD_set_self s.pool makerEid _ {} hmlt
  unfold poolFree
  rw [hY]
  cases opp <;>
    · dsimp only [setSideLevel, poolSet, emitTrade]
      rw [List.set_set]

/-- One matching iteration, described explicitly: the taker loses the fill;
a fully-consumed maker is popped, freed and unindexed (with a best-cache
rescan if the level emptied); a partially-consumed maker stays at the head. -/
theorem matchTop_desc (cfg : Config) (opp : Side) (makerEid : Nat) (restQ : List Nat)
    (taker : Order) (s : EngineState)
    (hmlt : makerEid < s.pool.length)
    (h0 : 0 ≤ sideBest s opp)
    (hL : (sideBest s opp).toNat < (sideLevels s opp).length)
    (hdata : (levelAt (sideLevels s opp) (sideBest s opp)).data = makerEid :: restQ) :
    matchTop cfg opp makerEid restQ taker s =
      ({ taker with qty := taker.qty - min (poolGet s makerEid).qty taker.qty },
       if (poolGet s makerEid).qty - min (poolGet s makerEid).qty taker.qty = 0 then
         (if restQ = [] then
           updateBestAfterRemove cfg
             (setSideLevel
               { s with
                 trades := s.trades ++
                   [{ takerClient := taker.clientId
                    , makerClient := (poolGet s makerEid).clientId
                    , qty := min (poolGet s makerEid).qty taker.qty
                    , priceIdx := (poolGet s makerEid).priceIdx, ts := taker.ts }]
               , pool := s.pool.set makerEid
                   { poolGet s makerEid with active := false, qty := 0 }
               , freeList := makerEid :: s.freeList
               , clientToEngine := cterase s.clientToEngine (poolGet s makerEid).clientId }
               opp (sideBest s opp)
               { data := restQ
               , totalQty := (levelAt (sideLevels s opp) (sideBest s opp)).totalQty
                   - min (poolGet s makerEid).qty taker.qty })
             opp (sideBest s opp)
         else
           setSideLevel
             { s with
               trades := s.trades ++
                 [{ takerClient := taker.clientId
                  , makerClient := (poolGet s makerEid).clientId
                  , qty := min (poolGet s makerEid).qty taker.qty
                  , priceIdx := (poolGet s makerEid).priceIdx, ts := taker.ts }]
             , pool := s.pool.set makerEid
                 { poolGet s makerEid with active := false, qty := 0 }
             , freeList := makerEid :: s.freeList
             , clientToEngine := cterase s.clientToEngine (poolGet s makerEid).clientId }
             opp (sideBest s opp)
             { data := restQ
             , totalQty := (levelAt (sideLevels s opp) (sideBest s opp)).totalQty
                 - min (poolGet s makerEid).qty taker.qty })
       else
         setSideLevel
           { s with
             trades := s.trades ++
               [{ takerClient := taker.clientId
                , makerClient := (poolGet s makerEid).clientId
                , qty := min (poolGet s makerEid).qty taker.qty
                , priceIdx := (poolGet s makerEid).priceIdx, ts := taker.ts }]
           , pool := s.pool.set makerEid
               { poolGet s makerEid with
                 qty := (poolGet s makerEid).qty - min (poolGet s makerEid).qty taker.qty } }
           opp (sideBest s opp)
           { levelAt (sideLevels s opp) (sideBest s opp) with
             totalQty := (levelAt (sideLevels s opp) (sideBest s opp)).totalQty
               - min (poolGet s makerEid).qty taker.qty }) := by
  unfold matchTop
  dsimp only
  by_cases hfull : (poolGet s makerEid).qty - min (poolGet s makerEid).qty taker.qty = 0
  · rw [if_pos hfull, if_pos hfull]
    rw [full_state_eq opp makerEid taker (poolGet s makerEid) s _ hmlt]
    have hcond := levelAt_after_set s
      { s with
        trades := s.trades ++
          [{ takerClient := taker.clientId
           , makerClient := (poolGet s makerEid).clientId
           , qty := min (poolGet s makerEid).qty taker.qty
           , priceIdx := (poolGet s makerEid).priceIdx, ts := taker.ts }]
      , pool := s.pool.set makerEid
          { poolGet s makerEid with active := false, qty := 0 }
      , freeList := makerEid :: s.freeList
      , clientToEngine := cterase s.clientToEngine (poolGet s makerEid).clientId }
      opp (sideBest s opp)
      { data := restQ
      , totalQty := (levelAt (sideLevels s opp) (sideBest s opp)).totalQty
          - min (poolGet s makerEid).qty taker.qty }
      rfl rfl h0 hL
    by_cases hrest : restQ = []
    · rw [if_pos (by rw [hcond]; exact hrest), if_pos hrest]
    · rw [if_neg (by rw [hcond]; exact hrest), if_neg hrest]
  · rw [if_neg hfull, if_neg hfull]
    have hcond := levelAt_after_set s
      (poolSet (emitTrade s taker (poolGet s makerEid)
          (min (poolGet s makerEid).qty taker.qty) (poolGet s makerEid).priceIdx) makerEid
        { poolGet s makerEid with
          qty := (poolGet s makerEid).qty - min (poolGet s makerEid).qty taker.qty })
      opp (sideBest s opp)
      { levelAt (sideLevels s opp) (sideBest s opp) with
        totalQty := (levelAt (sideLevels s opp) (sideBest s opp)).totalQty
          - min (poolGet s makerEid).qty taker.qty }
      rfl rfl h0 hL
    rw [if_neg (by rw [hcond]; dsimp only; rw [hdata]; exact fun hc => List.cons_ne_nil _ _ hc)]
    rfl

-- --------------------------- invariant transport --------------------------

theorem qtyInvSide_of (cfg : Config) (s : EngineState) (hInv : Inv cfg s) (sd : Side) :
    ∀ i ∈ List.range cfg.nlevels, levelQtyOk s (levelAt (sideLevels s sd) (i : Int)) := by
  cases sd with
  | BUY => exact hInv.qty.1
  | SELL => exact hInv.qty.2

/-- The book-structure invariants do not mention the best caches: they
transport along states with equal components. -/
theorem inv_core_congr (cfg : Config) (s s' : EngineState)
    (hp : s'.pool = s.pool) (hf : s'.freeList = s.freeList)
    (hb : s'.bids = s.bids) (ha : s'.asks = s.asks)
    (hm : s'.clientToEngine = s.clientToEngine) :
    (LenInv cfg s → LenInv cfg s') ∧ (QtyInv cfg s → QtyInv cfg s')
    ∧ (UniqInv s → UniqInv s') ∧ (MemInv cfg s → MemInv cfg s')
    ∧ (FreeInv s → FreeInv s') ∧ (ClientInv s → ClientInv s') := by
  obtain ⟨p', f', b', a', bb', ba', m', t'⟩ := s'
  dsimp only at hp hf hb ha hm
  subst hp
  subst hf
  subst hb
  subst ha
  subst hm
  refine ⟨fun h => ⟨h.1, h.2.1, h.2.2⟩, fun h => ⟨h.1, h.2⟩, fun h => h,
    fun h => ⟨?_, ?_⟩, fun h => h, fun h => h⟩
  · exact h.1
  · exact h.2

theorem bestBidInv_congr (cfg : Config) (s s' : EngineState)
    (hb : s'.bestBid = s.bestBid)
    (hd : ∀ i : Int, ((levelAt s'.bids i).data = [] ↔ (levelAt s.bids i).data = []))
    (h : BestBidInv cfg s) : BestBidInv cfg s' := by
  constructor
  · intro i hi hne
    rw [hb]
    exact h.1 i hi (fun hc => hne ((hd ((i : Nat) : Int)).2 hc))
  · intro hne
    rw [hb] at *
    refine ⟨(h.2 hne).1, (h.2 hne).2.1, ?_⟩
    intro hc
    exact (h.2 hne).2.2 ((hd s.bestBid).1 hc)

theorem bestAskInv_congr (cfg : Config) (s s' : EngineState)
    (ha : s'.bestAsk = s.bestAsk)
    (hd : ∀ i : Int, ((levelAt s'.asks i).data = [] ↔ (levelAt s.asks i).data = []))
    (h : BestAskInv cfg s) : BestAskInv cfg s' := by
  constructor
  · intro i hi hne
    rw [ha]
    exact h.1 i hi (fun hc => hne ((hd ((i : Nat) : Int)).2 hc))
  · intro hne
    rw [ha] at *
    refine ⟨(h.2 hne).1, (h.2 hne).2.1, ?_⟩
    intro hc
    exact (h.2 hne).2.2 ((hd s.bestAsk).1 hc)

-- --------------------------- core state update ----------------------------

/-- The book-structure invariants survive replacing the level at (opp, b)
by L1 together with a single pool write at makerEid, as performed by the
matching step and by cancel.  The branch-specific facts enter as
hypotheses. -/
theorem state_update_core (cfg : Config) (s base : EngineState) (opp : Side) (b : Int)
    (makerEid : Nat) (X : Order) (L1 : RingLevel)
    (hInv : Inv cfg s)
    (hb0 : 0 ≤ b) (hbLn : b.toNat < (sideLevels s opp).length) (hbLL : b < (cfg.nlevels : Int))
    (hbids : base.bids = s.bids) (hasks : base.asks = s.asks)
    (hpool : base.pool = s.pool.set makerEid X)
    (hmlt : makerEid < s.pool.length)
    (hmem : makerEid ∈ (levelAt (sideLevels s opp) b).data)
    (hXside : X.side = (poolGet s makerEid).side)
    (hXidx : X.priceIdx = (poolGet s makerEid).priceIdx)
    (hXcid : X.clientId = (poolGet s makerEid).clientId)
    (hXpos : X.active = true → 0 < X.qty)
    (hXmem : makerEid ∈ L1.data → X.active = true)
    (hsub : L1.data.Sublist (levelAt (sideLevels s opp) b).data)
    (hkeep : ∀ e ∈ (levelAt (sideLevels s opp) b).data, e ≠ makerEid → e ∈ L1.data)
    (hQ : L1.totalQty
        = (L1.data.map (fun e => ((s.pool.set makerEid X).getD e ({} : Order)).qty)).sum)
    (hF : base.freeList.Nodup
          ∧ ∀ e ∈ base.freeList, ((s.pool.set makerEid X).getD e ({} : Order)).active = false
          ∧ e < s.pool.length)
    (hC : ∀ p ∈ base.clientToEngine, p ∈ s.clientToEngine ∧
          (p.2 = makerEid → makerEid ∈ L1.data)) :
    LenInv cfg (setSideLevel base opp b L1)
    ∧ QtyInv cfg (setSideLevel base opp b L1)
    ∧ UniqInv (setSideLevel base opp b L1)
    ∧ MemInv cfg (setSideLevel base opp b L1)
    ∧ FreeInv (setSideLevel base opp b L1)
    ∧ ClientInv (setSideLevel base opp b L1)
    ∧ (∀ sd, sd ≠ opp → sideLevels (setSideLevel base opp b L1) sd = sideLevels s sd)
    ∧ levelAt (sideLevels (setSideLevel base opp b L1) opp) b = L1
    ∧ (∀ i : Int, i ≠ b →
        levelAt (sideLevels (setSideLevel base opp b L1) opp) i = levelAt (sideLevels s opp) i) := by
  have hmfacts := mem_facts cfg s hInv opp b makerEid hb0 hbLL hmem
  have hSTopp : sideLevels (setSideLevel base opp b L1) opp = setLevelAt (sideLevels s opp) b L1 := by
    rw [sideLevels_setSideLevel_same, sideLevels_eq_of s base hbids hasks opp]
  have hSTother : ∀ sd, sd ≠ opp → sideLevels (setSideLevel base opp b L1) sd = sideLevels s sd := by
    intro sd hsd
    rw [sideLevels_setSideLevel_other _ _ _ _ _ hsd, sideLevels_eq_of s base hbids hasks sd]
  have hATb : levelAt (sideLevels (setSideLevel base opp b L1) opp) b = L1 := by
    rw [hSTopp]
    exact levelAt_setLevelAt_self _ _ _ hb0 hbLn
  have hATne : ∀ i : Int, i ≠ b →
      levelAt (sideLevels (setSideLevel base opp b L1) opp) i = levelAt (sideLevels s opp) i := by
    intro i hi
    rw [hSTopp]
    exact levelAt_setLevelAt_ne _ _ _ _ (fun hc => hi hc.symm)
  have hSTpool : (setSideLevel base opp b L1).pool = s.pool.set makerEid X := by
    rw [(setSideLevel_proj base opp b L1).1, hpool]
  have hPG : ∀ e, e ≠ makerEid → poolGet (setSideLevel base opp b L1) e = poolGet s e := by
    intro e he
    unfold poolGet
    rw [hSTpool]
    exact getD_set_ne _ _ _ _ _ (fun hc => he hc.symm)
  have hPGm : poolGet (setSideLevel base opp b L1) makerEid = X := by
    unfold poolGet
    rw [hSTpool]
    exact getD_set_self _ _ _ _ hmlt
  have hplen : (setSideLevel base opp b L1).pool.length = s.pool.length := by
    rw [hSTpool]
    exact List.length_set _ _ _
  have hSTfree : (setSideLevel base opp b L1).freeList = base.freeList :=
    (setSideLevel_proj base opp b L1).2.1
  have hSTmap : (setSideLevel base opp b L1).clientToEngine = base.clientToEngine :=
    (setSideLevel_proj base opp b L1).2.2.2.2.1
  have hdisj : ∀ (sd : Side) (i : Int), ¬(sd = opp ∧ i = b) →
      makerEid ∉ (levelAt (sideLevels s sd) i).data := by
    intro sd i hor hmem2
    exact hor (uniq_disjoint s hInv.uniq sd opp i b makerEid hmem2 hmem)
  have hlevlen : ∀ sd, (sideLevels (setSideLevel base opp b L1) sd).length
      = (sideLevels s sd).length := by
    intro sd
    by_cases hsd : sd = opp
    · subst hsd
      rw [hSTopp]
      exact length_setLevelAt _ _ _
    · rw [hSTother sd hsd]
  have hLen2 : LenInv cfg (setSideLevel base opp b L1) := by
    refine ⟨?_, ?_, hInv.len.2.2⟩
    · have h := hlevlen Side.BUY
      simp only [sideLevels_buy] at h
      rw [h]
      exact hInv.len.1
    · have h := hlevlen Side.SELL
      simp only [sideLevels_sell] at h
      rw [h]
      exact hInv.len.2.1
  have hQtyS : ∀ sd, ∀ i ∈ List.range cfg.nlevels,
      levelQtyOk (setSideLevel base opp b L1)
        (levelAt (sideLevels (setSideLevel base opp b L1) sd) (i : Int)) := by
    intro sd i hi
    by_cases hsd : sd = opp
    · rw [hsd]
      by_cases hib : ((i : Nat) : Int) = b
      · rw [hib, hATb]
        show L1.totalQty = _
        rw [hQ]
        congr 1
        apply List.map_congr_left
        intro e _
        unfold poolGet
        rw [hSTpool]
      · rw [hATne _ hib]
        show (levelAt (sideLevels s opp) (i : Int)).totalQty = _
        have hold := qtyInvSide_of cfg s hInv opp i hi
        rw [hold]
        congr 1
        apply List.map_congr_left
        intro e he
        rw [hPG e (fun hc => hdisj opp ((i : Nat) : Int) (fun hand => hib hand.2) (hc ▸ he))]
    · rw [hSTother sd hsd]
      show (levelAt (sideLevels s sd) (i : Int)).totalQty = _
      have hold := qtyInvSide_of cfg s hInv sd i hi
      rw [hold]
      congr 1
      apply List.map_congr_left
      intro e he
      rw [hPG e (fun hc => hdisj sd ((i : Nat) : Int) (fun hand => hsd hand.1) (hc ▸ he))]
  have hQty2 : QtyInv cfg (setSideLevel base opp b L1) := by
    constructor
    · have h := hQtyS Side.BUY
      simp only [sideLevels_buy] at h
      exact h
    · have h := hQtyS Side.SELL
      simp only [sideLevels_sell] at h
      exact h
  have hUniq2 : UniqInv (setSideLevel base opp b L1) := by
    show ((((setSideLevel base opp b L1).bids ++ (setSideLevel base opp b L1).asks).map
        RingLevel.data).flatten).Nodup
    cases opp with
    | BUY =>
        have hlb : b.toNat < s.bids.length := hbLn
        have h1 : (setSideLevel base Side.BUY b L1).bids = s.bids.set b.toNat L1 := by
          show setLevelAt base.bids b L1 = _
          unfold setLevelAt
          rw [if_neg (by omega), hbids]
        have h2 : (setSideLevel base Side.BUY b L1).asks = s.asks := hasks
        rw [h1, h2, List.map_append, List.map_set,
          ← List.set_append_left _ _ (by rw [List.length_map]; exact hlb),
          ← List.map_append]
        refine List.Sublist.nodup (flatten_set_sublist _ _ _ ?_) hInv.uniq
        intro hk
        have hval : ((s.bids ++ s.asks).map RingLevel.data)[b.toNat]
            = (levelAt (sideLevels s Side.BUY) b).data := by
          simp only [sideLevels_buy]
          rw [List.getElem_map, List.getElem_append_left hlb,
            show levelAt s.bids b = s.bids.get ⟨b.toNat, hlb⟩ from
              levelAt_eq_getElem' s.bids b hb0 hlb]
          rfl
        rw [hval]
        exact hsub
    | SELL =>
        have hlb : b.toNat < s.asks.length := hbLn
        have h1 : (setSideLevel base Side.SELL b L1).asks = s.asks.set b.toNat L1 := by
          show setLevelAt base.asks b L1 = _
          unfold setLevelAt
          rw [if_neg (by omega), hasks]
        have h2 : (setSideLevel base Side.SELL b L1).bids = s.bids := hbids
        have hset : (s.bids.map RingLevel.data) ++ ((s.asks.map RingLevel.data).set b.toNat L1.data)
            = ((s.bids ++ s.asks).map RingLevel.data).set (s.bids.length + b.toNat) L1.data := by
          rw [List.map_append, List.set_append_right _ _ (by rw [List.length_map]; omega),
            List.length_map,
            show s.bids.length + b.toNat - s.bids.length = b.toNat from by omega]
        rw [h1, h2, List.map_append, List.map_set, hset]
        refine List.Sublist.nodup (flatten_set_sublist _ _ _ ?_) hInv.uniq
        intro hk
        have hval : ((s.bids ++ s.asks).map RingLevel.data)[s.bids.length + b.toNat]
            = (levelAt (sideLevels s Side.SELL) b).data := by
          simp only [sideLevels_sell]
          rw [List.getElem_map,
            List.getElem_append_right (by omega : s.bids.length ≤ s.bids.length + b.toNat)]
          simp only [show s.bids.length + b.toNat - s.bids.length = b.toNat from by omega]
          rw [show levelAt s.asks b = s.asks.get ⟨b.toNat, hlb⟩ from
            levelAt_eq_getElem' s.asks b hb0 hlb]
          rfl
        rw [hval]
        exact hsub
  have hMemS : ∀ sd, MemInvSide cfg (setSideLevel base opp b L1) sd := by
    intro sd i hi e he
    have hiL : ((i : Nat) : Int) < (cfg.nlevels : Int) := by
      rw [List.mem_range] at hi
      omega
    by_cases hsd : sd = opp
    · rw [hsd] at he ⊢
      by_cases hib : ((i : Nat) : Int) = b
      · rw [hib, hATb] at he
        by_cases hem : e = makerEid
        · subst hem
          rw [hPGm]
          have hact := hXmem he
          refine ⟨hact, ?_, ?_, hXpos hact⟩
          · rw [hXside, hmfacts.2.1]
          · rw [hXidx, hmfacts.2.2.1, hib]
        · have heold : e ∈ (levelAt (sideLevels s opp) b).data := List.Sublist.mem he hsub
          have hof := mem_facts cfg s hInv opp b e hb0 hbLL heold
          rw [hPG e hem]
          exact ⟨hof.1, hof.2.1, by rw [hof.2.2.1, hib], hof.2.2.2.1⟩
      · rw [hATne _ hib] at he
        have hem : e ≠ makerEid :=
          fun hc => hdisj opp ((i : Nat) : Int) (fun hand => hib hand.2) (hc ▸ he)
        have hof := mem_facts cfg s hInv opp ((i : Nat) : Int) e (by omega) hiL he
        rw [hPG e hem]
        exact ⟨hof.1, hof.2.1, hof.2.2.1, hof.2.2.2.1⟩
    · rw [hSTother sd hsd] at he
      have hem : e ≠ makerEid :=
        fun hc => hdisj sd ((i : Nat) : Int) (fun hand => hsd hand.1) (hc ▸ he)
      have hof := mem_facts cfg s hInv sd ((i : Nat) : Int) e (by omega) hiL he
      rw [hPG e hem]
      exact ⟨hof.1, hof.2.1, hof.2.2.1, hof.2.2.2.1⟩
  have hFree2 : FreeInv (setSideLevel base opp b L1) := by
    constructor
    · rw [hSTfree]
      exact hF.1
    · intro e he
      rw [hSTfree] at he
      have h := hF.2 e he
      constructor
      · show (poolGet (setSideLevel base opp b L1) e).active = false
        unfold poolGet
        rw [hSTpool]
        exact h.1
      · rw [hplen]
        exact h.2
  have hCl2 : ClientInv (setSideLevel base opp b L1) := by
    intro p hp
    rw [hSTmap] at hp
    obtain ⟨hpold, hpm⟩ := hC p hp
    have hCold := hInv.client p hpold
    by_cases hem : p.2 = makerEid
    · rw [hem, hPGm]
      have hact := hXmem (hpm hem)
      refine ⟨hact, ?_, ?_⟩
      · rw [hXcid]
        have h1 := hCold.2.1
        rw [hem] at h1
        exact h1
      · rw [hXside, hmfacts.2.1, hXidx, hmfacts.2.2.1, hATb]
        exact hpm hem
    · rw [hPG p.2 hem]
      refine ⟨hCold.1, hCold.2.1, ?_⟩
      by_cases hcase : (poolGet s p.2).side = opp ∧ (poolGet s p.2).priceIdx = b
      · rw [hcase.1, hcase.2, hATb]
        have h1 := hCold.2.2
        rw [hcase.1, hcase.2] at h1
        exact hkeep p.2 h1 hem
      · have hlev : levelAt (sideLevels (setSideLevel base opp b L1) (poolGet s p.2).side)
            (poolGet s p.2).priceIdx
            = levelAt (sideLevels s (poolGet s p.2).side) (poolGet s p.2).priceIdx := by
          by_cases hsd2 : (poolGet s p.2).side = opp
          · rw [hsd2]
            exact hATne _ (fun hc => hcase ⟨hsd2, hc⟩)
          · rw [hSTother _ hsd2]
        rw [hlev]
        exact hCold.2.2
  exact ⟨hLen2, hQty2, hUniq2, ⟨hMemS Side.BUY, hMemS Side.SELL⟩, hFree2, hCl2,
    hSTother, hATb, hATne⟩

-- --------------------------- sweep support --------------------------------

theorem sweep_exhausted (cfg : Config) (opp : Side) (cross : Int → Bool) :
    ∀ (fuel : Nat) (taker : Order) (s : EngineState), ¬ 0 < taker.qty →
    sweep cfg opp cross fuel taker s = (taker, s) := by
  intro fuel taker s h
  cases fuel with
  | zero => rfl
  | succ n =>
      unfold sweep
      rw [if_neg (fun hc => h hc.1)]

theorem best_nonempty (cfg : Config) (s : EngineState) (opp : Side) (hInv : Inv cfg s)
    (hbne : sideBest s opp ≠ -1) :
    (levelAt (sideLevels s opp) (sideBest s opp)).data ≠ [] := by
  cases opp with
  | BUY => exact (hInv.bb.2 hbne).2.2
  | SELL => exact (hInv.ba.2 hbne).2.2

theorem levelAt_emptiness_iff (s ST : EngineState) (opp : Side) (best : Int) (L1 : RingLevel)
    (hATb : levelAt (sideLevels ST opp) best = L1)
    (hATne : ∀ i : Int, i ≠ best →
      levelAt (sideLevels ST opp) i = levelAt (sideLevels s opp) i)
    (hiff : (L1.data = [] ↔ (levelAt (sideLevels s opp) best).data = [])) :
    ∀ i : Int, ((levelAt (sideLevels ST opp) i).data = []
      ↔ (levelAt (sideLevels s opp) i).data = []) := by
  intro i
  by_cases hib : i = best
  · rw [hib, hATb]
    exact hiff
  · rw [hATne i hib]

theorem bestInvs_of_side_iff (cfg : Config) (s ST : EngineState) (opp : Side)
    (hbb : ST.bestBid = s.bestBid) (hba : ST.bestAsk = s.bestAsk)
    (hiffopp : ∀ i : Int, ((levelAt (sideLevels ST opp) i).data = []
        ↔ (levelAt (sideLevels s opp) i).data = []))
    (hoth : ∀ sd, sd ≠ opp → sideLevels ST sd = sideLevels s sd)
    (h1 : BestBidInv cfg s) (h2 : BestAskInv cfg s) (h3 : UncrossedInv s) :
    BestBidInv cfg ST ∧ BestAskInv cfg ST ∧ UncrossedInv ST := by
  have hdb : ∀ i : Int, ((levelAt ST.bids i).data = [] ↔ (levelAt s.bids i).data = []) := by
    cases opp with
    | BUY => exact hiffopp
    | SELL =>
        intro i
        rw [show ST.bids = s.bids from hoth Side.BUY (by decide)]
  have hda : ∀ i : Int, ((levelAt ST.asks i).data = [] ↔ (levelAt s.asks i).data = []) := by
    cases opp with
    | BUY =>
        intro i
        rw [show ST.asks = s.asks from hoth Side.SELL (by decide)]
    | SELL => exact hiffopp
  refine ⟨bestBidInv_congr cfg s ST hbb hdb h1, bestAskInv_congr cfg s ST hba hda h2, ?_⟩
  intro hbb2 hba2
  rw [hbb] at hbb2
  rw [hba] at hba2
  show ST.bestBid < ST.bestAsk
  rw [hbb, hba]
  exact h3 hbb2 hba2

theorem oppOrderCount_set (s base : EngineState) (opp : Side) (b : Int) (L1 : RingLevel)
    (hbids : base.bids = s.bids) (hasks : base.asks = s.asks)
    (hb0 : 0 ≤ b) (hbLn : b.toNat < (sideLevels s opp).length) :
    oppOrderCount (setSideLevel base opp b L1) opp + (levelAt (sideLevels s opp) b).data.length
      = oppOrderCount s opp + L1.data.length := by
  unfold oppOrderCount
  rw [sideLevels_setSideLevel_same, sideLevels_eq_of s base hbids hasks opp]
  unfold setLevelAt
  rw [if_neg (by omega)]
  have h := sum_lengths_set (sideLevels s opp) b.toNat L1 hbLn
  rw [show ((b.toNat : Nat) : Int) = b from by omega] at h
  exact h

theorem rescan_invs_buy (cfg : Config) (s ST : EngineState) (best : Int)
    (hsb : s.bestBid = best)
    (hbb : ST.bestBid = best) (hba : ST.bestAsk = s.bestAsk)
    (hlenb : ST.bids.length = cfg.nlevels)
    (hb0 : 0 ≤ best)
    (hempty : (levelAt ST.bids best).data = [])
    (hiffa : ∀ i : Int, ((levelAt ST.asks i).data = [] ↔ (levelAt s.asks i).data = []))
    (hATne : ∀ i : Int, i ≠ best → levelAt ST.bids i = levelAt s.bids i)
    (h1 : BestBidInv cfg s) (h2 : BestAskInv cfg s) (h3 : UncrossedInv s) :
    BestBidInv cfg { ST with bestBid := scanDown ST.bids best }
    ∧ BestAskInv cfg { ST with bestBid := scanDown ST.bids best }
    ∧ UncrossedInv { ST with bestBid := scanDown ST.bids best } := by
  have hub : ∀ i ∈ List.range cfg.nlevels, (levelAt ST.bids (i : Int)).data ≠ [] →
      (i : Int) ≤ best := by
    intro i hi hne
    by_cases hib : ((i : Nat) : Int) = best
    · omega
    · rw [hATne _ hib] at hne
      have h := h1.1 i hi hne
      omega
  have hscan := scanDown_restores cfg ST.bids best hlenb hb0 hub hempty
  refine ⟨⟨hscan.1, hscan.2.1⟩, ⟨?_, ?_⟩, ?_⟩
  · intro i hi hne
    have h := h2.1 i hi (fun hc => hne ((hiffa ((i : Nat) : Int)).2 hc))
    show ST.bestAsk ≤ (i : Int) ∧ ST.bestAsk ≠ -1
    rw [hba]
    exact h
  · intro hne
    have hne2 : s.bestAsk ≠ -1 := by
      show ¬ _
      rw [← hba]
      exact hne
    have h := h2.2 hne2
    show 0 ≤ ST.bestAsk ∧ ST.bestAsk < (cfg.nlevels : Int) ∧ (levelAt ST.asks ST.bestAsk).data ≠ []
    rw [hba]
    exact ⟨h.1, h.2.1, fun hc => h.2.2 ((hiffa s.bestAsk).1 hc)⟩
  · intro hbb2 hba2
    show scanDown ST.bids best < ST.bestAsk
    rcases hscan.2.2 with hm1 | hlt
    · exact absurd hm1 hbb2
    · have hba3 : s.bestAsk ≠ -1 := by
        show ¬ _
        rw [← hba]
        exact hba2
      have hunx := h3 (by omega : s.bestBid ≠ -1) hba3
      rw [hba]
      omega

theorem rescan_invs_sell (cfg : Config) (s ST : EngineState) (best : Int)
    (hsa : s.bestAsk = best)
    (hba : ST.bestAsk = best) (hbb : ST.bestBid = s.bestBid)
    (hb0 : 0 ≤ best)
    (hempty : (levelAt ST.asks best).data = [])
    (hiffb : ∀ i : Int, ((levelAt ST.bids i).data = [] ↔ (levelAt s.bids i).data = []))
    (hATne : ∀ i : Int, i ≠ best → levelAt ST.asks i = levelAt s.asks i)
    (h1 : BestBidInv cfg s) (h2 : BestAskInv cfg s) (h3 : UncrossedInv s) :
    BestBidInv cfg { ST with bestAsk := scanUp ST.asks cfg.nlevels best }
    ∧ BestAskInv cfg { ST with bestAsk := scanUp ST.asks cfg.nlevels best }
    ∧ UncrossedInv { ST with bestAsk := scanUp ST.asks cfg.nlevels best } := by
  have hub : ∀ i ∈ List.range cfg.nlevels, (levelAt ST.asks (i : Int)).data ≠ [] →
      best ≤ (i : Int) := by
    intro i hi hne
    by_cases hib : ((i : Nat) : Int) = best
    · omega
    · rw [hATne _ hib] at hne
      have h := (h2.1 i hi hne).1
      omega
  have hscan := scanUp_restores cfg ST.asks best hb0 hub hempty
  refine ⟨⟨?_, ?_⟩, ⟨hscan.1, hscan.2.1⟩, ?_⟩
  · intro i hi hne
    have h := h1.1 i hi (fun hc => hne ((hiffb ((i : Nat) : Int)).2 hc))
    show (i : Int) ≤ ST.bestBid
    rw [hbb]
    exact h
  · intro hne
    have hne2 : s.bestBid ≠ -1 := by
      show ¬ _
      rw [← hbb]
      exact hne
    have h := h1.2 hne2
    show 0 ≤ ST.bestBid ∧ ST.bestBid < (cfg.nlevels : Int) ∧ (levelAt ST.bids ST.bestBid).data ≠ []
    rw [hbb]
    exact ⟨h.1, h.2.1, fun hc => h.2.2 ((hiffb s.bestBid).1 hc)⟩
  · intro hbb2 hba2
    show ST.bestBid < scanUp ST.asks cfg.nlevels best
    rcases hscan.2.2 with hm1 | hlt
    · exact absurd hm1 hba2
    · have hbb3 : s.bestBid ≠ -1 := by
        show ¬ _
        rw [← hbb]
        exact hbb2
      have hunx := h3 hbb3 (by omega : s.bestAsk ≠ -1)
      rw [hbb]
      omega

theorem remove_rescan_master (cfg : Config) (s ST : EngineState) (opp : Side)
    (hLen2 : LenInv cfg ST) (hQty2 : QtyInv cfg ST) (hUniq2 : UniqInv ST)
    (hMem2 : MemInv cfg ST) (hFree2 : FreeInv ST) (hCl2 : ClientInv ST)
    (hSTother : ∀ sd, sd ≠ opp → sideLevels ST sd = sideLevels s sd)
    (hATne : ∀ i : Int, i ≠ sideBest s opp →
        levelAt (sideLevels ST opp) i = levelAt (sideLevels s opp) i)
    (hempty : (levelAt (sideLevels ST opp) (sideBest s opp)).data = [])
    (hSTbb : ST.bestBid = s.bestBid) (hSTba : ST.bestAsk = s.bestAsk)
    (hb0 : 0 ≤ sideBest s opp)
    (hInv : Inv cfg s) :
    Inv cfg (updateBestAfterRemove cfg ST opp (sideBest s opp))
    ∧ oppOrderCount (updateBestAfterRemove cfg ST opp (sideBest s opp)) opp
        = oppOrderCount ST opp
    ∧ (∀ sd, sd ≠ opp →
        sideLevels (updateBestAfterRemove cfg ST opp (sideBest s opp)) sd = sideLevels s sd
        ∧ sideBest (updateBestAfterRemove cfg ST opp (sideBest s opp)) sd = sideBest s sd) := by
  cases opp with
  | BUY =>
      have hUeq : updateBestAfterRemove cfg ST Side.BUY (sideBest s Side.BUY)
          = { ST with bestBid := scanDown ST.bids (sideBest s Side.BUY) } := by
        unfold updateBestAfterRemove
        dsimp only
        rw [if_neg (by rw [hSTbb]; exact fun hc => hc rfl)]
      rw [hUeq]
      have hiffa : ∀ i : Int, ((levelAt ST.asks i).data = [] ↔ (levelAt s.asks i).data = []) := by
        intro i
        rw [show ST.asks = s.asks from hSTother Side.SELL (by decide)]
      have hbests := rescan_invs_buy cfg s ST (sideBest s Side.BUY) rfl hSTbb hSTba
        hLen2.1 hb0 hempty hiffa hATne hInv.bb hInv.ba hInv.unx
      have hcore2 := inv_core_congr cfg ST
        { ST with bestBid := scanDown ST.bids (sideBest s Side.BUY) } rfl rfl rfl rfl rfl
      refine ⟨⟨hcore2.1 hLen2, hbests.1, hbests.2.1, hbests.2.2, hcore2.2.1 hQty2,
        hcore2.2.2.1 hUniq2, hcore2.2.2.2.1 hMem2, hcore2.2.2.2.2.1 hFree2,
        hcore2.2.2.2.2.2 hCl2⟩, rfl, ?_⟩
      intro sd hsd
      cases sd with
      | BUY => exact absurd rfl hsd
      | SELL => exact ⟨hSTother Side.SELL hsd, hSTba⟩
  | SELL =>
      have hUeq : updateBestAfterRemove cfg ST Side.SELL (sideBest s Side.SELL)
          = { ST with bestAsk := scanUp ST.asks cfg.nlevels (sideBest s Side.SELL) } := by
        unfold updateBestAfterRemove
        dsimp only
        rw [if_neg (by rw [hSTba]; exact fun hc => hc rfl)]
      rw [hUeq]
      have hiffb : ∀ i : Int, ((levelAt ST.bids i).data = [] ↔ (levelAt s.bids i).data = []) := by
        intro i
        rw [show ST.bids = s.bids from hSTother Side.BUY (by decide)]
      have hbests := rescan_invs_sell cfg s ST (sideBest s Side.SELL) rfl hSTba hSTbb
        hb0 hempty hiffb hATne hInv.bb hInv.ba hInv.unx
      have hcore2 := inv_core_congr cfg ST
        { ST with bestAsk := scanUp ST.asks cfg.nlevels (sideBest s Side.SELL) } rfl rfl rfl rfl rfl
      refine ⟨⟨hcore2.1 hLen2, hbests.1, hbests.2.1, hbests.2.2, hcore2.2.1 hQty2,
        hcore2.2.2.1 hUniq2, hcore2.2.2.2.1 hMem2, hcore2.2.2.2.2.1 hFree2,
        hcore2.2.2.2.2.2 hCl2⟩, rfl, ?_⟩
      intro sd hsd
      cases sd with
      | BUY => exact ⟨hSTother Side.BUY hsd, hSTbb⟩
      | SELL => exact absurd rfl hsd

theorem matchTop_master (cfg : Config) (opp : Side) (makerEid : Nat) (restQ : List Nat)
    (taker : Order) (s : EngineState)
    (hInv : Inv cfg s)
    (hbne : sideBest s opp ≠ -1)
    (hdata : (levelAt (sideLevels s opp) (sideBest s opp)).data = makerEid :: restQ)
    (htq : 0 < taker.qty) :
    Inv cfg (matchTop cfg opp makerEid restQ taker s).2
    ∧ (matchTop cfg opp makerEid restQ taker s).1
        = { taker with qty := taker.qty - min (poolGet s makerEid).qty taker.qty }
    ∧ 0 < min (poolGet s makerEid).qty taker.qty
    ∧ (oppOrderCount (matchTop cfg opp makerEid restQ taker s).2 opp + 1 = oppOrderCount s opp
        ∨ ((matchTop cfg opp makerEid restQ taker s).1.qty = 0
            ∧ oppOrderCount (matchTop cfg opp makerEid restQ taker s).2 opp = oppOrderCount s opp))
    ∧ (∀ sd, sd ≠ opp →
        sideLevels (matchTop cfg opp makerEid restQ taker s).2 sd = sideLevels s sd
        ∧ sideBest (matchTop cfg opp makerEid restQ taker s).2 sd = sideBest s sd) := by
  have hb := best_range cfg s opp hInv hbne
  have hmemdata : makerEid ∈ (levelAt (sideLevels s opp) (sideBest s opp)).data := by
    rw [hdata]
    exact List.mem_cons_self _ _
  have hmf := mem_facts cfg s hInv opp (sideBest s opp) makerEid hb.1 hb.2.2 hmemdata
  have hmlt : makerEid < s.pool.length := hmf.2.2.2.2
  have hnodup : (levelAt (sideLevels s opp) (sideBest s opp)).data.Nodup :=
    levelAt_data_nodup s hInv.uniq opp (sideBest s opp)
  have hnotin : makerEid ∉ restQ := by
    rw [hdata] at hnodup
    exact (List.nodup_cons.1 hnodup).1
  have hfillpos : 0 < min (poolGet s makerEid).qty taker.qty := lt_min hmf.2.2.2.1 htq
  have hfle : min (poolGet s makerEid).qty taker.qty ≤ (poolGet s makerEid).qty :=
    min_le_left _ _
  have hq0 := qtyInvSide_of cfg s hInv opp (sideBest s opp).toNat
    (List.mem_range.2 (by omega))
  rw [show (((sideBest s opp).toNat : Nat) : Int) = sideBest s opp from by omega] at hq0
  rw [matchTop_desc cfg opp makerEid restQ taker s hmlt hb.1 hb.2.1 hdata]
  dsimp only
  by_cases hfull : (poolGet s makerEid).qty - min (poolGet s makerEid).qty taker.qty = 0
  · rw [if_pos hfull]
    have hcore := state_update_core cfg s
      { s with
        trades := s.trades ++
          [{ takerClient := taker.clientId
           , makerClient := (poolGet s makerEid).clientId
           , qty := min (poolGet s makerEid).qty taker.qty
           , priceIdx := (poolGet s makerEid).priceIdx, ts := taker.ts }]
      , pool := s.pool.set makerEid
          { poolGet s makerEid with active := false, qty := 0 }
      , freeList := makerEid :: s.freeList
      , clientToEngine := cterase s.clientToEngine (poolGet s makerEid).clientId }
      opp (sideBest s opp) makerEid
      { poolGet s makerEid with active := false, qty := 0 }
      { data := restQ
      , totalQty := (levelAt (sideLevels s opp) (sideBest s opp)).totalQty
          - min (poolGet s makerEid).qty taker.qty }
      hInv hb.1 hb.2.1 hb.2.2 rfl rfl rfl hmlt hmemdata rfl rfl rfl
      (fun h => nomatch h)
      (fun h => absurd h hnotin)
      (by rw [hdata]; exact List.sublist_cons_self _ _)
      (by
        intro e he hene
        rw [hdata] at he
        rcases List.mem_cons.1 he with h | h
        · exact absurd h hene
        · exact h)
      (by
        show (levelAt (sideLevels s opp) (sideBest s opp)).totalQty
            - min (poolGet s makerEid).qty taker.qty = _
        have hmapeq : restQ.map (fun e =>
            ((s.pool.set makerEid { poolGet s makerEid with active := false, qty := 0 }).getD e
              ({} : Order)).qty)
            = restQ.map (fun e => (poolGet s e).qty) := by
          apply List.map_congr_left
          intro e he
          have hene : e ≠ makerEid := fun hc => hnotin (hc ▸ he)
          show ((s.pool.set makerEid _).getD e ({} : Order)).qty = _
          rw [getD_set_ne _ _ _ _ _ (fun hc => hene hc.symm)]
          rfl
        rw [hmapeq, hq0, hdata]
        simp only [List.map_cons, List.sum_cons]
        omega)
      (by
        refine ⟨List.nodup_cons.2 ⟨?_, hInv.free.1⟩, ?_⟩
        · intro hcmem
          have h := (hInv.free.2 makerEid hcmem).1
          rw [hmf.1] at h
          exact Bool.noConfusion h
        intro e he
        rcases List.mem_cons.1 he with h | h
        · subst h
          rw [getD_set_self _ _ _ _ hmlt]
          exact ⟨rfl, hmlt⟩
        · have hold := hInv.free.2 e h
          by_cases hem : e = makerEid
          · subst hem
            rw [getD_set_self _ _ _ _ hmlt]
            exact ⟨rfl, hmlt⟩
          · rw [getD_set_ne _ _ _ _ _ (fun hc => hem hc.symm)]
            exact hold)
      (by
        intro p hp
        refine ⟨List.mem_of_mem_filter hp, ?_⟩
        intro hp2
        exfalso
        have hCold := hInv.client p (List.mem_of_mem_filter hp)
        have hpcid : p.1 = (poolGet s makerEid).clientId := by
          rw [← hCold.2.1, hp2]
        have hne2 : p.1 ≠ (poolGet s makerEid).clientId := by
          have h := List.of_mem_filter hp
          simpa using h
        exact hne2 hpcid)
    obtain ⟨hLen2, hQty2, hUniq2, hMem2, hFree2, hCl2, hSTother, hATb, hATne⟩ := hcore
    have hSTbb : (setSideLevel
        { s with
          trades := s.trades ++
            [{ takerClient := taker.clientId
             , makerClient := (poolGet s makerEid).clientId
             , qty := min (poolGet s makerEid).qty taker.qty
             , priceIdx := (poolGet s makerEid).priceIdx, ts := taker.ts }]
        , pool := s.pool.set makerEid
            { poolGet s makerEid with active := false, qty := 0 }
        , freeList := makerEid :: s.freeList
        , clientToEngine := cterase s.clientToEngine (poolGet s makerEid).clientId }
        opp (sideBest s opp)
        { data := restQ
        , totalQty := (levelAt (sideLevels s opp) (sideBest s opp)).totalQty
            - min (poolGet s makerEid).qty taker.qty }).bestBid = s.bestBid :=
      (setSideLevel_bestBid _ opp _ _).trans rfl
    have hSTba : (setSideLevel
        { s with
          trades := s.trades ++
            [{ takerClient := taker.clientId
             , makerClient := (poolGet s makerEid).clientId
             , qty := min (poolGet s makerEid).qty taker.qty
             , priceIdx := (poolGet s makerEid).priceIdx, ts := taker.ts }]
        , pool := s.pool.set makerEid
            { poolGet s makerEid with active := false, qty := 0 }
        , freeList := makerEid :: s.freeList
        , clientToEngine := cterase s.clientToEngine (poolGet s makerEid).clientId }
        opp (sideBest s opp)
        { data := restQ
        , totalQty := (levelAt (sideLevels s opp) (sideBest s opp)).totalQty
            - min (poolGet s makerEid).qty taker.qty }).bestAsk = s.bestAsk :=
      (setSideLevel_bestAsk _ opp _ _).trans rfl
    have hcount := oppOrderCount_set s
      { s with
        trades := s.trades ++
          [{ takerClient := taker.clientId
           , makerClient := (poolGet s makerEid).clientId
           , qty := min (poolGet s makerEid).qty taker.qty
           , priceIdx := (poolGet s makerEid).priceIdx, ts := taker.ts }]
      , pool := s.pool.set makerEid
          { poolGet s makerEid with active := false, qty := 0 }
      , freeList := makerEid :: s.freeList
      , clientToEngine := cterase s.clientToEngine (poolGet s makerEid).clientId }
      opp (sideBest s opp)
      { data := restQ
      , totalQty := (levelAt (sideLevels s opp) (sideBest s opp)).totalQty
          - min (poolGet s makerEid).qty taker.qty }
      rfl rfl hb.1 hb.2.1
    rw [hdata] at hcount
    simp only [List.length_cons] at hcount
    by_cases hrest : restQ = []
    · rw [if_pos hrest]
      have hempty := (congrArg RingLevel.data hATb).trans hrest
      have hrem := remove_rescan_master cfg s _ opp hLen2 hQty2 hUniq2 hMem2 hFree2 hCl2
        hSTother hATne hempty hSTbb hSTba hb.1 hInv
      refine ⟨hrem.1, rfl, hfillpos, Or.inl ?_, hrem.2.2⟩
      have h2 := hrem.2.1
      have h3 := hcount
      dsimp only at h2 h3 ⊢
      omega
    · rw [if_neg hrest]
      have hbests := bestInvs_of_side_iff cfg s _ opp hSTbb hSTba
        (levelAt_emptiness_iff s _ opp (sideBest s opp) _ hATb hATne
          (iff_of_false hrest (by rw [hdata]; exact fun hc => List.cons_ne_nil _ _ hc)))
        hSTother hInv.bb hInv.ba hInv.unx
      refine ⟨⟨hLen2, hbests.1, hbests.2.1, hbests.2.2, hQty2, hUniq2, hMem2, hFree2, hCl2⟩,
        rfl, hfillpos, Or.inl (by omega), ?_⟩
      intro sd hsd
      exact ⟨hSTother sd hsd, (sideBest_setSideLevel _ opp _ _ sd).trans rfl⟩
  · rw [if_neg hfull]
    have hcore := state_update_core cfg s
      { s with
        trades := s.trades ++
          [{ takerClient := taker.clientId
           , makerClient := (poolGet s makerEid).clientId
           , qty := min (poolGet s makerEid).qty taker.qty
           , priceIdx := (poolGet s makerEid).priceIdx, ts := taker.ts }]
      , pool := s.pool.set makerEid
          { poolGet s makerEid with
            qty := (poolGet s makerEid).qty - min (poolGet s makerEid).qty taker.qty } }
      opp (sideBest s opp) makerEid
      { poolGet s makerEid with
        qty := (poolGet s makerEid).qty - min (poolGet s makerEid).qty taker.qty }
      { levelAt (sideLevels s opp) (sideBest s opp) with
        totalQty := (levelAt (sideLevels s opp) (sideBest s opp)).totalQty
          - min (poolGet s makerEid).qty taker.qty }
      hInv hb.1 hb.2.1 hb.2.2 rfl rfl rfl hmlt hmemdata rfl rfl rfl
      (fun _ => by
        show 0 < (poolGet s makerEid).qty - min (poolGet s makerEid).qty taker.qty
        omega)
      (fun _ => hmf.1)
      (List.Sublist.refl _)
      (fun e he _ => he)
      (by
        show (levelAt (sideLevels s opp) (sideBest s opp)).totalQty
            - min (poolGet s makerEid).qty taker.qty = _
        have hupd := sum_map_update (fun e => (poolGet s e).qty)
          (fun e => ((s.pool.set makerEid
            { poolGet s makerEid with
              qty := (poolGet s makerEid).qty - min (poolGet s makerEid).qty taker.qty }).getD e
              ({} : Order)).qty)
          (levelAt (sideLevels s opp) (sideBest s opp)).data makerEid hnodup hmemdata
          (by
            intro x hx hxe
            show ((s.pool.set makerEid _).getD x ({} : Order)).qty = _
            rw [getD_set_ne _ _ _ _ _ (fun hc => hxe hc.symm)]
            rfl)
        rw [hupd, hq0]
        dsimp only
        rw [getD_set_self _ _ _ _ hmlt]
        dsimp only
        ring)
      (by
        refine ⟨hInv.free.1, ?_⟩
        intro e he
        have hold := hInv.free.2 e he
        have hene : e ≠ makerEid := by
          intro hc
          have h2 := hold.1
          rw [hc, hmf.1] at h2
          exact Bool.noConfusion h2
        rw [getD_set_ne _ _ _ _ _ (fun hc => hene hc.symm)]
        exact hold)
      (fun p hp => ⟨hp, fun _ => hmemdata⟩)
    obtain ⟨hLen2, hQty2, hUniq2, hMem2, hFree2, hCl2, hSTother, hATb, hATne⟩ := hcore
    have hSTbb : (setSideLevel
        { s with
          trades := s.trades ++
            [{ takerClient := taker.clientId
             , makerClient := (poolGet s makerEid).clientId
             , qty := min (poolGet s makerEid).qty taker.qty
             , priceIdx := (poolGet s makerEid).priceIdx, ts := taker.ts }]
        , pool := s.pool.set makerEid
            { poolGet s makerEid with
              qty := (poolGet s makerEid).qty - min (poolGet s makerEid).qty taker.qty } }
        opp (sideBest s opp)
        { levelAt (sideLevels s opp) (sideBest s opp) with
          totalQty := (levelAt (sideLevels s opp) (sideBest s opp)).totalQty
            - min (poolGet s makerEid).qty taker.qty }).bestBid = s.bestBid :=
      (setSideLevel_bestBid _ opp _ _).trans rfl
    have hSTba : (setSideLevel
        { s with
          trades := s.trades ++
            [{ takerClient := taker.clientId
             , makerClient := (poolGet s makerEid).clientId
             , qty := min (poolGet s makerEid).qty taker.qty
             , priceIdx := (poolGet s makerEid).priceIdx, ts := taker.ts }]
        , pool := s.pool.set makerEid
            { poolGet s makerEid with
              qty := (poolGet s makerEid).qty - min (poolGet s makerEid).qty taker.qty } }
        opp (sideBest s opp)
        { levelAt (sideLevels s opp) (sideBest s opp) with
          totalQty := (levelAt (sideLevels s opp) (sideBest s opp)).totalQty
            - min (poolGet s makerEid).qty taker.qty }).bestAsk = s.bestAsk :=
      (setSideLevel_bestAsk _ opp _ _).trans rfl
    have hcount := oppOrderCount_set s
      { s with
        trades := s.trades ++
          [{ takerClient := taker.clientId
           , makerClient := (poolGet s makerEid).clientId
           , qty := min (poolGet s makerEid).qty taker.qty
           , priceIdx := (poolGet s makerEid).priceIdx, ts := taker.ts }]
      , pool := s.pool.set makerEid
          { poolGet s makerEid with
            qty := (poolGet s makerEid).qty - min (poolGet s makerEid).qty taker.qty } }
      opp (sideBest s opp)
      { levelAt (sideLevels s opp) (sideBest s opp) with
        totalQty := (levelAt (sideLevels s opp) (sideBest s opp)).totalQty
          - min (poolGet s makerEid).qty taker.qty }
      rfl rfl hb.1 hb.2.1
    dsimp only at hcount
    have hbests := bestInvs_of_side_iff cfg s _ opp hSTbb hSTba
      (levelAt_emptiness_iff s _ opp (sideBest s opp) _ hATb hATne Iff.rfl)
      hSTother hInv.bb hInv.ba hInv.unx
    refine ⟨⟨hLen2, hbests.1, hbests.2.1, hbests.2.2, hQty2, hUniq2, hMem2, hFree2, hCl2⟩,
      rfl, hfillpos, Or.inr ⟨?_, by omega⟩, ?_⟩
    · show taker.qty - min (poolGet s makerEid).qty taker.qty = 0
      rcases min_choice (poolGet s makerEid).qty taker.qty with hmc | hmc <;> omega
    · intro sd hsd
      exact ⟨hSTother sd hsd, (sideBest_setSideLevel _ opp _ _ sd).trans rfl⟩

theorem sweep_inv (cfg : Config) (opp : Side) (cross : Int → Bool) :
    ∀ (fuel : Nat) (taker : Order) (s : EngineState), Inv cfg s →
    oppOrderCount s opp < fuel →
    Inv cfg (sweep cfg opp cross fuel taker s).2
    ∧ ¬(0 < (sweep cfg opp cross fuel taker s).1.qty
        ∧ sideBest (sweep cfg opp cross fuel taker s).2 opp ≠ -1
        ∧ cross (sideBest (sweep cfg opp cross fuel taker s).2 opp) = true)
    ∧ (∀ sd, sd ≠ opp →
        sideLevels (sweep cfg opp cross fuel taker s).2 sd = sideLevels s sd
        ∧ sideBest (sweep cfg opp cross fuel taker s).2 sd = sideBest s sd)
    ∧ ∃ q2, (sweep cfg opp cross fuel taker s).1 = { taker with qty := q2 }
        ∧ q2 ≤ taker.qty := by
  intro fuel
  induction fuel with
  | zero =>
      intro taker s hInv hf
      exact absurd hf (by omega)
  | succ n ih =>
      intro taker s hInv hf
      by_cases hg : 0 < taker.qty ∧ sideBest s opp ≠ -1 ∧ cross (sideBest s opp) = true
      · have hbne := hg.2.1
        have hne := best_nonempty cfg s opp hInv hbne
        obtain ⟨makerEid, restQ, hdata⟩ :
            ∃ m r, (levelAt (sideLevels s opp) (sideBest s opp)).data = m :: r := by
          cases hdd : (levelAt (sideLevels s opp) (sideBest s opp)).data with
          | nil => exact absurd hdd hne
          | cons a l => exact ⟨a, l, rfl⟩
        have hstep : sweep cfg opp cross (n + 1) taker s
            = sweep cfg opp cross n (matchTop cfg opp makerEid restQ taker s).1
                (matchTop cfg opp makerEid restQ taker s).2 := by
          conv_lhs => unfold sweep
          rw [if_pos hg, hdata]
        obtain ⟨hInv2, htaker1, hfillpos, hmeas, hframe⟩ :=
          matchTop_master cfg opp makerEid restQ taker s hInv hbne hdata hg.1
        rcases hmeas with hdec | ⟨hzero, hsame⟩
        · have hin := ih (matchTop cfg opp makerEid restQ taker s).1
            (matchTop cfg opp makerEid restQ taker s).2 hInv2 (by omega)
          rw [hstep]
          refine ⟨hin.1, hin.2.1, ?_, ?_⟩
          · intro sd hsd
            have h1 := hin.2.2.1 sd hsd
            have h2 := hframe sd hsd
            exact ⟨h1.1.trans h2.1, h1.2.trans h2.2⟩
          · obtain ⟨q2, hq2, hle⟩ := hin.2.2.2
            refine ⟨q2, ?_, ?_⟩
            · rw [hq2, htaker1]
            · rw [htaker1] at hle
              dsimp only at hle
              omega
        · rw [hstep, sweep_exhausted cfg opp cross n
            (matchTop cfg opp makerEid restQ taker s).1
            (matchTop cfg opp makerEid restQ taker s).2 (by omega)]
          dsimp only
          refine ⟨hInv2, fun hc => absurd hc.1 (by omega), hframe,
            ⟨taker.qty - min (poolGet s makerEid).qty taker.qty, htaker1, by omega⟩⟩
      · have hid : sweep cfg opp cross (n + 1) taker s = (taker, s) := by
          unfold sweep
          rw [if_neg hg]
        rw [hid]
        exact ⟨hInv, hg, fun sd _ => ⟨rfl, rfl⟩, ⟨taker.qty, rfl, le_refl _⟩⟩

theorem nodup_flatten_append_fresh {α : Type} (L : List (List α)) :
    ∀ (k : Nat) (d : List α) (x : α), (∀ hk : k < L.length, d = L[k] ++ [x]) →
    x ∉ L.flatten → L.flatten.Nodup → (L.set k d).flatten.Nodup := by
  induction L with
  | nil =>
      intro k d x _ _ _
      simp
  | cons a tl ih =>
      intro k d x hd hx hnd
      cases k with
      | zero =>
          rw [List.set_cons_zero, List.flatten_cons]
          rw [List.flatten_cons] at hnd hx
          have hd0 : d = a ++ [x] := hd (by simp)
          subst hd0
          have hp2 : ((a ++ [x]) ++ tl.flatten).Perm ((x :: a) ++ tl.flatten) :=
            (List.perm_append_singleton x a).append_right tl.flatten
          exact hp2.symm.nodup (List.nodup_cons.2 ⟨hx, hnd⟩)
      | succ n =>
          rw [List.set_cons_succ, List.flatten_cons]
          rw [List.flatten_cons] at hnd hx
          rw [List.nodup_append] at hnd ⊢
          have hx1 : x ∉ a := fun hc => hx (List.mem_append.2 (Or.inl hc))
          have hx2 : x ∉ tl.flatten := fun hc => hx (List.mem_append.2 (Or.inr hc))
          by_cases hn : n < tl.length
          · refine ⟨hnd.1, ih n d x (fun hk => ?_) hx2 hnd.2.1, ?_⟩
            · have h := hd (by simpa using Nat.succ_lt_succ hk)
              rw [h]
              congr 1
            · intro z hz hz2
              rw [List.mem_flatten] at hz2
              obtain ⟨l, hl, hzl⟩ := hz2
              rcases List.mem_or_eq_of_mem_set hl with hltl | hld
              · exact hnd.2.2 hz (List.mem_flatten.2 ⟨l, hltl, hzl⟩)
              · subst hld
                rw [hd (by simpa using Nat.succ_lt_succ hn)] at hzl
                rcases List.mem_append.1 hzl with hz1 | hz1
                · refine hnd.2.2 hz (List.mem_flatten.2 ⟨tl[n], ?_, ?_⟩)
                  · exact List.getElem_mem hn
                  · simpa using hz1
                · have : z = x := by simpa using hz1
                  subst this
                  exact hx1 hz
          · rw [List.set_eq_of_length_le (by omega)]
            exact ⟨hnd.1, hnd.2.1, hnd.2.2⟩

theorem free_not_resting (cfg : Config) (s : EngineState) (hInv : Inv cfg s) (idx : Nat)
    (hinact : (poolGet s idx).active = false) :
    ∀ (sd : Side) (i : Int), idx ∉ (levelAt (sideLevels s sd) i).data := by
  intro sd i hmem
  have h0 : 0 ≤ i := by
    by_contra h
    rw [levelAt_neg _ _ (by omega)] at hmem
    cases hmem
  have hlt : i.toNat < (sideLevels s sd).length := by
    by_contra h
    rw [show (levelAt (sideLevels s sd) i).data = [] from levelAt_oob _ _ (by omega)] at hmem
    cases hmem
  have hLL : i < (cfg.nlevels : Int) := by
    have hlen : (sideLevels s sd).length = cfg.nlevels := by
      cases sd with
      | BUY => exact hInv.len.1
      | SELL => exact hInv.len.2.1
    omega
  have hf := mem_facts cfg s hInv sd i idx h0 hLL hmem
  rw [hf.1] at hinact
  exact Bool.noConfusion hinact

theorem not_mem_allEids (s : EngineState) (idx : Nat)
    (h : ∀ (sd : Side) (i : Int), idx ∉ (levelAt (sideLevels s sd) i).data) :
    idx ∉ ((s.bids ++ s.asks).map RingLevel.data).flatten := by
  intro hmem
  rw [List.mem_flatten] at hmem
  obtain ⟨l, hl, hidx⟩ := hmem
  rw [List.mem_map] at hl
  obtain ⟨lev, hlev, hld⟩ := hl
  rw [List.mem_append] at hlev
  rcases hlev with hb | ha
  · obtain ⟨j, hj, hjv⟩ := List.mem_iff_getElem.1 hb
    refine h Side.BUY (j : Int) ?_
    rw [show levelAt (sideLevels s Side.BUY) (j : Int) = s.bids[j] from
      levelAt_eq_getElem s.bids j hj, hjv, hld]
    exact hidx
  · obtain ⟨j, hj, hjv⟩ := List.mem_iff_getElem.1 ha
    refine h Side.SELL (j : Int) ?_
    rw [show levelAt (sideLevels s Side.SELL) (j : Int) = s.asks[j] from
      levelAt_eq_getElem s.asks j hj, hjv, hld]
    exact hidx

theorem alloc_core (cfg : Config) (s base : EngineState) (sd : Side) (b : Int)
    (idx : Nat) (X : Order) (L1 : RingLevel)
    (hInv : Inv cfg s)
    (hb0 : 0 ≤ b) (hbLn : b.toNat < (sideLevels s sd).length) (hbLL : b < (cfg.nlevels : Int))
    (hbids : base.bids = s.bids) (hasks : base.asks = s.asks)
    (hpool : base.pool = s.pool.set idx X)
    (hilt : idx < s.pool.length)
    (hinact : (poolGet s idx).active = false)
    (hXact : X.active = true) (hXside : X.side = sd) (hXidx : X.priceIdx = b)
    (hXqty : 0 < X.qty)
    (hL1 : L1.data = (levelAt (sideLevels s sd) b).data ++ [idx])
    (hQ : L1.totalQty = (levelAt (sideLevels s sd) b).totalQty + X.qty)
    (hF : base.freeList.Nodup
        ∧ ∀ e ∈ base.freeList, e ≠ idx ∧ (poolGet s e).active = false ∧ e < s.pool.length) :
    LenInv cfg (setSideLevel base sd b L1)
    ∧ QtyInv cfg (setSideLevel base sd b L1)
    ∧ UniqInv (setSideLevel base sd b L1)
    ∧ MemInv cfg (setSideLevel base sd b L1)
    ∧ FreeInv (setSideLevel base sd b L1)
    ∧ (∀ sd2, sd2 ≠ sd → sideLevels (setSideLevel base sd b L1) sd2 = sideLevels s sd2)
    ∧ levelAt (sideLevels (setSideLevel base sd b L1) sd) b = L1
    ∧ (∀ i : Int, i ≠ b →
        levelAt (sideLevels (setSideLevel base sd b L1) sd) i = levelAt (sideLevels s sd) i)
    ∧ (∀ e, e ≠ idx → poolGet (setSideLevel base sd b L1) e = poolGet s e)
    ∧ poolGet (setSideLevel base sd b L1) idx = X
    ∧ (setSideLevel base sd b L1).pool.length = s.pool.length
    ∧ (setSideLevel base sd b L1).freeList = base.freeList
    ∧ (setSideLevel base sd b L1).clientToEngine = base.clientToEngine := by
  have hnr := free_not_resting cfg s hInv idx hinact
  have hSTopp : sideLevels (setSideLevel base sd b L1) sd = setLevelAt (sideLevels s sd) b L1 := by
    rw [sideLevels_setSideLevel_same, sideLevels_eq_of s base hbids hasks sd]
  have hSTother : ∀ sd2, sd2 ≠ sd →
      sideLevels (setSideLevel base sd b L1) sd2 = sideLevels s sd2 := by
    intro sd2 hsd
    rw [sideLevels_setSideLevel_other _ _ _ _ _ hsd, sideLevels_eq_of s base hbids hasks sd2]
  have hATb : levelAt (sideLevels (setSideLevel base sd b L1) sd) b = L1 := by
    rw [hSTopp]
    exact levelAt_setLevelAt_self _ _ _ hb0 hbLn
  have hATne : ∀ i : Int, i ≠ b →
      levelAt (sideLevels (setSideLevel base sd b L1) sd) i = levelAt (sideLevels s sd) i := by
    intro i hi
    rw [hSTopp]
    exact levelAt_setLevelAt_ne _ _ _ _ (fun hc => hi hc.symm)
  have hSTpool : (setSideLevel base sd b L1).pool = s.pool.set idx X := by
    rw [(setSideLevel_proj base sd b L1).1, hpool]
  have hPG : ∀ e, e ≠ idx → poolGet (setSideLevel base sd b L1) e = poolGet s e := by
    intro e he
    unfold poolGet
    rw [hSTpool]
    exact getD_set_ne _ _ _ _ _ (fun hc => he hc.symm)
  have hPGm : poolGet (setSideLevel base sd b L1) idx = X := by
    unfold poolGet
    rw [hSTpool]
    exact getD_set_self _ _ _ _ hilt
  have hplen : (setSideLevel base sd b L1).pool.length = s.pool.length := by
    rw [hSTpool]
    exact List.length_set _ _ _
  have hSTfree : (setSideLevel base sd b L1).freeList = base.freeList :=
    (setSideLevel_proj base sd b L1).2.1
  have hSTmap : (setSideLevel base sd b L1).clientToEngine = base.clientToEngine :=
    (setSideLevel_proj base sd b L1).2.2.2.2.1
  have hlevlen : ∀ sd2, (sideLevels (setSideLevel base sd b L1) sd2).length
      = (sideLevels s sd2).length := by
    intro sd2
    by_cases hsd : sd2 = sd
    · subst hsd
      rw [hSTopp]
      exact length_setLevelAt _ _ _
    · rw [hSTother sd2 hsd]
  have hLen2 : LenInv cfg (setSideLevel base sd b L1) := by
    refine ⟨?_, ?_, hInv.len.2.2⟩
    · have h := hlevlen Side.BUY
      simp only [sideLevels_buy] at h
      rw [h]
      exact hInv.len.1
    · have h := hlevlen Side.SELL
      simp only [sideLevels_sell] at h
      rw [h]
      exact hInv.len.2.1
  have hQtyS : ∀ sd2, ∀ i ∈ List.range cfg.nlevels,
      levelQtyOk (setSideLevel base sd b L1)
        (levelAt (sideLevels (setSideLevel base sd b L1) sd2) (i : Int)) := by
    intro sd2 i hi
    by_cases hsd : sd2 = sd
    · rw [hsd]
      by_cases hib : ((i : Nat) : Int) = b
      · rw [hib, hATb]
        show L1.totalQty = _
        rw [hQ, hL1]
        have hq0 := qtyInvSide_of cfg s hInv sd i hi
        rw [hib] at hq0
        rw [List.map_append, List.sum_append]
        have hmapeq : (levelAt (sideLevels s sd) b).data.map
            (fun e => (poolGet (setSideLevel base sd b L1) e).qty)
            = (levelAt (sideLevels s sd) b).data.map (fun e => (poolGet s e).qty) := by
          apply List.map_congr_left
          intro e he
          rw [hPG e (fun hc => hnr sd b (hc ▸ he))]
        rw [hmapeq, ← hq0]
        simp only [List.map_cons, List.map_nil, List.sum_cons, List.sum_nil]
        rw [hPGm]
        ring
      · rw [hATne _ hib]
        show (levelAt (sideLevels s sd) (i : Int)).totalQty = _
        have hold := qtyInvSide_of cfg s hInv sd i hi
        rw [hold]
        congr 1
        apply List.map_congr_left
        intro e he
        rw [hPG e (fun hc => hnr sd ((i : Nat) : Int) (hc ▸ he))]
    · rw [hSTother sd2 hsd]
      show (levelAt (sideLevels s sd2) (i : Int)).totalQty = _
      have hold := qtyInvSide_of cfg s hInv sd2 i hi
      rw [hold]
      congr 1
      apply List.map_congr_left
      intro e he
      rw [hPG e (fun hc => hnr sd2 ((i : Nat) : Int) (hc ▸ he))]
  have hQty2 : QtyInv cfg (setSideLevel base sd b L1) := by
    constructor
    · have h := hQtyS Side.BUY
      simp only [sideLevels_buy] at h
      exact h
    · have h := hQtyS Side.SELL
      simp only [sideLevels_sell] at h
      exact h
  have hfresh := not_mem_allEids s idx hnr
  have hUniq2 : UniqInv (setSideLevel base sd b L1) := by
    show ((((setSideLevel base sd b L1).bids ++ (setSideLevel base sd b L1).asks).map
        RingLevel.data).flatten).Nodup
    cases sd with
    | BUY =>
        have hlb : b.toNat < s.bids.length := hbLn
        have h1 : (setSideLevel base Side.BUY b L1).bids = s.bids.set b.toNat L1 := by
          show setLevelAt base.bids b L1 = _
          unfold setLevelAt
          rw [if_neg (by omega), hbids]
        have h2 : (setSideLevel base Side.BUY b L1).asks = s.asks := hasks
        rw [h1, h2, List.map_append, List.map_set,
          ← List.set_append_left _ _ (by rw [List.length_map]; exact hlb),
          ← List.map_append]
        refine nodup_flatten_append_fresh _ b.toNat L1.data idx ?_ hfresh hInv.uniq
        intro hk
        rw [hL1]
        congr 1
        simp only [sideLevels_buy]
        rw [List.getElem_map, List.getElem_append_left hlb,
          show levelAt s.bids b = s.bids.get ⟨b.toNat, hlb⟩ from
            levelAt_eq_getElem' s.bids b hb0 hlb]
        rfl
    | SELL =>
        have hlb : b.toNat < s.asks.length := hbLn
        have h1 : (setSideLevel base Side.SELL b L1).asks = s.asks.set b.toNat L1 := by
          show setLevelAt base.asks b L1 = _
          unfold setLevelAt
          rw [if_neg (by omega), hasks]
        have h2 : (setSideLevel base Side.SELL b L1).bids = s.bids := hbids
        have hset : (s.bids.map RingLevel.data) ++ ((s.asks.map RingLevel.data).set b.toNat L1.data)
            = ((s.bids ++ s.asks).map RingLevel.data).set (s.bids.length + b.toNat) L1.data := by
          rw [List.map_append, List.set_append_right _ _ (by rw [List.length_map]; omega),
            List.length_map,
            show s.bids.length + b.toNat - s.bids.length = b.toNat from by omega]
        rw [h1, h2, List.map_append, List.map_set, hset]
        refine nodup_flatten_append_fresh _ (s.bids.length + b.toNat) L1.data idx ?_
          hfresh hInv.uniq
        intro hk
        rw [hL1]
        congr 1
        simp only [sideLevels_sell]
        rw [List.getElem_map,
          List.getElem_append_right (by omega : s.bids.length ≤ s.bids.length + b.toNat)]
        simp only [show s.bids.length + b.toNat - s.bids.length = b.toNat from by omega]
        rw [show levelAt s.asks b = s.asks.get ⟨b.toNat, hlb⟩ from
          levelAt_eq_getElem' s.asks b hb0 hlb]
        rfl
  have hMemS : ∀ sd2, MemInvSide cfg (setSideLevel base sd b L1) sd2 := by
    intro sd2 i hi e he
    have hiL : ((i : Nat) : Int) < (cfg.nlevels : Int) := by
      rw [List.mem_range] at hi
      omega
    by_cases hsd : sd2 = sd
    · rw [hsd] at he ⊢
      by_cases hib : ((i : Nat) : Int) = b
      · rw [hib, hATb] at he
        rw [hL1] at he
        rcases List.mem_append.1 he with hold | hnew
        · have hene : e ≠ idx := fun hc => hnr sd b (hc ▸ hold)
          have hof := mem_facts cfg s hInv sd b e hb0 hbLL hold
          rw [hPG e hene]
          exact ⟨hof.1, hof.2.1, by rw [hof.2.2.1, hib], hof.2.2.2.1⟩
        · have heidx : e = idx := by simpa using hnew
          subst heidx
          rw [hPGm]
          exact ⟨hXact, hXside, by rw [hXidx, hib], hXqty⟩
      · rw [hATne _ hib] at he
        have hene : e ≠ idx := fun hc => hnr sd ((i : Nat) : Int) (hc ▸ he)
        have hof := mem_facts cfg s hInv sd ((i : Nat) : Int) e (by omega) hiL he
        rw [hPG e hene]
        exact ⟨hof.1, hof.2.1, hof.2.2.1, hof.2.2.2.1⟩
    · rw [hSTother sd2 hsd] at he
      have hene : e ≠ idx := fun hc => hnr sd2 ((i : Nat) : Int) (hc ▸ he)
      have hof := mem_facts cfg s hInv sd2 ((i : Nat) : Int) e (by omega) hiL he
      rw [hPG e hene]
      exact ⟨hof.1, hof.2.1, hof.2.2.1, hof.2.2.2.1⟩
  have hFree2 : FreeInv (setSideLevel base sd b L1) := by
    constructor
    · rw [hSTfree]
      exact hF.1
    · intro e he
      rw [hSTfree] at he
      have h := hF.2 e he
      constructor
      · show (poolGet (setSideLevel base sd b L1) e).active = false
        rw [hPG e h.1]
        exact h.2.1
      · rw [hplen]
        exact h.2.2
  exact ⟨hLen2, hQty2, hUniq2, ⟨hMemS Side.BUY, hMemS Side.SELL⟩, hFree2,
    hSTother, hATb, hATne, hPG, hPGm, hplen, hSTfree, hSTmap⟩

theorem inv_core_congr_nomap (cfg : Config) (s s' : EngineState)
    (hp : s'.pool = s.pool) (hf : s'.freeList = s.freeList)
    (hb : s'.bids = s.bids) (ha : s'.asks = s.asks) :
    (LenInv cfg s → LenInv cfg s') ∧ (QtyInv cfg s → QtyInv cfg s')
    ∧ (UniqInv s → UniqInv s') ∧ (MemInv cfg s → MemInv cfg s')
    ∧ (FreeInv s → FreeInv s') := by
  obtain ⟨p', f', b', a', bb', ba', m', t'⟩ := s'
  dsimp only at hp hf hb ha
  subst hp
  subst hf
  subst hb
  subst ha
  refine ⟨fun h => ⟨h.1, h.2.1, h.2.2⟩, fun h => ⟨h.1, h.2⟩, fun h => h,
    fun h => ⟨?_, ?_⟩, fun h => ⟨h.1, h.2⟩⟩
  · exact h.1
  · exact h.2

theorem addBest_invs (cfg : Config) (s s2 : EngineState) (sd : Side) (b : Int)
    (hbb : s2.bestBid = s.bestBid) (hba : s2.bestAsk = s.bestAsk)
    (hb0 : 0 ≤ b) (hbLL : b < (cfg.nlevels : Int))
    (hATbne : (levelAt (sideLevels s2 sd) b).data ≠ [])
    (hATcons : ∀ i : Int, (levelAt (sideLevels s sd) i).data ≠ [] →
        (levelAt (sideLevels s2 sd) i).data ≠ [])
    (hATne : ∀ i : Int, i ≠ b → levelAt (sideLevels s2 sd) i = levelAt (sideLevels s sd) i)
    (hoth : ∀ sd2, sd2 ≠ sd → sideLevels s2 sd2 = sideLevels s sd2)
    (hunxb : sd = Side.BUY → s.bestAsk = -1 ∨ b < s.bestAsk)
    (hunxs : sd = Side.SELL → s.bestBid = -1 ∨ s.bestBid < b)
    (h1 : BestBidInv cfg s) (h2 : BestAskInv cfg s) (h3 : UncrossedInv s) :
    BestBidInv cfg (updateBestAfterAdd s2 sd b)
    ∧ BestAskInv cfg (updateBestAfterAdd s2 sd b)
    ∧ UncrossedInv (updateBestAfterAdd s2 sd b) := by
  cases sd with
  | BUY =>
      have haskeq : s2.asks = s.asks := hoth Side.SELL (by decide)
      have hask1 : ∀ i ∈ List.range cfg.nlevels, (levelAt (updateBestAfterAdd s2 Side.BUY b).asks
          ((i : Nat) : Int)).data ≠ [] →
          (updateBestAfterAdd s2 Side.BUY b).bestAsk ≤ ((i : Nat) : Int)
          ∧ (updateBestAfterAdd s2 Side.BUY b).bestAsk ≠ -1 := by
        intro i hi hne
        have hproj := updateBestAfterAdd_proj s2 Side.BUY b
        rw [hproj.2.2.2.1] at hne
        have hne2 : (levelAt s.asks ((i : Nat) : Int)).data ≠ [] := by
          rw [← haskeq]
          exact hne
        have h := h2.1 i hi hne2
        have hbaeq : (updateBestAfterAdd s2 Side.BUY b).bestAsk = s.bestAsk := by
          unfold updateBestAfterAdd
          dsimp only
          split <;> exact hba
        rw [hbaeq]
        exact h
      have hask2 : (updateBestAfterAdd s2 Side.BUY b).bestAsk ≠ -1 →
          0 ≤ (updateBestAfterAdd s2 Side.BUY b).bestAsk
          ∧ (updateBestAfterAdd s2 Side.BUY b).bestAsk < (cfg.nlevels : Int)
          ∧ (levelAt (updateBestAfterAdd s2 Side.BUY b).asks
              (updateBestAfterAdd s2 Side.BUY b).bestAsk).data ≠ [] := by
        have hbaeq : (updateBestAfterAdd s2 Side.BUY b).bestAsk = s.bestAsk := by
          unfold updateBestAfterAdd
          dsimp only
          split <;> exact hba
        have hproj := updateBestAfterAdd_proj s2 Side.BUY b
        intro hne
        rw [hbaeq] at hne ⊢
        have h := h2.2 hne
        refine ⟨h.1, h.2.1, ?_⟩
        rw [hproj.2.2.2.1, haskeq]
        exact h.2.2
      unfold updateBestAfterAdd at *
      dsimp only at *
      by_cases hlt : s2.bestBid < b
      · rw [if_pos hlt] at hask1 hask2 ⊢
        refine ⟨⟨?_, ?_⟩, ⟨hask1, hask2⟩, ?_⟩
        · intro i hi hne
          show (i : Int) ≤ b
          by_cases hib : ((i : Nat) : Int) = b
          · omega
          · have hne2 : (levelAt s2.bids ((i : Nat) : Int)).data ≠ [] := hne
            rw [show levelAt s2.bids ((i : Nat) : Int) = levelAt s.bids ((i : Nat) : Int) from
              hATne _ hib] at hne2
            have h := h1.1 i hi hne2
            omega
        · intro hne
          refine ⟨?_, ?_, hATbne⟩
          · show (0 : Int) ≤ b
            omega
          · show b < (cfg.nlevels : Int)
            omega
        · intro hbb2 hba2
          show b < s2.bestAsk
          have hba3 : s.bestAsk ≠ -1 := by
            show ¬ _
            rw [← hba]
            exact hba2
          rcases hunxb rfl with hm | hlt2
          · exact absurd hm hba3
          · rw [hba]
            exact hlt2
      · rw [if_neg hlt] at hask1 hask2 ⊢
        refine ⟨⟨?_, ?_⟩, ⟨hask1, hask2⟩, ?_⟩
        · intro i hi hne
          show (i : Int) ≤ s2.bestBid
          by_cases hib : ((i : Nat) : Int) = b
          · omega
          · have hne2 : (levelAt s2.bids ((i : Nat) : Int)).data ≠ [] := hne
            rw [show levelAt s2.bids ((i : Nat) : Int) = levelAt s.bids ((i : Nat) : Int) from
              hATne _ hib] at hne2
            have h := h1.1 i hi hne2
            omega
        · intro hne
          have hsne : s.bestBid ≠ -1 := by omega
          have h := h1.2 hsne
          refine ⟨by omega, by omega, ?_⟩
          have h0 := h.2.2
          rw [show s.bestBid = s2.bestBid from hbb.symm] at h0
          exact hATcons s2.bestBid h0
        · intro hbb2 hba2
          show s2.bestBid < s2.bestAsk
          have hba3 : s.bestAsk ≠ -1 := by
            show ¬ _
            rw [← hba]
            exact hba2
          have hbb3 : s.bestBid ≠ -1 := by
            show ¬ _
            rw [← hbb]
            exact hbb2
          have h := h3 hbb3 hba3
          omega
  | SELL =>
      have hbideq : s2.bids = s.bids := hoth Side.BUY (by decide)
      have hbid1 : ∀ i ∈ List.range cfg.nlevels, (levelAt (updateBestAfterAdd s2 Side.SELL b).bids
          ((i : Nat) : Int)).data ≠ [] →
          ((i : Nat) : Int) ≤ (updateBestAfterAdd s2 Side.SELL b).bestBid := by
        intro i hi hne
        have hproj := updateBestAfterAdd_proj s2 Side.SELL b
        rw [hproj.2.2.1] at hne
        have hne2 : (levelAt s.bids ((i : Nat) : Int)).data ≠ [] := by
          rw [← hbideq]
          exact hne
        have h := h1.1 i hi hne2
        have hbbeq : (updateBestAfterAdd s2 Side.SELL b).bestBid = s.bestBid := by
          unfold updateBestAfterAdd
          dsimp only
          split <;> exact hbb
        rw [hbbeq]
        exact h
      have hbid2 : (updateBestAfterAdd s2 Side.SELL b).bestBid ≠ -1 →
          0 ≤ (updateBestAfterAdd s2 Side.SELL b).bestBid
          ∧ (updateBestAfterAdd s2 Side.SELL b).bestBid < (cfg.nlevels : Int)
          ∧ (levelAt (updateBestAfterAdd s2 Side.SELL b).bids
              (updateBestAfterAdd s2 Side.SELL b).bestBid).data ≠ [] := by
        have hbbeq : (updateBestAfterAdd s2 Side.SELL b).bestBid = s.bestBid := by
          unfold updateBestAfterAdd
          dsimp only
          split <;> exact hbb
        have hproj := updateBestAfterAdd_proj s2 Side.SELL b
        intro hne
        rw [hbbeq] at hne ⊢
        have h := h1.2 hne
        refine ⟨h.1, h.2.1, ?_⟩
        rw [hproj.2.2.1, hbideq]
        exact h.2.2
      unfold updateBestAfterAdd at *
      dsimp only at *
      by_cases hlt : s2.bestAsk = -1 ∨ b < s2.bestAsk
      · rw [if_pos hlt] at hbid1 hbid2 ⊢
        refine ⟨⟨hbid1, hbid2⟩, ⟨?_, ?_⟩, ?_⟩
        · intro i hi hne
          constructor
          · show b ≤ (i : Int)
            by_cases hib : ((i : Nat) : Int) = b
            · omega
            · have hne2 : (levelAt s2.asks ((i : Nat) : Int)).data ≠ [] := hne
              rw [show levelAt s2.asks ((i : Nat) : Int) = levelAt s.asks ((i : Nat) : Int) from
                hATne _ hib] at hne2
              have h := (h2.1 i hi hne2).1
              rcases hlt with hm | hl
              · rw [hba] at hm
                have h3 := (h2.1 i hi hne2).2
                exact absurd hm h3
              · omega
          · show ¬ (b = -1)
            omega
        · intro hne
          refine ⟨?_, ?_, hATbne⟩
          · show (0 : Int) ≤ b
            omega
          · show b < (cfg.nlevels : Int)
            omega
        · intro hbb2 hba2
          show s2.bestBid < b
          have hbb3 : s.bestBid ≠ -1 := by
            show ¬ _
            rw [← hbb]
            exact hbb2
          rcases hunxs rfl with hm | hlt2
          · exact absurd hm hbb3
          · rw [hbb]
            exact hlt2
      · rw [if_neg hlt] at hbid1 hbid2 ⊢
        push_neg at hlt
        refine ⟨⟨hbid1, hbid2⟩, ⟨?_, ?_⟩, ?_⟩
        · intro i hi hne
          refine ⟨?_, by omega⟩
          show s2.bestAsk ≤ (i : Int)
          by_cases hib : ((i : Nat) : Int) = b
          · omega
          · have hne2 : (levelAt s2.asks ((i : Nat) : Int)).data ≠ [] := hne
            rw [show levelAt s2.asks ((i : Nat) : Int) = levelAt s.asks ((i : Nat) : Int) from
              hATne _ hib] at hne2
            have h := (h2.1 i hi hne2).1
            omega
        · intro hne
          have hsne : s.bestAsk ≠ -1 := by
            show ¬ _
            rw [← hba]
            exact hne
          have h := h2.2 hsne
          refine ⟨by omega, by omega, ?_⟩
          have h0 := h.2.2
          rw [show s.bestAsk = s2.bestAsk from hba.symm] at h0
          exact hATcons s2.bestAsk h0
        · intro hbb2 hba2
          show s2.bestBid < s2.bestAsk
          have hba3 : s.bestAsk ≠ -1 := by
            show ¬ _
            rw [← hba]
            exact hba2
          have hbb3 : s.bestBid ≠ -1 := by
            show ¬ _
            rw [← hbb]
            exact hbb2
          have h := h3 hbb3 hba3
          omega

theorem addPassive_master (cfg : Config) (taker : Order) (s : EngineState)
    (hInv : Inv cfg s)
    (htq : 0 < taker.qty)
    (hunxb : taker.side = Side.BUY → s.bestAsk = -1 ∨ taker.priceIdx < s.bestAsk)
    (hunxs : taker.side = Side.SELL → s.bestBid = -1 ∨ s.bestBid < taker.priceIdx) :
    ∀ s9, addPassive cfg taker s = some s9 → Inv cfg s9 := by
  intro s9 hsome
  unfold addPassive at hsome
  by_cases hrange : taker.priceIdx < 0 ∨ (cfg.nlevels : Int) ≤ taker.priceIdx
  · rw [if_pos hrange] at hsome
    exact Option.noConfusion hsome
  · rw [if_neg hrange] at hsome
    push_neg at hrange
    cases hfl : s.freeList with
    | nil =>
        rw [show poolAllocate s taker = none from by unfold poolAllocate; rw [hfl]] at hsome
        exact Option.noConfusion hsome
    | cons idx rest =>
        have halloc : poolAllocate s taker = some (idx,
            { s with freeList := rest
                   , pool := s.pool.set idx { taker with engineId := idx, active := true } }) := by
          unfold poolAllocate
          rw [hfl]
        rw [halloc] at hsome
        dsimp only at hsome
        have hfree0 := hInv.free.2 idx (by rw [hfl]; exact List.mem_cons_self _ _)
        have hlen0 : (sideLevels s taker.side).length = cfg.nlevels := by
          cases htsd : taker.side with
          | BUY => exact hInv.len.1
          | SELL => exact hInv.len.2.1
        have hlveq : levelAt (sideLevels
            { s with freeList := rest
                   , pool := s.pool.set idx { taker with engineId := idx, active := true } }
            taker.side) taker.priceIdx = levelAt (sideLevels s taker.side) taker.priceIdx := by
          exact congrArg (fun ls => levelAt ls taker.priceIdx)
            (sideLevels_eq_of s _ rfl rfl taker.side)
        by_cases hfull : (levelAt (sideLevels
            { s with freeList := rest
                   , pool := s.pool.set idx { taker with engineId := idx, active := true } }
            taker.side) taker.priceIdx).data.length + 1 = cfg.ringCap
        · rw [show ringPush cfg (levelAt (sideLevels
              { s with freeList := rest
                     , pool := s.pool.set idx { taker with engineId := idx, active := true } }
              taker.side) taker.priceIdx) idx taker.qty = none from by
            unfold ringPush
            rw [if_pos hfull]] at hsome
          exact Option.noConfusion hsome
        · rw [show ringPush cfg (levelAt (sideLevels
              { s with freeList := rest
                     , pool := s.pool.set idx { taker with engineId := idx, active := true } }
              taker.side) taker.priceIdx) idx taker.qty = some
              { data := (levelAt (sideLevels
                  { s with freeList := rest
                         , pool := s.pool.set idx { taker with engineId := idx, active := true } }
                  taker.side) taker.priceIdx).data ++ [idx]
              , totalQty := (levelAt (sideLevels
                  { s with freeList := rest
                         , pool := s.pool.set idx { taker with engineId := idx, active := true } }
                  taker.side) taker.priceIdx).totalQty + taker.qty } from by
            unfold ringPush
            rw [if_neg hfull]] at hsome
          dsimp only at hsome
          have hs9 := (Option.some.inj hsome).symm
          subst hs9
          rw [hlveq] at *
          have hcore := alloc_core cfg s
            { s with freeList := rest
                   , pool := s.pool.set idx { taker with engineId := idx, active := true } }
            taker.side taker.priceIdx idx
            { taker with engineId := idx, active := true }
            { data := (levelAt (sideLevels s taker.side) taker.priceIdx).data ++ [idx]
            , totalQty := (levelAt (sideLevels s taker.side) taker.priceIdx).totalQty
                + taker.qty }
            hInv hrange.1 (by omega) hrange.2 rfl rfl rfl hfree0.2 hfree0.1
            rfl rfl rfl htq rfl rfl
            (by
              constructor
              · have h := hInv.free.1
                rw [hfl] at h
                exact h.of_cons
              · intro e he
                have hnd := hInv.free.1
                rw [hfl] at hnd
                refine ⟨fun hc => (List.nodup_cons.1 hnd).1 (hc ▸ he), ?_⟩
                exact hInv.free.2 e (by rw [hfl]; exact List.mem_cons_of_mem _ he))
          obtain ⟨hLen2, hQty2, hUniq2, hMem2, hFree2, hSTother, hATb, hATne, hPG, hPGm,
            hplen, hSTfree, hSTmap⟩ := hcore
          obtain ⟨S2, hS2⟩ : ∃ S2, setSideLevel
              { s with freeList := rest
                     , pool := s.pool.set idx { taker with engineId := idx, active := true } }
              taker.side taker.priceIdx
              { data := (levelAt (sideLevels s taker.side) taker.priceIdx).data ++ [idx]
              , totalQty := (levelAt (sideLevels s taker.side) taker.priceIdx).totalQty
                  + taker.qty } = S2 := ⟨_, rfl⟩
          rw [hS2] at hLen2 hQty2 hUniq2 hMem2 hFree2 hSTother hATb hATne hPG hPGm hplen hSTfree hSTmap ⊢
          have hS2bb : S2.bestBid = s.bestBid := by
            rw [← hS2]
            exact (setSideLevel_bestBid _ _ _ _).trans rfl
          have hS2ba : S2.bestAsk = s.bestAsk := by
            rw [← hS2]
            exact (setSideLevel_bestAsk _ _ _ _).trans rfl
          have hmapS2 : S2.clientToEngine = s.clientToEngine := hSTmap.trans rfl
          have hATbne : (levelAt (sideLevels S2 taker.side) taker.priceIdx).data ≠ [] := by
            rw [hATb]
            simp
          have hATcons : ∀ i : Int, (levelAt (sideLevels s taker.side) i).data ≠ [] →
              (levelAt (sideLevels S2 taker.side) i).data ≠ [] := by
            intro i hne
            by_cases hib : i = taker.priceIdx
            · rw [hib, hATb]
              simp
            · rw [hATne i hib]
              exact hne
          have hbests := addBest_invs cfg s S2 taker.side taker.priceIdx hS2bb hS2ba
            hrange.1 hrange.2 hATbne hATcons hATne hSTother hunxb hunxs hInv.bb hInv.ba hInv.unx
          obtain ⟨U, hU⟩ : ∃ U, updateBestAfterAdd S2 taker.side taker.priceIdx = U := ⟨_, rfl⟩
          have hproj := updateBestAfterAdd_proj S2 taker.side taker.priceIdx
          rw [hU] at hproj hbests ⊢
          obtain ⟨F, hF⟩ : ∃ F,
              ({ pool := U.pool, freeList := U.freeList, bids := U.bids, asks := U.asks
               , bestBid := U.bestBid, bestAsk := U.bestAsk
               , clientToEngine := ctinsert U.clientToEngine taker.clientId idx
               , trades := U.trades } : EngineState) = F := ⟨_, rfl⟩
          rw [hF]
          have hFbidsU : F.bids = U.bids := by rw [← hF]
          have hFasksU : F.asks = U.asks := by rw [← hF]
          have hFbb : F.bestBid = U.bestBid := by rw [← hF]
          have hFba : F.bestAsk = U.bestAsk := by rw [← hF]
          have hFpool : F.pool = S2.pool := by
            rw [← hF]
            exact hproj.1
          have hFfree : F.freeList = S2.freeList := by
            rw [← hF]
            exact hproj.2.1
          have hFbids : F.bids = S2.bids := hFbidsU.trans hproj.2.2.1
          have hFasks : F.asks = S2.asks := hFasksU.trans hproj.2.2.2.1
          have hFmap : F.clientToEngine = ctinsert s.clientToEngine taker.clientId idx := by
            rw [← hF]
            show ctinsert U.clientToEngine taker.clientId idx = _
            rw [hproj.2.2.2.2.1, hmapS2]
          have hcore2 := inv_core_congr_nomap cfg S2 F hFpool hFfree hFbids hFasks
          have hFpg : ∀ e, poolGet F e = poolGet S2 e := by
            intro e
            unfold poolGet
            rw [hFpool]
          have hFlev : ∀ sd2, sideLevels F sd2 = sideLevels S2 sd2 := by
            intro sd2
            cases sd2 with
            | BUY => exact hFbids
            | SELL => exact hFasks
          have hFbbInv : BestBidInv cfg F :=
            bestBidInv_congr cfg U F hFbb (fun i => by rw [hFbidsU]) hbests.1
          have hFbaInv : BestAskInv cfg F :=
            bestAskInv_congr cfg U F hFba (fun i => by rw [hFasksU]) hbests.2.1
          have hFunx : UncrossedInv F := by
            intro hb2 ha2
            rw [hFbb] at hb2 ⊢
            rw [hFba] at ha2 ⊢
            exact hbests.2.2 hb2 ha2
          have hFclient : ClientInv F := by
            intro p hp
            rw [hFmap] at hp
            unfold ctinsert at hp
            rcases List.mem_cons.1 hp with hp1 | hp1
            · subst hp1
              dsimp only
              rw [hFpg, hPGm]
              refine ⟨rfl, rfl, ?_⟩
              show idx ∈ (levelAt (sideLevels F taker.side) taker.priceIdx).data
              rw [hFlev, hATb]
              show idx ∈ (levelAt (sideLevels s taker.side) taker.priceIdx).data ++ [idx]
              exact List.mem_append.2 (Or.inr (List.mem_singleton.2 rfl))
            · have hpold : p ∈ s.clientToEngine := List.mem_of_mem_filter hp1
              have hCold := hInv.client p hpold
              have hpne : p.2 ≠ idx := by
                intro hc
                have h := hCold.1
                rw [hc, hfree0.1] at h
                exact Bool.noConfusion h
              rw [hFpg, hPG p.2 hpne]
              refine ⟨hCold.1, hCold.2.1, ?_⟩
              rw [hFlev]
              by_cases hcase : (poolGet s p.2).side = taker.side
                  ∧ (poolGet s p.2).priceIdx = taker.priceIdx
              · rw [hcase.1, hcase.2, hATb]
                have h0 := hCold.2.2
                rw [hcase.1, hcase.2] at h0
                show p.2 ∈ (levelAt (sideLevels s taker.side) taker.priceIdx).data ++ [idx]
                exact List.mem_append.2 (Or.inl h0)
              · have hlev2 : levelAt (sideLevels S2 (poolGet s p.2).side)
                    (poolGet s p.2).priceIdx
                    = levelAt (sideLevels s (poolGet s p.2).side) (poolGet s p.2).priceIdx := by
                  by_cases hsd2 : (poolGet s p.2).side = taker.side
                  · rw [hsd2]
                    exact hATne _ (fun hc => hcase ⟨hsd2, hc⟩)
                  · rw [hSTother _ hsd2]
                rw [hlev2]
                exact hCold.2.2
          exact ⟨hcore2.1 hLen2, hFbbInv, hFbaInv, hFunx, hcore2.2.1 hQty2,
            hcore2.2.2.1 hUniq2, hcore2.2.2.2.1 hMem2, hcore2.2.2.2.2 hFree2, hFclient⟩

theorem mem_level_range (s : EngineState) (sd : Side) (i : Int) (e : Nat)
    (hmem : e ∈ (levelAt (sideLevels s sd) i).data) :
    0 ≤ i ∧ i.toNat < (sideLevels s sd).length := by
  constructor
  · by_contra hneg
    rw [levelAt_neg _ _ (by omega)] at hmem
    cases hmem
  · by_contra hoob
    rw [show (levelAt (sideLevels s sd) i).data = [] from levelAt_oob _ _ (by omega)] at hmem
    cases hmem

theorem bestInvs_shrink (cfg : Config) (s ST : EngineState) (opp : Side)
    (hbb : ST.bestBid = s.bestBid) (hba : ST.bestAsk = s.bestAsk)
    (hsub : ∀ i : Int, (levelAt (sideLevels ST opp) i).data ≠ [] →
        (levelAt (sideLevels s opp) i).data ≠ [])
    (hkeep : sideBest s opp ≠ -1 →
        (levelAt (sideLevels ST opp) (sideBest s opp)).data ≠ [])
    (hoth : ∀ sd2, sd2 ≠ opp → sideLevels ST sd2 = sideLevels s sd2)
    (h1 : BestBidInv cfg s) (h2 : BestAskInv cfg s) (h3 : UncrossedInv s) :
    BestBidInv cfg ST ∧ BestAskInv cfg ST ∧ UncrossedInv ST := by
  have hunx2 : UncrossedInv ST := by
    intro hb2 ha2
    rw [hbb] at hb2 ⊢
    rw [hba] at ha2 ⊢
    exact h3 hb2 ha2
  cases opp with
  | BUY =>
      have haeq : ST.asks = s.asks := hoth Side.SELL (by decide)
      refine ⟨⟨?_, ?_⟩, ⟨?_, ?_⟩, hunx2⟩
      · intro i hi hne
        have h := h1.1 i hi (hsub _ hne)
        rw [hbb]
        exact h
      · intro hne
        rw [hbb] at hne ⊢
        have h := h1.2 hne
        exact ⟨h.1, h.2.1, hkeep hne⟩
      · intro i hi hne
        rw [haeq] at hne
        have h := h2.1 i hi hne
        rw [hba]
        exact h
      · intro hne
        rw [hba] at hne ⊢
        have h := h2.2 hne
        refine ⟨h.1, h.2.1, ?_⟩
        rw [haeq]
        exact h.2.2
  | SELL =>
      have hbeq : ST.bids = s.bids := hoth Side.BUY (by decide)
      refine ⟨⟨?_, ?_⟩, ⟨?_, ?_⟩, hunx2⟩
      · intro i hi hne
        rw [hbeq] at hne
        have h := h1.1 i hi hne
        rw [hbb]
        exact h
      · intro hne
        rw [hbb] at hne ⊢
        have h := h1.2 hne
        refine ⟨h.1, h.2.1, ?_⟩
        rw [hbeq]
        exact h.2.2
      · intro i hi hne
        have h := h2.1 i hi (hsub _ hne)
        rw [hba]
        exact h
      · intro hne
        rw [hba] at hne ⊢
        have h := h2.2 hne
        exact ⟨h.1, h.2.1, hkeep hne⟩

theorem cancel_state_eq (sd : Side) (eid : Nat) (o : Order) (s : EngineState) (L1 : RingLevel)
    (b : Int) (cid : Nat) (ho : poolGet s eid = o) :
    (let s2 := poolFree (setSideLevel s sd b L1) eid
     { s2 with clientToEngine := cterase s2.clientToEngine cid })
    = setSideLevel
        { s with pool := s.pool.set eid { o with active := false, qty := 0 }
               , freeList := eid :: s.freeList
               , clientToEngine := cterase s.clientToEngine cid }
        sd b L1 := by
  dsimp only
  unfold poolFree
  have hY : poolGet (setSideLevel s sd b L1) eid = o := by
    unfold poolGet
    rw [(setSideLevel_proj s sd b L1).1]
    exact ho
  rw [hY]
  cases sd <;> rfl

theorem updateBestAfterRemove_nonbest (cfg : Config) (ST : EngineState) (sd : Side) (b : Int)
    (h : sideBest ST sd ≠ b) : updateBestAfterRemove cfg ST sd b = ST := by
  cases sd with
  | BUY =>
      unfold updateBestAfterRemove
      dsimp only
      exact if_pos h
  | SELL =>
      unfold updateBestAfterRemove
      dsimp only
      exact if_pos h

theorem cancel_master (cfg : Config) (s : EngineState) (clientId : Nat) (hInv : Inv cfg s) :
    Inv cfg (cancel cfg s clientId).2 := by
  unfold cancel
  cases hfind : ctfind s.clientToEngine clientId with
  | none =>
      dsimp only
      exact hInv
  | some eid =>
      dsimp only
      have hpair := ctfind_mem s.clientToEngine clientId eid hfind
      have hCl := hInv.client (clientId, eid) hpair
      dsimp only at hCl
      rw [if_neg (by rw [hCl.1]; exact fun hc => Bool.noConfusion hc)]
      rw [if_pos (by simpa using hCl.2.2)]
      dsimp only
      have hrange := mem_level_range s (poolGet s eid).side (poolGet s eid).priceIdx eid hCl.2.2
      have hlen : (sideLevels s (poolGet s eid).side).length = cfg.nlevels := by
        cases hsd : (poolGet s eid).side with
        | BUY => exact hInv.len.1
        | SELL => exact hInv.len.2.1
      have hbLL : (poolGet s eid).priceIdx < (cfg.nlevels : Int) := by omega
      have hmf := mem_facts cfg s hInv (poolGet s eid).side (poolGet s eid).priceIdx eid
        hrange.1 hbLL hCl.2.2
      have hmlt : eid < s.pool.length := hmf.2.2.2.2
      have hnodup : (levelAt (sideLevels s (poolGet s eid).side)
          (poolGet s eid).priceIdx).data.Nodup :=
        levelAt_data_nodup s hInv.uniq (poolGet s eid).side (poolGet s eid).priceIdx
      rw [cancel_state_eq (poolGet s eid).side eid (poolGet s eid) s
        { data := (levelAt (sideLevels s (poolGet s eid).side)
            (poolGet s eid).priceIdx).data.erase eid
        , totalQty := (levelAt (sideLevels s (poolGet s eid).side)
            (poolGet s eid).priceIdx).totalQty - (poolGet s eid).qty }
        (poolGet s eid).priceIdx clientId rfl]
      have hq0 := qtyInvSide_of cfg s hInv (poolGet s eid).side ((poolGet s eid).priceIdx).toNat
        (List.mem_range.2 (by omega))
      rw [show ((((poolGet s eid).priceIdx).toNat : Nat) : Int) = (poolGet s eid).priceIdx
        from by omega] at hq0
      have hcore := state_update_core cfg s
        { s with pool := s.pool.set eid { poolGet s eid with active := false, qty := 0 }
               , freeList := eid :: s.freeList
               , clientToEngine := cterase s.clientToEngine clientId }
        (poolGet s eid).side (poolGet s eid).priceIdx eid
        { poolGet s eid with active := false, qty := 0 }
        { data := (levelAt (sideLevels s (poolGet s eid).side)
            (poolGet s eid).priceIdx).data.erase eid
        , totalQty := (levelAt (sideLevels s (poolGet s eid).side)
            (poolGet s eid).priceIdx).totalQty - (poolGet s eid).qty }
        hInv hrange.1 hrange.2 hbLL rfl rfl rfl hmlt hCl.2.2 rfl rfl rfl
        (fun h => nomatch h)
        (fun h => absurd rfl ((hnodup.mem_erase_iff.1 h).1))
        (List.erase_sublist _ _)
        (fun e he hene => (List.mem_erase_of_ne hene).2 he)
        (by
          show (levelAt (sideLevels s (poolGet s eid).side)
              (poolGet s eid).priceIdx).totalQty - (poolGet s eid).qty = _
          have hmapeq : ((levelAt (sideLevels s (poolGet s eid).side)
              (poolGet s eid).priceIdx).data.erase eid).map (fun e =>
              ((s.pool.set eid { poolGet s eid with active := false, qty := 0 }).getD e
                ({} : Order)).qty)
              = ((levelAt (sideLevels s (poolGet s eid).side)
                  (poolGet s eid).priceIdx).data.erase eid).map
                  (fun e => (poolGet s e).qty) := by
            apply List.map_congr_left
            intro e he
            have hene : e ≠ eid := (hnodup.mem_erase_iff.1 he).1
            show ((s.pool.set eid _).getD e ({} : Order)).qty = _
            rw [getD_set_ne _ _ _ _ _ (fun hc => hene hc.symm)]
            rfl
          rw [hmapeq, sum_map_erase _ _ _ hCl.2.2, hq0])
        (by
          refine ⟨List.nodup_cons.2 ⟨?_, hInv.free.1⟩, ?_⟩
          · intro hcmem
            have h := (hInv.free.2 eid hcmem).1
            rw [hmf.1] at h
            exact Bool.noConfusion h
          intro e he
          rcases List.mem_cons.1 he with h | h
          · subst h
            rw [getD_set_self _ _ _ _ hmlt]
            exact ⟨rfl, hmlt⟩
          · have hold := hInv.free.2 e h
            by_cases hem : e = eid
            · subst hem
              rw [getD_set_self _ _ _ _ hmlt]
              exact ⟨rfl, hmlt⟩
            · rw [getD_set_ne _ _ _ _ _ (fun hc => hem hc.symm)]
              exact hold)
        (by
          intro p hp
          refine ⟨List.mem_of_mem_filter hp, ?_⟩
          intro hp2
          exfalso
          have hCold := hInv.client p (List.mem_of_mem_filter hp)
          have hpcid : p.1 = clientId := by
            rw [← hCold.2.1, hp2]
            exact hCl.2.1
          have hne2 : p.1 ≠ clientId := by
            have h := List.of_mem_filter hp
            simpa using h
          exact hne2 hpcid)
      obtain ⟨hLen2, hQty2, hUniq2, hMem2, hFree2, hCl2, hSTother, hATb, hATne⟩ := hcore
      obtain ⟨ST, hSTdef⟩ : ∃ ST, setSideLevel
          { s with pool := s.pool.set eid { poolGet s eid with active := false, qty := 0 }
                 , freeList := eid :: s.freeList
                 , clientToEngine := cterase s.clientToEngine clientId }
          (poolGet s eid).side (poolGet s eid).priceIdx
          { data := (levelAt (sideLevels s (poolGet s eid).side)
              (poolGet s eid).priceIdx).data.erase eid
          , totalQty := (levelAt (sideLevels s (poolGet s eid).side)
              (poolGet s eid).priceIdx).totalQty - (poolGet s eid).qty } = ST := ⟨_, rfl⟩
      rw [hSTdef] at hLen2 hQty2 hUniq2 hMem2 hFree2 hCl2 hSTother hATb hATne ⊢
      have hSTbb : ST.bestBid = s.bestBid := by
        rw [← hSTdef]
        exact (setSideLevel_bestBid _ _ _ _).trans rfl
      have hSTba : ST.bestAsk = s.bestAsk := by
        rw [← hSTdef]
        exact (setSideLevel_bestAsk _ _ _ _).trans rfl
      have hsubO : ∀ i : Int, (levelAt (sideLevels ST (poolGet s eid).side) i).data ≠ [] →
          (levelAt (sideLevels s (poolGet s eid).side) i).data ≠ [] := by
        intro i hne hc
        by_cases hib : i = (poolGet s eid).priceIdx
        · rw [hib, hATb] at hne
          apply hne
          show (levelAt (sideLevels s (poolGet s eid).side)
              (poolGet s eid).priceIdx).data.erase eid = []
          rw [hib] at hc
          rw [hc]
          rfl
        · rw [hATne i hib] at hne
          exact hne hc
      have hmkInv : (sideBest s (poolGet s eid).side ≠ -1 →
          (levelAt (sideLevels ST (poolGet s eid).side)
            (sideBest s (poolGet s eid).side)).data ≠ []) → Inv cfg ST := by
        intro hkeepO
        have hbests := bestInvs_shrink cfg s ST (poolGet s eid).side hSTbb hSTba hsubO hkeepO
          hSTother hInv.bb hInv.ba hInv.unx
        exact ⟨hLen2, hbests.1, hbests.2.1, hbests.2.2, hQty2, hUniq2, hMem2, hFree2, hCl2⟩
      by_cases hrest : (levelAt (sideLevels s (poolGet s eid).side)
          (poolGet s eid).priceIdx).data.erase eid = []
      · rw [if_pos hrest]
        by_cases hbeq : sideBest s (poolGet s eid).side = (poolGet s eid).priceIdx
        · rw [← hbeq]
          have hempty : (levelAt (sideLevels ST (poolGet s eid).side)
              (sideBest s (poolGet s eid).side)).data = [] := by
            rw [hbeq, hATb]
            exact hrest
          have hATne2 : ∀ i : Int, i ≠ sideBest s (poolGet s eid).side →
              levelAt (sideLevels ST (poolGet s eid).side) i
                = levelAt (sideLevels s (poolGet s eid).side) i := by
            intro i hi
            refine hATne i ?_
            rw [← hbeq]
            exact hi
          have hrem := remove_rescan_master cfg s ST (poolGet s eid).side hLen2 hQty2 hUniq2
            hMem2 hFree2 hCl2 hSTother hATne2 hempty hSTbb hSTba (by omega) hInv
          exact hrem.1
        · rw [updateBestAfterRemove_nonbest cfg ST (poolGet s eid).side (poolGet s eid).priceIdx
            (by rw [sideBest_eq_of s ST hSTbb hSTba]; exact hbeq)]
          refine hmkInv ?_
          intro hne
          rw [hATne _ (fun hc => hbeq hc)]
          exact best_nonempty cfg s (poolGet s eid).side hInv hne
      · rw [if_neg hrest]
        refine hmkInv ?_
        intro hne
        by_cases hbeq : sideBest s (poolGet s eid).side = (poolGet s eid).priceIdx
        · rw [hbeq, hATb]
          exact hrest
        · rw [hATne _ (fun hc => hbeq hc)]
          exact best_nonempty cfg s (poolGet s eid).side hInv hne

theorem matchAndAdd_master (cfg : Config) (taker : Order) (s : EngineState)
    (hInv : Inv cfg s) :
    ∀ s9, matchAndAdd cfg taker s = some s9 → Inv cfg s9 := by
  intro s9 hsome
  unfold matchAndAdd at hsome
  cases htsd : taker.side with
  | BUY =>
      rw [htsd] at hsome
      dsimp only at hsome
      have hsw := sweep_inv cfg Side.SELL (fun a => decide (a ≤ taker.priceIdx))
        (sweepFuel cfg s Side.SELL) taker s hInv (by unfold sweepFuel; omega)
      obtain ⟨q2, hq2, hle⟩ := hsw.2.2.2
      by_cases hres : 0 < (sweep cfg Side.SELL (fun a => decide (a ≤ taker.priceIdx))
          (sweepFuel cfg s Side.SELL) taker s).1.qty
          ∧ (sweep cfg Side.SELL (fun a => decide (a ≤ taker.priceIdx))
              (sweepFuel cfg s Side.SELL) taker s).1.type = OrderType.LIMIT
      · rw [if_pos hres] at hsome
        have hexit := hsw.2.1
        refine addPassive_master cfg _ _ hsw.1 hres.1 ?_ ?_ s9 hsome
        · intro _
          rw [show (sweep cfg Side.SELL (fun a => decide (a ≤ taker.priceIdx))
              (sweepFuel cfg s Side.SELL) taker s).1.priceIdx = taker.priceIdx from by rw [hq2]]
          by_cases hm : sideBest (sweep cfg Side.SELL (fun a => decide (a ≤ taker.priceIdx))
              (sweepFuel cfg s Side.SELL) taker s).2 Side.SELL = -1
          · exact Or.inl hm
          · right
            by_contra hnot
            push_neg at hnot
            exact hexit ⟨hres.1, hm, by simpa using hnot⟩
        · intro hc
          rw [show (sweep cfg Side.SELL (fun a => decide (a ≤ taker.priceIdx))
              (sweepFuel cfg s Side.SELL) taker s).1.side = taker.side from by rw [hq2],
            htsd] at hc
          exact absurd hc (by decide)
      · rw [if_neg hres] at hsome
        have hs9 := Option.some.inj hsome
        rw [← hs9]
        exact hsw.1
  | SELL =>
      rw [htsd] at hsome
      dsimp only at hsome
      have hsw := sweep_inv cfg Side.BUY (fun b => decide (taker.priceIdx ≤ b))
        (sweepFuel cfg s Side.BUY) taker s hInv (by unfold sweepFuel; omega)
      obtain ⟨q2, hq2, hle⟩ := hsw.2.2.2
      by_cases hres : 0 < (sweep cfg Side.BUY (fun b => decide (taker.priceIdx ≤ b))
          (sweepFuel cfg s Side.BUY) taker s).1.qty
          ∧ (sweep cfg Side.BUY (fun b => decide (taker.priceIdx ≤ b))
              (sweepFuel cfg s Side.BUY) taker s).1.type = OrderType.LIMIT
      · rw [if_pos hres] at hsome
        have hexit := hsw.2.1
        refine addPassive_master cfg _ _ hsw.1 hres.1 ?_ ?_ s9 hsome
        · intro hc
          rw [show (sweep cfg Side.BUY (fun b => decide (taker.priceIdx ≤ b))
              (sweepFuel cfg s Side.BUY) taker s).1.side = taker.side from by rw [hq2],
            htsd] at hc
          exact absurd hc (by decide)
        · intro _
          rw [show (sweep cfg Side.BUY (fun b => decide (taker.priceIdx ≤ b))
              (sweepFuel cfg s Side.BUY) taker s).1.priceIdx = taker.priceIdx from by rw [hq2]]
          by_cases hm : sideBest (sweep cfg Side.BUY (fun b => decide (taker.priceIdx ≤ b))
              (sweepFuel cfg s Side.BUY) taker s).2 Side.BUY = -1
          · exact Or.inl hm
          · right
            by_contra hnot
            push_neg at hnot
            exact hexit ⟨hres.1, hm, by simpa using hnot⟩
      · rw [if_neg hres] at hsome
        have hs9 := Option.some.inj hsome
        rw [← hs9]
        exact hsw.1

theorem matchMarket_master (cfg : Config) (taker : Order) (s : EngineState)
    (hInv : Inv cfg s) : Inv cfg (matchMarket cfg taker s) := by
  unfold matchMarket
  cases htsd : taker.side with
  | BUY =>
      exact (sweep_inv cfg Side.SELL (fun _ => true) (sweepFuel cfg s Side.SELL) taker s hInv
        (by unfold sweepFuel; omega)).1
  | SELL =>
      exact (sweep_inv cfg Side.BUY (fun _ => true) (sweepFuel cfg s Side.BUY) taker s hInv
        (by unfold sweepFuel; omega)).1

theorem placeLimit_master (cfg : Config) (s : EngineState) (clientId : Nat) (sd : Side)
    (priceIdx : Int) (qty : Int) (ts : Nat) (tif : TimeInForce) (hInv : Inv cfg s) :
    ∀ s9, placeLimit cfg s clientId sd priceIdx qty ts tif = some s9 → Inv cfg s9 := by
  intro s9 hsome
  exact matchAndAdd_master cfg _ s hInv s9 hsome

theorem placeMarket_master (cfg : Config) (s : EngineState) (clientId : Nat) (sd : Side)
    (qty : Int) (ts : Nat) (hInv : Inv cfg s) :
    Inv cfg (placeMarket cfg s clientId sd qty ts) :=
  matchMarket_master cfg _ s hInv

theorem replace_master (cfg : Config) (s : EngineState) (clientId : Nat) (newPriceIdx : Int)
    (newQty : Int) (ts : Nat) (hInv : Inv cfg s) :
    ∀ b s9, replace cfg s clientId newPriceIdx newQty ts = some (b, s9) → Inv cfg s9 := by
  intro b s9 hsome
  unfold replace at hsome
  cases hfind : ctfind s.clientToEngine clientId with
  | none =>
      rw [hfind] at hsome
      dsimp only at hsome
      have h := Option.some.inj hsome
      rw [show s9 = s from congrArg Prod.snd h.symm]
      exact hInv
  | some oldEid =>
      rw [hfind] at hsome
      dsimp only at hsome
      by_cases hact : (poolGet s oldEid).active = false
      · rw [if_pos hact] at hsome
        have h := Option.some.inj hsome
        rw [show s9 = s from congrArg Prod.snd h.symm]
        exact hInv
      · rw [if_neg hact] at hsome
        have hInv1 := cancel_master cfg s clientId hInv
        cases hpl : placeLimit cfg (cancel cfg s clientId).2 clientId
            (poolGet (cancel cfg s clientId).2 oldEid).side newPriceIdx newQty ts
            (poolGet (cancel cfg s clientId).2 oldEid).tif with
        | none =>
            rw [hpl] at hsome
            exact Option.noConfusion hsome
        | some s2 =>
            rw [hpl] at hsome
            dsimp only [Option.map] at hsome
            have h := Option.some.inj hsome
            rw [show s9 = s2 from congrArg Prod.snd h.symm]
            exact placeLimit_master cfg _ clientId _ newPriceIdx newQty ts _ hInv1 s2 hpl

/-- C5: after every completed public operation (placeLimit, placeMarket,
cancel, replace) on an invariant-satisfying state, bestBid satisfies the
maximum characterization over non-empty bid levels (or -1 if none), bestAsk
the minimum characterization over non-empty ask levels (or -1 if none), and
whenever both are set the book is uncrossed (bestBid < bestAsk). -/
theorem claim_C5 (cfg : Config) (s : EngineState) (hInv : Inv cfg s) :
    (∀ clientId sd priceIdx qty ts tif s9,
        placeLimit cfg s clientId sd priceIdx qty ts tif = some s9 →
        BestBidInv cfg s9 ∧ BestAskInv cfg s9 ∧ UncrossedInv s9)
    ∧ (∀ clientId sd qty ts,
        BestBidInv cfg (placeMarket cfg s clientId sd qty ts)
        ∧ BestAskInv cfg (placeMarket cfg s clientId sd qty ts)
        ∧ UncrossedInv (placeMarket cfg s clientId sd qty ts))
    ∧ (∀ clientId,
        BestBidInv cfg (cancel cfg s clientId).2
        ∧ BestAskInv cfg (cancel cfg s clientId).2
        ∧ UncrossedInv (cancel cfg s clientId).2)
    ∧ (∀ clientId newPriceIdx newQty ts b s9,
        replace cfg s clientId newPriceIdx newQty ts = some (b, s9) →
        BestBidInv cfg s9 ∧ BestAskInv cfg s9 ∧ UncrossedInv s9) := by
  refine ⟨?_, ?_, ?_, ?_⟩
  · intro clientId sd priceIdx qty ts tif s9 h
    have hI := placeLimit_master cfg s clientId sd priceIdx qty ts tif hInv s9 h
    exact ⟨hI.bb, hI.ba, hI.unx⟩
  · intro clientId sd qty ts
    have hI := placeMarket_master cfg s clientId sd qty ts hInv
    exact ⟨hI.bb, hI.ba, hI.unx⟩
  · intro clientId
    have hI := cancel_master cfg s clientId hInv
    exact ⟨hI.bb, hI.ba, hI.unx⟩
  · intro clientId newPriceIdx newQty ts b s9 h
    have hI := replace_master cfg s clientId newPriceIdx newQty ts hInv b s9 h
    exact ⟨hI.bb, hI.ba, hI.unx⟩

theorem claim_C5_witness :
    BestBidInv testConfig (cancel testConfig (initState testConfig) 1).2
    ∧ BestAskInv testConfig (cancel testConfig (initState testConfig) 1).2
    ∧ UncrossedInv (cancel testConfig (initState testConfig) 1).2 :=
  (claim_C5 testConfig (initState testConfig)
    ⟨by decide, by decide, by decide, by decide, by decide, by decide, by decide, by decide,
     by decide⟩).2.2.1 1

/-- C6: after every completed public operation on an invariant-satisfying
state, every price level of both sides has its aggregate quantity counter
equal to the sum of the remaining quantities of the orders its ring
contains. -/
theorem claim_C6 (cfg : Config) (s : EngineState) (hInv : Inv cfg s) :
    (∀ clientId sd priceIdx qty ts tif s9,
        placeLimit cfg s clientId sd priceIdx qty ts tif = some s9 → QtyInv cfg s9)
    ∧ (∀ clientId sd qty ts, QtyInv cfg (placeMarket cfg s clientId sd qty ts))
    ∧ (∀ clientId, QtyInv cfg (cancel cfg s clientId).2)
    ∧ (∀ clientId newPriceIdx newQty ts b s9,
        replace cfg s clientId newPriceIdx newQty ts = some (b, s9) → QtyInv cfg s9) := by
  refine ⟨?_, ?_, ?_, ?_⟩
  · intro clientId sd priceIdx qty ts tif s9 h
    exact (placeLimit_master cfg s clientId sd priceIdx qty ts tif hInv s9 h).qty
  · intro clientId sd qty ts
    exact (placeMarket_master cfg s clientId sd qty ts hInv).qty
  · intro clientId
    exact (cancel_master cfg s clientId hInv).qty
  · intro clientId newPriceIdx newQty ts b s9 h
    exact (replace_master cfg s clientId newPriceIdx newQty ts hInv b s9 h).qty

theorem claim_C6_witness :
    QtyInv testConfig (cancel testConfig (initState testConfig) 1).2 :=
  (claim_C6 testConfig (initState testConfig)
    ⟨by decide, by decide, by decide, by decide, by decide, by decide, by decide, by decide,
     by decide⟩).2.2.1 1

/-- C10: on any invariant-satisfying state (in particular all resting
orders have positive remaining quantity), the fuelled embedding of the
matching-sweep while-loop shared by placeLimit and placeMarket reaches the
loop's exit condition within sweepFuel iterations, for every price guard
`cross`: afterwards the taker is exhausted, the best-opposite cache is the
sentinel -1, or the price guard fails — i.e. the C++ loop terminates. -/
theorem claim_C10 (cfg : Config) (opp : Side) (cross : Int → Bool) (taker : Order)
    (s : EngineState) (hInv : Inv cfg s) :
    ¬(0 < (sweep cfg opp cross (sweepFuel cfg s opp) taker s).1.qty
      ∧ sideBest (sweep cfg opp cross (sweepFuel cfg s opp) taker s).2 opp ≠ -1
      ∧ cross (sideBest (sweep cfg opp cross (sweepFuel cfg s opp) taker s).2 opp) = true) :=
  (sweep_inv cfg opp cross (sweepFuel cfg s opp) taker s hInv
    (by unfold sweepFuel; omega)).2.1

theorem claim_C10_witness :
    ¬(0 < (sweep testConfig Side.SELL (fun a => decide (a ≤ (5 : Int)))
        (sweepFuel testConfig (initState testConfig) Side.SELL)
        { clientId := 30, side := Side.BUY, priceIdx := 5, qty := 10, ts := 1 }
        (initState testConfig)).1.qty
      ∧ sideBest (sweep testConfig Side.SELL (fun a => decide (a ≤ (5 : Int)))
          (sweepFuel testConfig (initState testConfig) Side.SELL)
          { clientId := 30, side := Side.BUY, priceIdx := 5, qty := 10, ts := 1 }
          (initState testConfig)).2 Side.SELL ≠ -1
      ∧ (fun a => decide (a ≤ (5 : Int)))
          (sideBest (sweep testConfig Side.SELL (fun a => decide (a ≤ (5 : Int)))
            (sweepFuel testConfig (initState testConfig) Side.SELL)
            { clientId := 30, side := Side.BUY, priceIdx := 5, qty := 10, ts := 1 }
            (initState testConfig)).2 Side.SELL) = true) :=
  claim_C10 testConfig Side.SELL (fun a => decide (a ≤ (5 : Int)))
    { clientId := 30, side := Side.BUY, priceIdx := 5, qty := 10, ts := 1 }
    (initState testConfig)
    ⟨by decide, by decide, by decide, by decide, by decide, by decide, by decide, by decide,
     by decide⟩

theorem queueView_congr (s s' : EngineState) (p : Int)
    (hd : (levelAt s'.asks p).data = (levelAt s.asks p).data)
    (hpg : ∀ e ∈ (levelAt s.asks p).data, poolGet s' e = poolGet s e) :
    queueView s' p = queueView s p := by
  unfold queueView
  rw [hd]
  apply List.map_congr_left
  intro e he
  rw [hpg e he]

theorem matchTop_effects (cfg : Config) (opp : Side) (makerEid : Nat) (restQ : List Nat)
    (taker : Order) (s : EngineState)
    (hmlt : makerEid < s.pool.length)
    (h0 : 0 ≤ sideBest s opp) (hL : (sideBest s opp).toNat < (sideLevels s opp).length)
    (hdata : (levelAt (sideLevels s opp) (sideBest s opp)).data = makerEid :: restQ) :
    (matchTop cfg opp makerEid restQ taker s).2.trades
      = s.trades ++ [{ takerClient := taker.clientId
                     , makerClient := (poolGet s makerEid).clientId
                     , qty := min (poolGet s makerEid).qty taker.qty
                     , priceIdx := (poolGet s makerEid).priceIdx, ts := taker.ts }]
    ∧ (∀ i : Int, i ≠ sideBest s opp →
        levelAt (sideLevels (matchTop cfg opp makerEid restQ taker s).2 opp) i
          = levelAt (sideLevels s opp) i)
    ∧ (∀ sd, sd ≠ opp →
        sideLevels (matchTop cfg opp makerEid restQ taker s).2 sd = sideLevels s sd)
    ∧ (∀ e, e ≠ makerEid →
        poolGet (matchTop cfg opp makerEid restQ taker s).2 e = poolGet s e)
    ∧ ((poolGet s makerEid).qty - min (poolGet s makerEid).qty taker.qty = 0 →
        (levelAt (sideLevels (matchTop cfg opp makerEid restQ taker s).2 opp)
          (sideBest s opp)).data = restQ)
    ∧ ((poolGet s makerEid).qty - min (poolGet s makerEid).qty taker.qty ≠ 0 →
        (levelAt (sideLevels (matchTop cfg opp makerEid restQ taker s).2 opp)
          (sideBest s opp)).data = makerEid :: restQ
        ∧ poolGet (matchTop cfg opp makerEid restQ taker s).2 makerEid
          = { poolGet s makerEid with
              qty := (poolGet s makerEid).qty
                - min (poolGet s makerEid).qty taker.qty }) := by
  rw [matchTop_desc cfg opp makerEid restQ taker s hmlt h0 hL hdata]
  dsimp only
  by_cases hfull : (poolGet s makerEid).qty - min (poolGet s makerEid).qty taker.qty = 0
  · rw [if_pos hfull]
    obtain ⟨ST, hST⟩ : ∃ ST, setSideLevel
        { s with
          trades := s.trades ++
            [{ takerClient := taker.clientId
             , makerClient := (poolGet s makerEid).clientId
             , qty := min (poolGet s makerEid).qty taker.qty
             , priceIdx := (poolGet s makerEid).priceIdx, ts := taker.ts }]
        , pool := s.pool.set makerEid
            { poolGet s makerEid with active := false, qty := 0 }
        , freeList := makerEid :: s.freeList
        , clientToEngine := cterase s.clientToEngine (poolGet s makerEid).clientId }
        opp (sideBest s opp)
        { data := restQ
        , totalQty := (levelAt (sideLevels s opp) (sideBest s opp)).totalQty
            - min (poolGet s makerEid).qty taker.qty } = ST := ⟨_, rfl⟩
    have hSTtrades : ST.trades = s.trades ++
        [{ takerClient := taker.clientId
         , makerClient := (poolGet s makerEid).clientId
         , qty := min (poolGet s makerEid).qty taker.qty
         , priceIdx := (poolGet s makerEid).priceIdx, ts := taker.ts }] := by
      rw [← hST]
      exact (setSideLevel_proj _ _ _ _).2.2.2.2.2.trans rfl
    have hSTopp : sideLevels ST opp = setLevelAt (sideLevels s opp) (sideBest s opp)
        { data := restQ
        , totalQty := (levelAt (sideLevels s opp) (sideBest s opp)).totalQty
            - min (poolGet s makerEid).qty taker.qty } := by
      rw [← hST, sideLevels_setSideLevel_same]
      exact congrArg (fun ls => setLevelAt ls (sideBest s opp)
        { data := restQ
        , totalQty := (levelAt (sideLevels s opp) (sideBest s opp)).totalQty
            - min (poolGet s makerEid).qty taker.qty })
        (sideLevels_eq_of s _ rfl rfl opp)
    have hATb : (levelAt (sideLevels ST opp) (sideBest s opp)).data = restQ := by
      rw [hSTopp, levelAt_setLevelAt_self _ _ _ h0 hL]
    have hATne : ∀ i : Int, i ≠ sideBest s opp →
        levelAt (sideLevels ST opp) i = levelAt (sideLevels s opp) i := by
      intro i hi
      rw [hSTopp]
      exact levelAt_setLevelAt_ne _ _ _ _ (fun hc => hi hc.symm)
    have hSToth : ∀ sd, sd ≠ opp → sideLevels ST sd = sideLevels s sd := by
      intro sd hsd
      rw [← hST, sideLevels_setSideLevel_other _ _ _ _ _ hsd]
      exact sideLevels_eq_of s _ rfl rfl sd
    have hSTpg : ∀ e, e ≠ makerEid → poolGet ST e = poolGet s e := by
      intro e he
      unfold poolGet
      rw [show ST.pool = s.pool.set makerEid { poolGet s makerEid with active := false, qty := 0 }
        from by rw [← hST]; exact (setSideLevel_proj _ _ _ _).1.trans rfl]
      exact getD_set_ne _ _ _ _ _ (fun hc => he hc.symm)
    by_cases hrest : restQ = []
    · rw [if_pos hrest, hST]
      have hproj := updateBestAfterRemove_proj cfg ST opp (sideBest s opp)
      have hlevU : ∀ sd, sideLevels (updateBestAfterRemove cfg ST opp (sideBest s opp)) sd
          = sideLevels ST sd :=
        sideLevels_eq_of ST _ hproj.2.2.1 hproj.2.2.2.1
      refine ⟨hproj.2.2.2.2.2.trans hSTtrades, ?_, ?_, ?_, fun _ => ?_, fun hc => absurd hfull hc⟩
      · intro i hi
        rw [hlevU]
        exact hATne i hi
      · intro sd hsd
        rw [hlevU]
        exact hSToth sd hsd
      · intro e he
        unfold poolGet
        rw [hproj.1]
        exact hSTpg e he
      · rw [hlevU]
        exact hATb
    · rw [if_neg hrest, hST]
      exact ⟨hSTtrades, hATne, hSToth, hSTpg, fun _ => hATb, fun hc => absurd hfull hc⟩
  · rw [if_neg hfull]
    obtain ⟨ST, hST⟩ : ∃ ST, setSideLevel
        { s with
          trades := s.trades ++
            [{ takerClient := taker.clientId
             , makerClient := (poolGet s makerEid).clientId
             , qty := min (poolGet s makerEid).qty taker.qty
             , priceIdx := (poolGet s makerEid).priceIdx, ts := taker.ts }]
        , pool := s.pool.set makerEid
            { poolGet s makerEid with
              qty := (poolGet s makerEid).qty - min (poolGet s makerEid).qty taker.qty } }
        opp (sideBest s opp)
        { levelAt (sideLevels s opp) (sideBest s opp) with
          totalQty := (levelAt (sideLevels s opp) (sideBest s opp)).totalQty
            - min (poolGet s makerEid).qty taker.qty } = ST := ⟨_, rfl⟩
    have hSTtrades : ST.trades = s.trades ++
        [{ takerClient := taker.clientId
         , makerClient := (poolGet s makerEid).clientId
         , qty := min (poolGet s makerEid).qty taker.qty
         , priceIdx := (poolGet s makerEid).priceIdx, ts := taker.ts }] := by
      rw [← hST]
      exact (setSideLevel_proj _ _ _ _).2.2.2.2.2.trans rfl
    have hSTopp : sideLevels ST opp = setLevelAt (sideLevels s opp) (sideBest s opp)
        { levelAt (sideLevels s opp) (sideBest s opp) with
          totalQty := (levelAt (sideLevels s opp) (sideBest s opp)).totalQty
            - min (poolGet s makerEid).qty taker.qty } := by
      rw [← hST, sideLevels_setSideLevel_same]
      exact congrArg (fun ls => setLevelAt ls (sideBest s opp)
        { levelAt (sideLevels s opp) (sideBest s opp) with
          totalQty := (levelAt (sideLevels s opp) (sideBest s opp)).totalQty
            - min (poolGet s makerEid).qty taker.qty })
        (sideLevels_eq_of s _ rfl rfl opp)
    have hATb : (levelAt (sideLevels ST opp) (sideBest s opp)).data
        = makerEid :: restQ := by
      rw [hSTopp, levelAt_setLevelAt_self _ _ _ h0 hL]
      exact hdata
    have hATne : ∀ i : Int, i ≠ sideBest s opp →
        levelAt (sideLevels ST opp) i = levelAt (sideLevels s opp) i := by
      intro i hi
      rw [hSTopp]
      exact levelAt_setLevelAt_ne _ _ _ _ (fun hc => hi hc.symm)
    have hSToth : ∀ sd, sd ≠ opp → sideLevels ST sd = sideLevels s sd := by
      intro sd hsd
      rw [← hST, sideLevels_setSideLevel_other _ _ _ _ _ hsd]
      exact sideLevels_eq_of s _ rfl rfl sd
    have hSTpool : ST.pool = s.pool.set makerEid
        { poolGet s makerEid with
          qty := (poolGet s makerEid).qty - min (poolGet s makerEid).qty taker.qty } := by
      rw [← hST]
      exact (setSideLevel_proj _ _ _ _).1.trans rfl
    have hSTpg : ∀ e, e ≠ makerEid → poolGet ST e = poolGet s e := by
      intro e he
      unfold poolGet
      rw [hSTpool]
      exact getD_set_ne _ _ _ _ _ (fun hc => he hc.symm)
    rw [hST]
    refine ⟨hSTtrades, hATne, hSToth, hSTpg, fun hc => absurd hc hfull, fun _ => ⟨hATb, ?_⟩⟩
    unfold poolGet
    rw [hSTpool]
    exact getD_set_self _ _ _ _ hmlt

theorem specConsume_zero (tc : Nat) (p : Int) (ts : Nat) (t : Int) (q : List (Nat × Int))
    (ht : t ≤ 0) : specConsume tc p ts t q = ([], q) := by
  cases q with
  | nil => rfl
  | cons pr rest =>
      obtain ⟨c, qq⟩ := pr
      conv_lhs => unfold specConsume
      rw [if_pos ht]

theorem specConsume_nil (tc : Nat) (p : Int) (ts : Nat) (t : Int) :
    specConsume tc p ts t [] = ([], []) := rfl

theorem sweep_single (cfg : Config) (p : Int) :
    ∀ (fuel : Nat) (taker : Order) (s : EngineState), Inv cfg s →
    OnlyAskLevel cfg p s →
    0 ≤ p → p < (cfg.nlevels : Int) →
    oppOrderCount s Side.SELL < fuel →
    (sweep cfg Side.SELL (fun a => decide (a ≤ p)) fuel taker s).2.trades
        = s.trades ++ (specConsume taker.clientId p taker.ts taker.qty (queueView s p)).1
    ∧ queueView (sweep cfg Side.SELL (fun a => decide (a ≤ p)) fuel taker s).2 p
        = (specConsume taker.clientId p taker.ts taker.qty (queueView s p)).2
    ∧ OnlyAskLevel cfg p (sweep cfg Side.SELL (fun a => decide (a ≤ p)) fuel taker s).2 := by
  intro fuel
  induction fuel with
  | zero =>
      intro taker s _ _ _ _ hf
      exact absurd hf (by omega)
  | succ n ih =>
      intro taker s hInv hOnly hp0 hpL hf
      by_cases ht : 0 < taker.qty
      · cases hq : (levelAt s.asks p).data with
        | nil =>
            have hbm : s.bestAsk = -1 := by
              by_contra hne
              have h2 := hInv.ba.2 hne
              by_cases hbp : s.bestAsk = p
              · rw [hbp] at h2
                exact h2.2.2 hq
              · have h3 := hOnly (s.bestAsk).toNat (List.mem_range.2 (by omega))
                  (by rw [show (((s.bestAsk).toNat : Nat) : Int) = s.bestAsk from by omega]
                      exact hbp)
                rw [show (((s.bestAsk).toNat : Nat) : Int) = s.bestAsk from by omega] at h3
                exact h2.2.2 h3
            have hid : sweep cfg Side.SELL (fun a => decide (a ≤ p)) (n + 1) taker s
                = (taker, s) := by
              conv_lhs => unfold sweep
              rw [if_neg (fun hc => hc.2.1 hbm)]
            rw [hid]
            dsimp only
            have hqv : queueView s p = [] := by
              unfold queueView
              rw [hq]
              rfl
            rw [hqv, specConsume_nil]
            exact ⟨by simp, rfl, hOnly⟩
        | cons e rest =>
            have hne2 : (levelAt s.asks p).data ≠ [] := by
              rw [hq]
              exact fun hc => List.cons_ne_nil _ _ hc
            have hcast : ((p.toNat : Nat) : Int) = p := by omega
            have hb1 := hInv.ba.1 p.toNat (List.mem_range.2 (by omega))
              (by rw [hcast]; exact hne2)
            rw [hcast] at hb1
            have hbne : s.bestAsk ≠ -1 := hb1.2
            have h2 := hInv.ba.2 hbne
            have hbeq : s.bestAsk = p := by
              by_cases hbp : s.bestAsk = p
              · exact hbp
              · exfalso
                have h3 := hOnly (s.bestAsk).toNat (List.mem_range.2 (by omega))
                  (by rw [show (((s.bestAsk).toNat : Nat) : Int) = s.bestAsk from by omega]
                      exact hbp)
                rw [show (((s.bestAsk).toNat : Nat) : Int) = s.bestAsk from by omega] at h3
                exact h2.2.2 h3
            have hdata : (levelAt (sideLevels s Side.SELL) (sideBest s Side.SELL)).data
                = e :: rest := by
              show (levelAt s.asks s.bestAsk).data = _
              rw [hbeq]
              exact hq
            have hbne2 : sideBest s Side.SELL ≠ -1 := hbne
            have hg : 0 < taker.qty ∧ sideBest s Side.SELL ≠ -1
                ∧ (fun a => decide (a ≤ p)) (sideBest s Side.SELL) = true := by
              refine ⟨ht, hbne2, ?_⟩
              show decide (s.bestAsk ≤ p) = true
              rw [hbeq]
              simp
            have hstep : sweep cfg Side.SELL (fun a => decide (a ≤ p)) (n + 1) taker s
                = sweep cfg Side.SELL (fun a => decide (a ≤ p)) n
                    (matchTop cfg Side.SELL e rest taker s).1
                    (matchTop cfg Side.SELL e rest taker s).2 := by
              conv_lhs => unfold sweep
              rw [if_pos hg, hdata]
            obtain ⟨hInv2, htaker1, hfillpos, hmeas, hframe⟩ :=
              matchTop_master cfg Side.SELL e rest taker s hInv hbne2 hdata ht
            have hmf := mem_facts cfg s hInv Side.SELL (sideBest s Side.SELL) e
              (by show (0 : Int) ≤ s.bestAsk; omega)
              (by show s.bestAsk < (cfg.nlevels : Int); omega)
              (by rw [hdata]; exact List.mem_cons_self _ _)
            have heff := matchTop_effects cfg Side.SELL e rest taker s hmf.2.2.2.2
              (by show (0 : Int) ≤ s.bestAsk; omega)
              (by show (s.bestAsk).toNat < s.asks.length
                  have hl := hInv.len.2.1
                  omega)
              hdata
            have hnodup := levelAt_data_nodup s hInv.uniq Side.SELL (sideBest s Side.SELL)
            have hnotin : e ∉ rest := by
              rw [hdata] at hnodup
              exact (List.nodup_cons.1 hnodup).1
            have hpidx : (poolGet s e).priceIdx = p := by
              have h4 := hmf.2.2.1
              rw [← hbeq]
              exact h4
            have hqv : queueView s p = ((poolGet s e).clientId, (poolGet s e).qty)
                :: rest.map (fun e' => ((poolGet s e').clientId, (poolGet s e').qty)) := by
              unfold queueView
              rw [hq]
              rfl
            have hOnly2 : OnlyAskLevel cfg p (matchTop cfg Side.SELL e rest taker s).2 := by
              intro i hi hip
              have h4 := heff.2.1 ((i : Nat) : Int)
                (by show ((i : Nat) : Int) ≠ sideBest s Side.SELL
                    show ((i : Nat) : Int) ≠ s.bestAsk
                    rw [hbeq]
                    exact hip)
              show (levelAt (sideLevels (matchTop cfg Side.SELL e rest taker s).2 Side.SELL)
                  ((i : Nat) : Int)).data = []
              rw [h4]
              exact hOnly i hi hip
            have htr2 := heff.1
            by_cases hfull : (poolGet s e).qty - min (poolGet s e).qty taker.qty = 0
            · have hminq : min (poolGet s e).qty taker.qty = (poolGet s e).qty := by
                rcases min_choice (poolGet s e).qty taker.qty with h | h
                · exact h
                · omega
              have hqle : (poolGet s e).qty ≤ taker.qty := by
                have h5 := min_le_right (poolGet s e).qty taker.qty
                omega
              rw [hminq, hpidx] at htr2
              have hlev2 : (levelAt (matchTop cfg Side.SELL e rest taker s).2.asks p).data
                  = rest := by
                have h5 := heff.2.2.2.2.1 hfull
                show (levelAt (sideLevels (matchTop cfg Side.SELL e rest taker s).2
                    Side.SELL) p).data = rest
                rw [← hbeq]
                exact h5
              have hqv2 : queueView (matchTop cfg Side.SELL e rest taker s).2 p
                  = rest.map (fun e' => ((poolGet s e').clientId, (poolGet s e').qty)) := by
                unfold queueView
                rw [hlev2]
                apply List.map_congr_left
                intro e' he'
                rw [heff.2.2.2.1 e' (fun hc => hnotin (hc ▸ he'))]
              have hspec : specConsume taker.clientId p taker.ts taker.qty (queueView s p)
                  = ({ takerClient := taker.clientId, makerClient := (poolGet s e).clientId
                     , qty := (poolGet s e).qty, priceIdx := p, ts := taker.ts }
                      :: (specConsume taker.clientId p taker.ts
                          (taker.qty - (poolGet s e).qty)
                          (rest.map (fun e' => ((poolGet s e').clientId,
                            (poolGet s e').qty)))).1,
                     (specConsume taker.clientId p taker.ts
                        (taker.qty - (poolGet s e).qty)
                        (rest.map (fun e' => ((poolGet s e').clientId,
                          (poolGet s e').qty)))).2) := by
                rw [hqv]
                conv_lhs => unfold specConsume
                rw [if_neg (by omega), if_pos hqle]
              rcases hmeas with hdec | ⟨hzero, hsame⟩
              · rw [hstep, hspec, htaker1, hminq]
                have hin := ih { taker with qty := taker.qty - (poolGet s e).qty }
                  (matchTop cfg Side.SELL e rest taker s).2 hInv2 hOnly2 hp0 hpL (by omega)
                dsimp only at hin
                rw [hqv2] at hin
                refine ⟨?_, ?_, hin.2.2⟩
                · rw [hin.1, htr2, List.append_assoc]
                  rfl
                · exact hin.2.1
              · rw [htaker1] at hzero
                dsimp only at hzero
                rw [hminq] at hzero
                rw [hstep, sweep_exhausted cfg Side.SELL _ n
                  (matchTop cfg Side.SELL e rest taker s).1
                  (matchTop cfg Side.SELL e rest taker s).2
                  (by rw [htaker1]; dsimp only; rw [hminq]; omega)]
                dsimp only
                rw [hspec]
                have hinner := specConsume_zero taker.clientId p taker.ts
                  (taker.qty - (poolGet s e).qty)
                  (rest.map (fun e' => ((poolGet s e').clientId, (poolGet s e').qty)))
                  (by omega)
                rw [hinner]
                refine ⟨?_, ?_, hOnly2⟩
                · rw [htr2]
                · exact hqv2
            · have hmint : min (poolGet s e).qty taker.qty = taker.qty := by
                rcases min_choice (poolGet s e).qty taker.qty with h | h
                · omega
                · exact h
              have htlt : taker.qty < (poolGet s e).qty := by
                have h5 := min_le_left (poolGet s e).qty taker.qty
                omega
              rw [hmint, hpidx] at htr2
              have hpart := heff.2.2.2.2.2 hfull
              have hlev2 : (levelAt (matchTop cfg Side.SELL e rest taker s).2.asks p).data
                  = e :: rest := by
                show (levelAt (sideLevels (matchTop cfg Side.SELL e rest taker s).2
                    Side.SELL) p).data = e :: rest
                rw [← hbeq]
                exact hpart.1
              have hqv2 : queueView (matchTop cfg Side.SELL e rest taker s).2 p
                  = ((poolGet s e).clientId, (poolGet s e).qty - taker.qty)
                    :: rest.map (fun e' => ((poolGet s e').clientId, (poolGet s e').qty)) := by
                unfold queueView
                rw [hlev2, List.map_cons]
                congr 1
                · rw [hpart.2, hmint]
                · apply List.map_congr_left
                  intro e' he'
                  rw [heff.2.2.2.1 e' (fun hc => hnotin (hc ▸ he'))]
              have hspec : specConsume taker.clientId p taker.ts taker.qty (queueView s p)
                  = ([{ takerClient := taker.clientId, makerClient := (poolGet s e).clientId
                      , qty := taker.qty, priceIdx := p, ts := taker.ts }],
                     ((poolGet s e).clientId, (poolGet s e).qty - taker.qty)
                       :: rest.map (fun e' => ((poolGet s e').clientId,
                            (poolGet s e').qty))) := by
                rw [hqv]
                conv_lhs => unfold specConsume
                rw [if_neg (by omega), if_neg (by omega)]
              rw [hstep, sweep_exhausted cfg Side.SELL _ n
                (matchTop cfg Side.SELL e rest taker s).1
                (matchTop cfg Side.SELL e rest taker s).2
                (by rw [htaker1]; dsimp only; rw [hmint]; omega)]
              dsimp only
              rw [hspec]
              refine ⟨?_, ?_, hOnly2⟩
              · rw [htr2]
              · exact hqv2
      · have hid : sweep cfg Side.SELL (fun a => decide (a ≤ p)) (n + 1) taker s
            = (taker, s) := by
          conv_lhs => unfold sweep
          rw [if_neg (fun hc => ht hc.1)]
        rw [hid]
        dsimp only
        rw [specConsume_zero _ _ _ _ _ (by omega)]
        exact ⟨by simp, rfl, hOnly⟩

theorem sweep_single_bid (cfg : Config) (p : Int) :
    ∀ (fuel : Nat) (taker : Order) (s : EngineState), Inv cfg s →
    OnlyBidLevel cfg p s →
    0 ≤ p → p < (cfg.nlevels : Int) →
    oppOrderCount s Side.BUY < fuel →
    (sweep cfg Side.BUY (fun a => decide (p ≤ a)) fuel taker s).2.trades
        = s.trades ++ (specConsume taker.clientId p taker.ts taker.qty (queueViewBid s p)).1
    ∧ queueViewBid (sweep cfg Side.BUY (fun a => decide (p ≤ a)) fuel taker s).2 p
        = (specConsume taker.clientId p taker.ts taker.qty (queueViewBid s p)).2
    ∧ OnlyBidLevel cfg p (sweep cfg Side.BUY (fun a => decide (p ≤ a)) fuel taker s).2 := by
  intro fuel
  induction fuel with
  | zero =>
      intro taker s _ _ _ _ hf
      exact absurd hf (by omega)
  | succ n ih =>
      intro taker s hInv hOnly hp0 hpL hf
      by_cases ht : 0 < taker.qty
      · cases hq : (levelAt s.bids p).data with
        | nil =>
            have hbm : s.bestBid = -1 := by
              by_contra hne
              have h2 := hInv.bb.2 hne
              by_cases hbp : s.bestBid = p
              · rw [hbp] at h2
                exact h2.2.2 hq
              · have h3 := hOnly (s.bestBid).toNat (List.mem_range.2 (by omega))
                  (by rw [show (((s.bestBid).toNat : Nat) : Int) = s.bestBid from by omega]
                      exact hbp)
                rw [show (((s.bestBid).toNat : Nat) : Int) = s.bestBid from by omega] at h3
                exact h2.2.2 h3
            have hid : sweep cfg Side.BUY (fun a => decide (p ≤ a)) (n + 1) taker s
                = (taker, s) := by
              conv_lhs => unfold sweep
              rw [if_neg (fun hc => hc.2.1 hbm)]
            rw [hid]
            dsimp only
            have hqv : queueViewBid s p = [] := by
              unfold queueViewBid
              rw [hq]
              rfl
            rw [hqv, specConsume_nil]
            exact ⟨by simp, rfl, hOnly⟩
        | cons e rest =>
            have hne2 : (levelAt s.bids p).data ≠ [] := by
              rw [hq]
              exact fun hc => List.cons_ne_nil _ _ hc
            have hcast : ((p.toNat : Nat) : Int) = p := by omega
            have hb1 := hInv.bb.1 p.toNat (List.mem_range.2 (by omega))
              (by rw [hcast]; exact hne2)
            rw [hcast] at hb1
            have hbne : s.bestBid ≠ -1 := by omega
            have h2 := hInv.bb.2 hbne
            have hbeq : s.bestBid = p := by
              by_cases hbp : s.bestBid = p
              · exact hbp
              · exfalso
                have h3 := hOnly (s.bestBid).toNat (List.mem_range.2 (by omega))
                  (by rw [show (((s.bestBid).toNat : Nat) : Int) = s.bestBid from by omega]
                      exact hbp)
                rw [show (((s.bestBid).toNat : Nat) : Int) = s.bestBid from by omega] at h3
                exact h2.2.2 h3
            have hdata : (levelAt (sideLevels s Side.BUY) (sideBest s Side.BUY)).data
                = e :: rest := by
              show (levelAt s.bids s.bestBid).data = _
              rw [hbeq]
              exact hq
            have hbne2 : sideBest s Side.BUY ≠ -1 := hbne
            have hg : 0 < taker.qty ∧ sideBest s Side.BUY ≠ -1
                ∧ (fun a => decide (p ≤ a)) (sideBest s Side.BUY) = true := by
              refine ⟨ht, hbne2, ?_⟩
              show decide (p ≤ s.bestBid) = true
              rw [hbeq]
              simp
            have hstep : sweep cfg Side.BUY (fun a => decide (p ≤ a)) (n + 1) taker s
                = sweep cfg Side.BUY (fun a => decide (p ≤ a)) n
                    (matchTop cfg Side.BUY e rest taker s).1
                    (matchTop cfg Side.BUY e rest taker s).2 := by
              conv_lhs => unfold sweep
              rw [if_pos hg, hdata]
            obtain ⟨hInv2, htaker1, hfillpos, hmeas, hframe⟩ :=
              matchTop_master cfg Side.BUY e rest taker s hInv hbne2 hdata ht
            have hmf := mem_facts cfg s hInv Side.BUY (sideBest s Side.BUY) e
              (by show (0 : Int) ≤ s.bestBid; omega)
              (by show s.bestBid < (cfg.nlevels : Int); omega)
              (by rw [hdata]; exact List.mem_cons_self _ _)
            have heff := matchTop_effects cfg Side.BUY e rest taker s hmf.2.2.2.2
              (by show (0 : Int) ≤ s.bestBid; omega)
              (by show (s.bestBid).toNat < s.bids.length
                  have hl := hInv.len.1
                  omega)
              hdata
            have hnodup := levelAt_data_nodup s hInv.uniq Side.BUY (sideBest s Side.BUY)
            have hnotin : e ∉ rest := by
              rw [hdata] at hnodup
              exact (List.nodup_cons.1 hnodup).1
            have hpidx : (poolGet s e).priceIdx = p := by
              have h4 := hmf.2.2.1
              rw [← hbeq]
              exact h4
            have hqv : queueViewBid s p = ((poolGet s e).clientId, (poolGet s e).qty)
                :: rest.map (fun e' => ((poolGet s e').clientId, (poolGet s e').qty)) := by
              unfold queueViewBid
              rw [hq]
              rfl
            have hOnly2 : OnlyBidLevel cfg p (matchTop cfg Side.BUY e rest taker s).2 := by
              intro i hi hip
              have h4 := heff.2.1 ((i : Nat) : Int)
                (by show ((i : Nat) : Int) ≠ sideBest s Side.BUY
                    show ((i : Nat) : Int) ≠ s.bestBid
                    rw [hbeq]
                    exact hip)
              show (levelAt (sideLevels (matchTop cfg Side.BUY e rest taker s).2 Side.BUY)
                  ((i : Nat) : Int)).data = []
              rw [h4]
              exact hOnly i hi hip
            have htr2 := heff.1
            by_cases hfull : (poolGet s e).qty - min (poolGet s e).qty taker.qty = 0
            · have hminq : min (poolGet s e).qty taker.qty = (poolGet s e).qty := by
                rcases min_choice (poolGet s e).qty taker.qty with h | h
                · exact h
                · omega
              have hqle : (poolGet s e).qty ≤ taker.qty := by
                have h5 := min_le_right (poolGet s e).qty taker.qty
                omega
              rw [hminq, hpidx] at htr2
              have hlev2 : (levelAt (matchTop cfg Side.BUY e rest taker s).2.bids p).data
                  = rest := by
                have h5 := heff.2.2.2.2.1 hfull
                show (levelAt (sideLevels (matchTop cfg Side.BUY e rest taker s).2
                    Side.BUY) p).data = rest
                rw [← hbeq]
                exact h5
              have hqv2 : queueViewBid (matchTop cfg Side.BUY e rest taker s).2 p
                  = rest.map (fun e' => ((poolGet s e').clientId, (poolGet s e').qty)) := by
                unfold queueViewBid
                rw [hlev2]
                apply List.map_congr_left
                intro e' he'
                rw [heff.2.2.2.1 e' (fun hc => hnotin (hc ▸ he'))]
              have hspec : specConsume taker.clientId p taker.ts taker.qty (queueViewBid s p)
                  = ({ takerClient := taker.clientId, makerClient := (poolGet s e).clientId
                     , qty := (poolGet s e).qty, priceIdx := p, ts := taker.ts }
                      :: (specConsume taker.clientId p taker.ts
                          (taker.qty - (poolGet s e).qty)
                          (rest.map (fun e' => ((poolGet s e').clientId,
                            (poolGet s e').qty)))).1,
                     (specConsume taker.clientId p taker.ts
                        (taker.qty - (poolGet s e).qty)
                        (rest.map (fun e' => ((poolGet s e').clientId,
                          (poolGet s e').qty)))).2) := by
                rw [hqv]
                conv_lhs => unfold specConsume
                rw [if_neg (by omega), if_pos hqle]
              rcases hmeas with hdec | ⟨hzero, hsame⟩
              · rw [hstep, hspec, htaker1, hminq]
                have hin := ih { taker with qty := taker.qty - (poolGet s e).qty }
                  (matchTop cfg Side.BUY e rest taker s).2 hInv2 hOnly2 hp0 hpL (by omega)
                dsimp only at hin
                rw [hqv2] at hin
                refine ⟨?_, ?_, hin.2.2⟩
                · rw [hin.1, htr2, List.append_assoc]
                  rfl
                · exact hin.2.1
              · rw [htaker1] at hzero
                dsimp only at hzero
                rw [hminq] at hzero
                rw [hstep, sweep_exhausted cfg Side.BUY _ n
                  (matchTop cfg Side.BUY e rest taker s).1
                  (matchTop cfg Side.BUY e rest taker s).2
                  (by rw [htaker1]; dsimp only; rw [hminq]; omega)]
                dsimp only
                rw [hspec]
                have hinner := specConsume_zero taker.clientId p taker.ts
                  (taker.qty - (poolGet s e).qty)
                  (rest.map (fun e' => ((poolGet s e').clientId, (poolGet s e').qty)))
                  (by omega)
                rw [hinner]
                refine ⟨?_, ?_, hOnly2⟩
                · rw [htr2]
                · exact hqv2
            · have hmint : min (poolGet s e).qty taker.qty = taker.qty := by
                rcases min_choice (poolGet s e).qty taker.qty with h | h
                · omega
                · exact h
              have htlt : taker.qty < (poolGet s e).qty := by
                have h5 := min_le_left (poolGet s e).qty taker.qty
                omega
              rw [hmint, hpidx] at htr2
              have hpart := heff.2.2.2.2.2 hfull
              have hlev2 : (levelAt (matchTop cfg Side.BUY e rest taker s).2.bids p).data
                  = e :: rest := by
                show (levelAt (sideLevels (matchTop cfg Side.BUY e rest taker s).2
                    Side.BUY) p).data = e :: rest
                rw [← hbeq]
                exact hpart.1
              have hqv2 : queueViewBid (matchTop cfg Side.BUY e rest taker s).2 p
                  = ((poolGet s e).clientId, (poolGet s e).qty - taker.qty)
                    :: rest.map (fun e' => ((poolGet s e').clientId, (poolGet s e').qty)) := by
                unfold queueViewBid
                rw [hlev2, List.map_cons]
                congr 1
                · rw [hpart.2, hmint]
                · apply List.map_congr_left
                  intro e' he'
                  rw [heff.2.2.2.1 e' (fun hc => hnotin (hc ▸ he'))]
              have hspec : specConsume taker.clientId p taker.ts taker.qty (queueViewBid s p)
                  = ([{ takerClient := taker.clientId, makerClient := (poolGet s e).clientId
                      , qty := taker.qty, priceIdx := p, ts := taker.ts }],
                     ((poolGet s e).clientId, (poolGet s e).qty - taker.qty)
                       :: rest.map (fun e' => ((poolGet s e').clientId,
                            (poolGet s e').qty))) := by
                rw [hqv]
                conv_lhs => unfold specConsume
                rw [if_neg (by omega), if_neg (by omega)]
              rw [hstep, sweep_exhausted cfg Side.BUY _ n
                (matchTop cfg Side.BUY e rest taker s).1
                (matchTop cfg Side.BUY e rest taker s).2
                (by rw [htaker1]; dsimp only; rw [hmint]; omega)]
              dsimp only
              rw [hspec]
              refine ⟨?_, ?_, hOnly2⟩
              · rw [htr2]
              · exact hqv2
      · have hid : sweep cfg Side.BUY (fun a => decide (p ≤ a)) (n + 1) taker s
            = (taker, s) := by
          conv_lhs => unfold sweep
          rw [if_neg (fun hc => ht hc.1)]
        rw [hid]
        dsimp only
        rw [specConsume_zero _ _ _ _ _ (by omega)]
        exact ⟨by simp, rfl, hOnly⟩

theorem addPassive_effects (cfg : Config) (taker : Order) (s : EngineState)
    (hInv : Inv cfg s) (hside : taker.side = Side.BUY) :
    ∀ s1, addPassive cfg taker s = some s1 →
      s1.trades = s.trades
      ∧ s1.asks = s.asks
      ∧ (∀ e, (poolGet s e).active = true → poolGet s1 e = poolGet s e) := by
  intro s1 hsome
  unfold addPassive at hsome
  by_cases hrange : taker.priceIdx < 0 ∨ (cfg.nlevels : Int) ≤ taker.priceIdx
  · rw [if_pos hrange] at hsome
    exact Option.noConfusion hsome
  · rw [if_neg hrange] at hsome
    cases hfl : s.freeList with
    | nil =>
        rw [show poolAllocate s taker = none from by unfold poolAllocate; rw [hfl]] at hsome
        exact Option.noConfusion hsome
    | cons idx rest =>
        have hfree0 := hInv.free.2 idx (by rw [hfl]; exact List.mem_cons_self _ _)
        have halloc : poolAllocate s taker = some (idx,
            { s with freeList := rest
                   , pool := s.pool.set idx { taker with engineId := idx, active := true } }) := by
          unfold poolAllocate
          rw [hfl]
        rw [halloc] at hsome
        dsimp only at hsome
        cases hrp : ringPush cfg (levelAt (sideLevels
            { s with freeList := rest
                   , pool := s.pool.set idx { taker with engineId := idx, active := true } }
            taker.side) taker.priceIdx) idx taker.qty with
        | none =>
            rw [hrp] at hsome
            exact Option.noConfusion hsome
        | some pl =>
            rw [hrp] at hsome
            dsimp only at hsome
            have hs1 := (Option.some.inj hsome).symm
            subst hs1
            refine ⟨?_, ?_, ?_⟩
            · dsimp only
              rw [(updateBestAfterAdd_proj _ _ _).2.2.2.2.2,
                (setSideLevel_proj _ _ _ _).2.2.2.2.2]
            · dsimp only
              rw [(updateBestAfterAdd_proj _ _ _).2.2.2.1, hside]
              exact ((setSideLevel_buy _ _ _).2).trans rfl
            · intro e hact
              have hne : e ≠ idx := by
                intro hc
                rw [hc, hfree0.1] at hact
                exact Bool.noConfusion hact
              unfold poolGet
              dsimp only
              rw [(updateBestAfterAdd_proj _ _ _).1, (setSideLevel_proj _ _ _ _).1]
              dsimp only
              exact getD_set_ne _ _ _ _ _ (fun hc => hne hc.symm)

theorem taker_step (cfg : Config) (p : Int) (ts : Nat) (cid : Nat) (t : Int)
    (s : EngineState) (hInv : Inv cfg s) (hOnly : OnlyAskLevel cfg p s)
    (hp0 : 0 ≤ p) (hpL : p < (cfg.nlevels : Int)) :
    ∀ s1, placeLimit cfg s cid Side.BUY p t ts TimeInForce.GFD = some s1 →
      Inv cfg s1 ∧ OnlyAskLevel cfg p s1
      ∧ s1.trades = s.trades ++ (specConsume cid p ts t (queueView s p)).1
      ∧ queueView s1 p = (specConsume cid p ts t (queueView s p)).2 := by
  intro s1 hsome
  unfold placeLimit matchAndAdd at hsome
  dsimp only at hsome
  have hss := sweep_single cfg p (sweepFuel cfg s Side.SELL)
    { clientId := cid, side := Side.BUY, type := OrderType.LIMIT
    , tif := TimeInForce.GFD, priceIdx := p, qty := t, ts := ts } s hInv hOnly hp0 hpL
    (by unfold sweepFuel; omega)
  have hsw := sweep_inv cfg Side.SELL (fun a => decide (a ≤ p))
    (sweepFuel cfg s Side.SELL)
    { clientId := cid, side := Side.BUY, type := OrderType.LIMIT
    , tif := TimeInForce.GFD, priceIdx := p, qty := t, ts := ts } s hInv
    (by unfold sweepFuel; omega)
  dsimp only at hss
  obtain ⟨q2, hq2, hle⟩ := hsw.2.2.2
  by_cases hres : 0 < (sweep cfg Side.SELL (fun a => decide (a ≤ p))
      (sweepFuel cfg s Side.SELL)
      { clientId := cid, side := Side.BUY, type := OrderType.LIMIT
      , tif := TimeInForce.GFD, priceIdx := p, qty := t, ts := ts } s).1.qty
      ∧ (sweep cfg Side.SELL (fun a => decide (a ≤ p))
          (sweepFuel cfg s Side.SELL)
          { clientId := cid, side := Side.BUY, type := OrderType.LIMIT
          , tif := TimeInForce.GFD, priceIdx := p, qty := t, ts := ts } s).1.type
        = OrderType.LIMIT
  · rw [if_pos hres] at hsome
    have hexit := hsw.2.1
    have hInv2 := hsw.1
    have hInv1 := addPassive_master cfg _ _ hInv2 hres.1
      (fun _ => by
        rw [show (sweep cfg Side.SELL (fun a => decide (a ≤ p))
            (sweepFuel cfg s Side.SELL)
            { clientId := cid, side := Side.BUY, type := OrderType.LIMIT
            , tif := TimeInForce.GFD, priceIdx := p, qty := t, ts := ts } s).1.priceIdx = p
          from by rw [hq2]]
        by_cases hm : sideBest (sweep cfg Side.SELL (fun a => decide (a ≤ p))
            (sweepFuel cfg s Side.SELL)
            { clientId := cid, side := Side.BUY, type := OrderType.LIMIT
            , tif := TimeInForce.GFD, priceIdx := p, qty := t, ts := ts } s).2 Side.SELL = -1
        · exact Or.inl hm
        · right
          by_contra hnot
          push_neg at hnot
          exact hexit ⟨hres.1, hm, by simpa using hnot⟩)
      (fun hc => by
        rw [show (sweep cfg Side.SELL (fun a => decide (a ≤ p))
            (sweepFuel cfg s Side.SELL)
            { clientId := cid, side := Side.BUY, type := OrderType.LIMIT
            , tif := TimeInForce.GFD, priceIdx := p, qty := t, ts := ts } s).1.side = Side.BUY
          from by rw [hq2]] at hc
        exact absurd hc (by decide))
      s1 hsome
    have heffA := addPassive_effects cfg _ _ hInv2 (by rw [hq2]) s1 hsome
    have hOnly1 : OnlyAskLevel cfg p s1 := by
      intro i hi hip
      have h4 : (levelAt s1.asks ((i : Nat) : Int)).data
          = (levelAt (sweep cfg Side.SELL (fun a => decide (a ≤ p))
              (sweepFuel cfg s Side.SELL)
              { clientId := cid, side := Side.BUY, type := OrderType.LIMIT
              , tif := TimeInForce.GFD, priceIdx := p, qty := t, ts := ts } s).2.asks
              ((i : Nat) : Int)).data := by
        rw [heffA.2.1]
      rw [h4]
      exact hss.2.2 i hi hip
    have hqeq : queueView s1 p = queueView (sweep cfg Side.SELL (fun a => decide (a ≤ p))
        (sweepFuel cfg s Side.SELL)
        { clientId := cid, side := Side.BUY, type := OrderType.LIMIT
        , tif := TimeInForce.GFD, priceIdx := p, qty := t, ts := ts } s).2 p := by
      apply queueView_congr
      · rw [heffA.2.1]
      · intro e he
        have hmfe := mem_facts cfg _ hInv2 Side.SELL p e hp0 hpL he
        exact heffA.2.2 e hmfe.1
    exact ⟨hInv1, hOnly1, heffA.1.trans hss.1, hqeq.trans hss.2.1⟩
  · rw [if_neg hres] at hsome
    have hs1 := (Option.some.inj hsome).symm
    subst hs1
    exact ⟨hsw.1, hss.2.2, hss.1, hss.2.1⟩

theorem queueViewBid_congr (s s' : EngineState) (p : Int)
    (hd : (levelAt s'.bids p).data = (levelAt s.bids p).data)
    (hpg : ∀ e ∈ (levelAt s.bids p).data, poolGet s' e = poolGet s e) :
    queueViewBid s' p = queueViewBid s p := by
  unfold queueViewBid
  rw [hd]
  apply List.map_congr_left
  intro e he
  rw [hpg e he]

theorem addPassive_effects_sell (cfg : Config) (taker : Order) (s : EngineState)
    (hInv : Inv cfg s) (hside : taker.side = Side.SELL) :
    ∀ s1, addPassive cfg taker s = some s1 →
      s1.trades = s.trades
      ∧ s1.bids = s.bids
      ∧ (∀ e, (poolGet s e).active = true → poolGet s1 e = poolGet s e) := by
  intro s1 hsome
  unfold addPassive at hsome
  by_cases hrange : taker.priceIdx < 0 ∨ (cfg.nlevels : Int) ≤ taker.priceIdx
  · rw [if_pos hrange] at hsome
    exact Option.noConfusion hsome
  · rw [if_neg hrange] at hsome
    cases hfl : s.freeList with
    | nil =>
        rw [show poolAllocate s taker = none from by unfold poolAllocate; rw [hfl]] at hsome
        exact Option.noConfusion hsome
    | cons idx rest =>
        have hfree0 := hInv.free.2 idx (by rw [hfl]; exact List.mem_cons_self _ _)
        have halloc : poolAllocate s taker = some (idx,
            { s with freeList := rest
                   , pool := s.pool.set idx { taker with engineId := idx, active := true } }) := by
          unfold poolAllocate
          rw [hfl]
        rw [halloc] at hsome
        dsimp only at hsome
        cases hrp : ringPush cfg (levelAt (sideLevels
            { s with freeList := rest
                   , pool := s.pool.set idx { taker with engineId := idx, active := true } }
            taker.side) taker.priceIdx) idx taker.qty with
        | none =>
            rw [hrp] at hsome
            exact Option.noConfusion hsome
        | some pl =>
            rw [hrp] at hsome
            dsimp only at hsome
            have hs1 := (Option.some.inj hsome).symm
            subst hs1
            refine ⟨?_, ?_, ?_⟩
            · dsimp only
              rw [(updateBestAfterAdd_proj _ _ _).2.2.2.2.2,
                (setSideLevel_proj _ _ _ _).2.2.2.2.2]
            · dsimp only
              rw [(updateBestAfterAdd_proj _ _ _).2.2.1, hside]
              exact ((setSideLevel_sell _ _ _).2).trans rfl
            · intro e hact
              have hne : e ≠ idx := by
                intro hc
                rw [hc, hfree0.1] at hact
                exact Bool.noConfusion hact
              unfold poolGet
              dsimp only
              rw [(updateBestAfterAdd_proj _ _ _).1, (setSideLevel_proj _ _ _ _).1]
              dsimp only
              exact getD_set_ne _ _ _ _ _ (fun hc => hne hc.symm)


theorem taker_step_sell (cfg : Config) (p : Int) (ts : Nat) (cid : Nat) (t : Int)
    (s : EngineState) (hInv : Inv cfg s) (hOnly : OnlyBidLevel cfg p s)
    (hp0 : 0 ≤ p) (hpL : p < (cfg.nlevels : Int)) :
    ∀ s1, placeLimit cfg s cid Side.SELL p t ts TimeInForce.GFD = some s1 →
      Inv cfg s1 ∧ OnlyBidLevel cfg p s1
      ∧ s1.trades = s.trades ++ (specConsume cid p ts t (queueViewBid s p)).1
      ∧ queueViewBid s1 p = (specConsume cid p ts t (queueViewBid s p)).2 := by
  intro s1 hsome
  unfold placeLimit matchAndAdd at hsome
  dsimp only at hsome
  have hss := sweep_single_bid cfg p (sweepFuel cfg s Side.BUY)
    { clientId := cid, side := Side.SELL, type := OrderType.LIMIT
    , tif := TimeInForce.GFD, priceIdx := p, qty := t, ts := ts } s hInv hOnly hp0 hpL
    (by unfold sweepFuel; omega)
  have hsw := sweep_inv cfg Side.BUY (fun a => decide (p ≤ a))
    (sweepFuel cfg s Side.BUY)
    { clientId := cid, side := Side.SELL, type := OrderType.LIMIT
    , tif := TimeInForce.GFD, priceIdx := p, qty := t, ts := ts } s hInv
    (by unfold sweepFuel; omega)
  dsimp only at hss
  obtain ⟨q2, hq2, hle⟩ := hsw.2.2.2
  by_cases hres : 0 < (sweep cfg Side.BUY (fun a => decide (p ≤ a))
      (sweepFuel cfg s Side.BUY)
      { clientId := cid, side := Side.SELL, type := OrderType.LIMIT
      , tif := TimeInForce.GFD, priceIdx := p, qty := t, ts := ts } s).1.qty
      ∧ (sweep cfg Side.BUY (fun a => decide (p ≤ a))
          (sweepFuel cfg s Side.BUY)
          { clientId := cid, side := Side.SELL, type := OrderType.LIMIT
          , tif := TimeInForce.GFD, priceIdx := p, qty := t, ts := ts } s).1.type
        = OrderType.LIMIT
  · rw [if_pos hres] at hsome
    have hexit := hsw.2.1
    have hInv2 := hsw.1
    have hInv1 := addPassive_master cfg _ _ hInv2 hres.1
      (fun hc => by
        rw [show (sweep cfg Side.BUY (fun a => decide (p ≤ a))
            (sweepFuel cfg s Side.BUY)
            { clientId := cid, side := Side.SELL, type := OrderType.LIMIT
            , tif := TimeInForce.GFD, priceIdx := p, qty := t, ts := ts } s).1.side = Side.SELL
          from by rw [hq2]] at hc
        exact absurd hc (by decide))
      (fun _ => by
        rw [show (sweep cfg Side.BUY (fun a => decide (p ≤ a))
            (sweepFuel cfg s Side.BUY)
            { clientId := cid, side := Side.SELL, type := OrderType.LIMIT
            , tif := TimeInForce.GFD, priceIdx := p, qty := t, ts := ts } s).1.priceIdx = p
          from by rw [hq2]]
        by_cases hm : sideBest (sweep cfg Side.BUY (fun a => decide (p ≤ a))
            (sweepFuel cfg s Side.BUY)
            { clientId := cid, side := Side.SELL, type := OrderType.LIMIT
            , tif := TimeInForce.GFD, priceIdx := p, qty := t, ts := ts } s).2 Side.BUY = -1
        · exact Or.inl hm
        · right
          by_contra hnot
          push_neg at hnot
          exact hexit ⟨hres.1, hm, by simpa using hnot⟩)
      s1 hsome
    have heffA := addPassive_effects_sell cfg _ _ hInv2 (by rw [hq2]) s1 hsome
    have hOnly1 : OnlyBidLevel cfg p s1 := by
      intro i hi hip
      have h4 : (levelAt s1.bids ((i : Nat) : Int)).data
          = (levelAt (sweep cfg Side.BUY (fun a => decide (p ≤ a))
              (sweepFuel cfg s Side.BUY)
              { clientId := cid, side := Side.SELL, type := OrderType.LIMIT
              , tif := TimeInForce.GFD, priceIdx := p, qty := t, ts := ts } s).2.bids
              ((i : Nat) : Int)).data := by
        rw [heffA.2.1]
      rw [h4]
      exact hss.2.2 i hi hip
    have hqeq : queueViewBid s1 p = queueViewBid (sweep cfg Side.BUY (fun a => decide (p ≤ a))
        (sweepFuel cfg s Side.BUY)
        { clientId := cid, side := Side.SELL, type := OrderType.LIMIT
        , tif := TimeInForce.GFD, priceIdx := p, qty := t, ts := ts } s).2 p := by
      apply queueViewBid_congr
      · rw [heffA.2.1]
      · intro e he
        have hmfe := mem_facts cfg _ hInv2 Side.BUY p e hp0 hpL he
        exact heffA.2.2 e hmfe.1
    exact ⟨hInv1, hOnly1, heffA.1.trans hss.1, hqeq.trans hss.2.1⟩
  · rw [if_neg hres] at hsome
    have hs1 := (Option.some.inj hsome).symm
    subst hs1
    exact ⟨hsw.1, hss.2.2, hss.1, hss.2.1⟩


/-- C4: price/time priority against a single resting queue, in both
directions.  On a book whose only resting orders form the single FIFO
queue at level p — on the ask side against BUY limit takers, or on the
bid side against SELL limit takers — a sequence of limit takers at
level p is filled by consuming the resting makers strictly from the
queue head in their admission order, with the trades and the remaining
queue exactly as computed by the spec-side FIFO consumption
specConsumeAll (each sweep iteration matches the best — here unique —
opposite level at its head). -/
theorem claim_C4 (cfg : Config) (p : Int) (ts : Nat) (takers : List (Nat × Int))
    (s : EngineState) (hInv : Inv cfg s)
    (hp0 : 0 ≤ p) (hpL : p < (cfg.nlevels : Int)) :
    (OnlyAskLevel cfg p s → ∀ s9, runTakers cfg p ts takers s = some s9 →
      s9.trades = s.trades ++ (specConsumeAll p ts takers (queueView s p)).1
      ∧ queueView s9 p = (specConsumeAll p ts takers (queueView s p)).2)
    ∧ (OnlyBidLevel cfg p s → ∀ s9, runTakersSell cfg p ts takers s = some s9 →
      s9.trades = s.trades ++ (specConsumeAll p ts takers (queueViewBid s p)).1
      ∧ queueViewBid s9 p = (specConsumeAll p ts takers (queueViewBid s p)).2) := by
  constructor
  · intro hOnly
    revert hInv hOnly
    induction takers generalizing s with
    | nil =>
        intro hInv hOnly s9 hrun
        unfold runTakers at hrun
        have h := Option.some.inj hrun
        rw [← h]
        exact ⟨by simp [specConsumeAll], rfl⟩
    | cons pr rest ihr =>
        obtain ⟨cid, t⟩ := pr
        intro hInv hOnly s9 hrun
        unfold runTakers at hrun
        cases hpl : placeLimit cfg s cid Side.BUY p t ts TimeInForce.GFD with
        | none =>
            rw [hpl] at hrun
            exact Option.noConfusion hrun
        | some s1 =>
            rw [hpl] at hrun
            have hstep := taker_step cfg p ts cid t s hInv hOnly hp0 hpL s1 hpl
            have hih := ihr s1 hstep.1 hstep.2.1 s9 hrun
            have hSCA : specConsumeAll p ts ((cid, t) :: rest) (queueView s p)
                = ((specConsume cid p ts t (queueView s p)).1
                    ++ (specConsumeAll p ts rest
                        (specConsume cid p ts t (queueView s p)).2).1,
                   (specConsumeAll p ts rest
                      (specConsume cid p ts t (queueView s p)).2).2) := rfl
            rw [hSCA]
            refine ⟨?_, ?_⟩
            · rw [hih.1, hstep.2.2.1, hstep.2.2.2, List.append_assoc]
            · rw [hih.2, hstep.2.2.2]
  · intro hOnly
    revert hInv hOnly
    induction takers generalizing s with
    | nil =>
        intro hInv hOnly s9 hrun
        unfold runTakersSell at hrun
        have h := Option.some.inj hrun
        rw [← h]
        exact ⟨by simp [specConsumeAll], rfl⟩
    | cons pr rest ihr =>
        obtain ⟨cid, t⟩ := pr
        intro hInv hOnly s9 hrun
        unfold runTakersSell at hrun
        cases hpl : placeLimit cfg s cid Side.SELL p t ts TimeInForce.GFD with
        | none =>
            rw [hpl] at hrun
            exact Option.noConfusion hrun
        | some s1 =>
            rw [hpl] at hrun
            have hstep := taker_step_sell cfg p ts cid t s hInv hOnly hp0 hpL s1 hpl
            have hih := ihr s1 hstep.1 hstep.2.1 s9 hrun
            have hSCA : specConsumeAll p ts ((cid, t) :: rest) (queueViewBid s p)
                = ((specConsume cid p ts t (queueViewBid s p)).1
                    ++ (specConsumeAll p ts rest
                        (specConsume cid p ts t (queueViewBid s p)).2).1,
                   (specConsumeAll p ts rest
                      (specConsume cid p ts t (queueViewBid s p)).2).2) := rfl
            rw [hSCA]
            refine ⟨?_, ?_⟩
            · rw [hih.1, hstep.2.2.1, hstep.2.2.2, List.append_assoc]
            · rw [hih.2, hstep.2.2.2]

theorem claim_C4_witness :
    (c4res.trades = c4state.trades
        ++ (specConsumeAll 5 2 [(10, 4)] (queueView c4state 5)).1
      ∧ queueView c4res 5 = (specConsumeAll 5 2 [(10, 4)] (queueView c4state 5)).2)
    ∧ (c4resB.trades = c4stateB.trades
        ++ (specConsumeAll 5 2 [(10, 4)] (queueViewBid c4stateB 5)).1
      ∧ queueViewBid c4resB 5 = (specConsumeAll 5 2 [(10, 4)] (queueViewBid c4stateB 5)).2) :=
  ⟨(claim_C4 testConfig 5 2 [(10, 4)] c4state
      ⟨by decide, by decide, by decide, by decide, by decide, by decide, by decide, by decide,
       by decide⟩
      (by decide) (by decide)).1 (by decide) c4res (by decide),
   (claim_C4 testConfig 5 2 [(10, 4)] c4stateB
      ⟨by decide, by decide, by decide, by decide, by decide, by decide, by decide, by decide,
       by decide⟩
      (by decide) (by decide)).2 (by decide) c4resB (by decide)⟩

end HFTSim
